import Mathlib

/-! Gym management system: dates, record stores, files, reports and equipment status.

A shallow embedding of `GymMS2.c`.

* A C `int` is a mathematical integer (`Int`).  Signed overflow is undefined
  behaviour in C, so the embedding describes the executions without overflow.
  `/` and `%` on `int` truncate toward zero: `Int.tdiv` and `Int.tmod`.
* A heap block of records is a `List`; its length is the number of records the
  block was allocated for.  An access outside the block is undefined behaviour
  and is the `none` result of the function that makes it.
* `malloc` and `realloc` succeed (the `exit(1)` paths taken on allocation
  failure are outside the embedding).
* Text written to standard output is returned as a list of messages.
* Terminal input is given as the outcomes of the successive reads; when they
  run out the function waiting for input has no result.
-/

namespace GymMS

/-! ## Data model -/

/-- The C struct `Date`. -/
structure Date where
  day : Int
  month : Int
  year : Int
  deriving DecidableEq, Repr, Inhabited

/-- The C struct `Member`; a character buffer is the text it holds. -/
structure Member where
  memberID : Int
  firstName : String
  lastName : String
  phoneNum : String
  gender : Char
  emergencyName : String
  emergencyPhone : String
  emergencyRelation : String
  dob : Date
  deriving DecidableEq, Repr, Inhabited

/-- The C struct `MemberList`: `members` is the heap block the pointer refers to. -/
structure MemberList where
  count : Int
  capacity : Int
  members : List Member
  deriving DecidableEq, Repr

/-- The C struct `Equipment`. -/
structure Equipment where
  name : String
  totalQuantity : Int
  functional : Int
  broken : Int
  status : String
  repairETA : Date
  id : Int
  deriving DecidableEq, Repr, Inhabited

/-- The C struct `EquipmentList`: `equipments` is the heap block the pointer refers to. -/
structure EquipmentList where
  count : Int
  capacity : Int
  equipments : List Equipment
  deriving DecidableEq, Repr

/-- The C struct `Report`. -/
structure Report where
  report_ID : Int
  report_date : Date
  total_equipment_count : Int
  total_functional_equipment : Int
  total_broken_equipment : Int
  summary : String
  deriving DecidableEq, Repr, Inhabited

/-! ## Dates -/

/-- The C function `isValidDate`: 1 for a calendar date with a year in
1900..2100, 0 otherwise. -/
def isValidDate (day month year : Int) : Int :=
  if year < 1900 ∨ year > 2100 then 0
  else if month < 1 ∨ month > 12 then 0
  else
    let maxDay : Option Int :=
      if month = 1 ∨ month = 3 ∨ month = 5 ∨ month = 7 ∨ month = 8 ∨ month = 10 ∨ month = 12 then
        some 31
      else if month = 4 ∨ month = 6 ∨ month = 9 ∨ month = 11 then
        some 30
      else if month = 2 then
        if (Int.tmod year 4 = 0 ∧ Int.tmod year 100 ≠ 0) ∨ Int.tmod year 400 = 0 then some 29
        else some 28
      else none
    match maxDay with
    | none => 0
    | some maxDay => if day < 1 ∨ day > maxDay then 0 else 1

/-- The C function `compareDates`: -1, 0 or 1. -/
def compareDates (d1 d2 : Date) : Int :=
  if d1.year < d2.year then -1
  else if d1.year > d2.year then 1
  else
    if d1.month < d2.month then -1
    else if d1.month > d2.month then 1
    else
      if d1.day < d2.day then -1
      else if d1.day > d2.day then 1
      else 0

/-- The C function `calculateAge`. -/
def calculateAge (dob currentDate : Date) : Int :=
  let age := currentDate.year - dob.year
  if currentDate.month < dob.month ∨
      (currentDate.month = dob.month ∧ currentDate.day < dob.day) then
    age - 1
  else age

/-! ## Heap blocks -/

/-- The read `block[i]`; outside the block it is undefined behaviour (`none`). -/
def readAt {α : Type} (block : List α) (i : Int) : Option α :=
  if 0 ≤ i then block.get? i.toNat else none

/-- The write `block[i] = v`; outside the block it is undefined behaviour (`none`). -/
def writeAt {α : Type} (block : List α) (i : Int) (v : α) : Option (List α) :=
  if 0 ≤ i ∧ i < block.length then some (block.set i.toNat v) else none

/-- The library call `realloc(block, n * sizeof(record))`: the new block has `n`
records, the first `min n length` of them are the old ones; the contents of an
added part are indeterminate and are filled with the default record. -/
def realloc {α : Type} [Inhabited α] (block : List α) (n : Int) : List α :=
  block.take n.toNat ++ List.replicate (n.toNat - block.length) default

/-- The scan loop of the delete functions,
`for (i = 0; i < count; i++) if (block[i].id == id) { foundIndex = i; break; }`,
with `n` iterations left before `i` reaches `count`; the result is `foundIndex`
(-1 when the loop ends without a match). -/
def findIndexFrom {α : Type} (key : α → Int) (block : List α) (id : Int) : Nat → Int → Option Int
  | 0, _ => some (-1)
  | n + 1, i =>
    match readAt block i with
    | none => none
    | some r => if key r = id then some i else findIndexFrom key block id n (i + 1)

/-- The compaction loop of the delete functions,
`for (i = foundIndex; i < count - 1; i++) block[i] = block[i+1];`,
with `n` iterations left before `i` reaches `count - 1`. -/
def shiftLeftFrom {α : Type} (block : List α) : Nat → Int → Option (List α)
  | 0, _ => some block
  | n + 1, i =>
    match readAt block (i + 1) with
    | none => none
    | some r =>
      match writeAt block i r with
      | none => none
      | some block1 => shiftLeftFrom block1 n (i + 1)

/-! ## The member store -/

/-- The C function `addMember`. -/
def addMember (list : MemberList) (member : Member) : Option MemberList :=
  let list : MemberList :=
    if list.count = list.capacity then
      { list with
        capacity := list.capacity * 2
        members := realloc list.members (list.capacity * 2) }
    else list
  match writeAt list.members list.count member with
  | none => none
  | some block => some { list with members := block, count := list.count + 1 }

/-- The C function `deleteMember`; the second component is what it prints. -/
def deleteMember (list : MemberList) (memberID : Int) : Option (MemberList × List String) :=
  match findIndexFrom Member.memberID list.members memberID list.count.toNat 0 with
  | none => none
  | some foundIndex =>
    if foundIndex = -1 then
      some (list, ["Member with ID " ++ toString memberID ++ " not found.\n"])
    else
      match shiftLeftFrom list.members (list.count - 1 - foundIndex).toNat foundIndex with
      | none => none
      | some block =>
        let list : MemberList := { list with members := block, count := list.count - 1 }
        if list.count > 0 ∧ list.count ≤ Int.tdiv list.capacity 2 then
          some ({ list with
                  capacity := Int.tdiv list.capacity 2
                  members := realloc list.members (Int.tdiv list.capacity 2) }, [])
        else some (list, [])

/-- The records the store holds: the first `count` records of the block. -/
def MemberList.records (list : MemberList) : List Member :=
  list.members.take list.count.toNat

/-- The block of the store has exactly `capacity` records (what `malloc` and
`realloc` are asked for). -/
def MemberList.Allocated (list : MemberList) : Prop :=
  (list.members.length : Int) = list.capacity

instance (list : MemberList) : Decidable list.Allocated := by
  unfold MemberList.Allocated; infer_instance

/-! ## The equipment store -/

/-- The C function `addEquipment`. -/
def addEquipment (list : EquipmentList) (equipment : Equipment) : Option EquipmentList :=
  let list : EquipmentList :=
    if list.count = list.capacity then
      { list with
        capacity := list.capacity * 2
        equipments := realloc list.equipments (list.capacity * 2) }
    else list
  match writeAt list.equipments list.count equipment with
  | none => none
  | some block => some { list with equipments := block, count := list.count + 1 }

/-- The C function `deleteEquipment`; the second component is what it prints. -/
def deleteEquipment (list : EquipmentList) (equipmentID : Int) :
    Option (EquipmentList × List String) :=
  match findIndexFrom Equipment.id list.equipments equipmentID list.count.toNat 0 with
  | none => none
  | some foundIndex =>
    if foundIndex = -1 then
      some (list, ["Equipment with ID " ++ toString equipmentID ++ " not found.\n"])
    else
      match shiftLeftFrom list.equipments (list.count - 1 - foundIndex).toNat foundIndex with
      | none => none
      | some block =>
        let list : EquipmentList := { list with equipments := block, count := list.count - 1 }
        if list.count > 0 ∧ list.count ≤ Int.tdiv list.capacity 2 then
          some ({ list with
                  capacity := Int.tdiv list.capacity 2
                  equipments := realloc list.equipments (Int.tdiv list.capacity 2) }, [])
        else some (list, [])

/-- The records the store holds: the first `count` records of the block. -/
def EquipmentList.records (list : EquipmentList) : List Equipment :=
  list.equipments.take list.count.toNat

/-- The block of the store has exactly `capacity` records. -/
def EquipmentList.Allocated (list : EquipmentList) : Prop :=
  (list.equipments.length : Int) = list.capacity

instance (list : EquipmentList) : Decidable list.Allocated := by
  unfold EquipmentList.Allocated; infer_instance

/-! ## Lookup -/

/-- The loop of `findMemberByID`,
`for (i = 0; i < count; i++) if (members[i].memberID == memberID) return &members[i];`,
with `n` iterations left; a pointer to `members[i]` is the index `i`, `NULL` is `none`. -/
def findMemberFrom (block : List Member) (memberID : Int) : Nat → Int → Option (Option Int)
  | 0, _ => some none
  | n + 1, i =>
    match readAt block i with
    | none => none
    | some r => if r.memberID = memberID then some (some i) else findMemberFrom block memberID n (i + 1)

/-- The C function `findMemberByID`: the store after the call (the function
writes nothing) and the pointer returned. -/
def findMemberByID (list : MemberList) (memberID : Int) : Option (MemberList × Option Int) :=
  match findMemberFrom list.members memberID list.count.toNat 0 with
  | none => none
  | some ptr => some (list, ptr)

/-- The record the pointer returned by `findMemberByID` refers to (the read
`*ptr` of the caller); `some none` stands for the `NULL` pointer. -/
def findMemberRecord (list : MemberList) (memberID : Int) : Option (Option Member) :=
  match findMemberByID list memberID with
  | none => none
  | some (_, none) => some none
  | some (list1, some i) =>
    match readAt list1.members i with
    | none => none
    | some r => some (some r)

/-! ## Data files -/

/-- A data file of the program: the count written first, then whole records. -/
structure DataFile (α : Type) where
  count : Int
  records : List α
  deriving DecidableEq, Repr

/-- The conversion of an `int` to `size_t` (64 bits): a non-negative value is
kept, a negative one wraps to `2 ^ 64 + n`. -/
def toSizeT (n : Int) : Nat :=
  if 0 ≤ n then n.toNat else (2 ^ 64 + n).toNat

/-- The library call `malloc(n * sizeof(record))`: a block of `n` records with
indeterminate contents, filled with the default record. -/
def malloc {α : Type} [Inhabited α] (n : Int) : List α :=
  List.replicate n.toNat default

/-- The library call `fread(block, sizeof(record), nmemb, file)` on a file
whose unread part is `data`: at most `nmemb` records are copied to the start
of the block; more records than the block has is a write outside the block. -/
def fread {α : Type} (block : List α) (nmemb : Nat) (data : List α) : Option (List α) :=
  let items := data.take nmemb
  if items.length ≤ block.length then some (items ++ block.drop items.length) else none

/-- The library call `fwrite(block, sizeof(record), nmemb, file)`: the records
written; more records than the block has is a read outside the block. -/
def fwrite {α : Type} (block : List α) (nmemb : Nat) : Option (List α) :=
  if nmemb ≤ block.length then some (block.take nmemb) else none

/-- The loop of the load functions that recomputes the next id,
`for (i = 0; i < count; i++) if (block[i].id >= next) next = block[i].id + 1;`,
with `n` iterations left. -/
def nextIdFrom {α : Type} (key : α → Int) (block : List α) : Nat → Int → Int → Option Int
  | 0, _, next => some next
  | n + 1, i, next =>
    match readAt block i with
    | none => none
    | some r => nextIdFrom key block n (i + 1) (if key r ≥ next then key r + 1 else next)

/-- The C function `saveMembersToFile`.  `disk` is the file before the call
and `opened` tells whether `fopen` for writing succeeded; the result is the
file after the call and what is printed. -/
def saveMembersToFile (list : MemberList) (disk : Option (DataFile Member)) (opened : Bool) :
    Option (Option (DataFile Member) × List String) :=
  if opened = false then some (disk, ["Error opening file for writing!\n"])
  else
    match fwrite list.members (toSizeT list.count) with
    | none => none
    | some records => some (some ⟨list.count, records⟩, [])

/-- The C function `loadMembersFromFile`.  `file` is `none` when `fopen` for
reading fails; the result is the store and the value left in `nextMemberID`. -/
def loadMembersFromFile (list : MemberList) (file : Option (DataFile Member)) :
    Option (MemberList × Int) :=
  match file with
  | none => some ({ list with count := 0, capacity := 10, members := malloc 10 }, 1)
  | some f =>
    let list : MemberList := { list with count := f.count }
    let list : MemberList := { list with capacity := if list.count > 10 then list.count else 10 }
    let list : MemberList := { list with members := malloc list.capacity }
    match fread list.members (toSizeT list.count) f.records with
    | none => none
    | some block =>
      let list : MemberList := { list with members := block }
      match nextIdFrom Member.memberID list.members list.count.toNat 0 1 with
      | none => none
      | some nextMemberID => some (list, nextMemberID)

/-- The C function `saveEquipmentToFile`. -/
def saveEquipmentToFile (list : EquipmentList) (disk : Option (DataFile Equipment))
    (opened : Bool) : Option (Option (DataFile Equipment) × List String) :=
  if opened = false then some (disk, ["Error opening equipment file for writing!\n"])
  else
    match fwrite list.equipments (toSizeT list.count) with
    | none => none
    | some records => some (some ⟨list.count, records⟩, [])

/-- The C function `loadEquipmentFromFile`. -/
def loadEquipmentFromFile (list : EquipmentList) (file : Option (DataFile Equipment)) :
    Option (EquipmentList × Int) :=
  match file with
  | none => some ({ list with count := 0, capacity := 10, equipments := malloc 10 }, 1)
  | some f =>
    let list : EquipmentList := { list with count := f.count }
    let list : EquipmentList :=
      { list with capacity := if list.count > 10 then list.count else 10 }
    let list : EquipmentList := { list with equipments := malloc list.capacity }
    match fread list.equipments (toSizeT list.count) f.records with
    | none => none
    | some block =>
      let list : EquipmentList := { list with equipments := block }
      match nextIdFrom Equipment.id list.equipments list.count.toNat 0 1 with
      | none => none
      | some nextEquipmentID => some (list, nextEquipmentID)

/-- The predicate `0 <= count <= capacity` on a member store. -/
def MemberList.Inv (list : MemberList) : Prop :=
  0 ≤ list.count ∧ list.count ≤ list.capacity

instance (list : MemberList) : Decidable list.Inv := by
  unfold MemberList.Inv; infer_instance

/-- The predicate `0 <= count <= capacity` on an equipment store. -/
def EquipmentList.Inv (list : EquipmentList) : Prop :=
  0 ≤ list.count ∧ list.count ≤ list.capacity

instance (list : EquipmentList) : Decidable list.Inv := by
  unfold EquipmentList.Inv; infer_instance

/-! ## Reports -/

/-- The `printf` conversion `%0<width>d`: the decimal digits of `n`, padded
with zeros after the sign to at least `width` characters. -/
def formatZeroPadded (width : Nat) (n : Int) : String :=
  let digits := toString n.natAbs
  let sign := if n < 0 then "-" else ""
  sign ++ String.mk (List.replicate (width - (sign.length + digits.length)) '0') ++ digits

/-- The library call `snprintf(buffer, size, ...)` on the formatted text: at
most `size - 1` characters are stored. -/
def snprintf (size : Nat) (text : String) : String :=
  String.mk (text.data.take (size - 1))

/-- The loop of `generateReport`, which adds the three counts of `block[i]` to
the totals of the report, with `n` iterations left. -/
def generateReportLoop (block : List Equipment) : Nat → Int → Report → Option Report
  | 0, _, report => some report
  | n + 1, i, report =>
    match readAt block i with
    | none => none
    | some e =>
      let report : Report :=
        { report with total_equipment_count := report.total_equipment_count + e.totalQuantity }
      let report : Report :=
        { report with
          total_functional_equipment := report.total_functional_equipment + e.functional }
      let report : Report :=
        { report with total_broken_equipment := report.total_broken_equipment + e.broken }
      generateReportLoop block n (i + 1) report

/-- The C function `generateReport`; `currentDate` is what `getCurrentDate`
reads from the clock.  The result is the report written and what is printed. -/
def generateReport (list : EquipmentList) (report : Report) (currentDate : Date) :
    Option (Report × List String) :=
  let report : Report := { report with total_equipment_count := 0 }
  let report : Report := { report with total_functional_equipment := 0 }
  let report : Report := { report with total_broken_equipment := 0 }
  match generateReportLoop list.equipments list.count.toNat 0 report with
  | none => none
  | some report =>
    let report : Report := { report with report_date := currentDate }
    let report : Report :=
      { report with
        summary := snprintf 200
          ("Total Equipment: " ++ toString report.total_equipment_count
            ++ "\nFunctional Equipment: " ++ toString report.total_functional_equipment
            ++ "\nBroken Equipment: " ++ toString report.total_broken_equipment ++ "\n") }
    some (report,
      ["Report Date: " ++ formatZeroPadded 2 report.report_date.day ++ "/"
          ++ formatZeroPadded 2 report.report_date.month ++ "/"
          ++ formatZeroPadded 4 report.report_date.year ++ "\n",
        report.summary])

/-! ## Equipment status

The terminal input of `updateEquipmentStatus` is given as the outcomes of its
successive `scanf` calls: `none` for a line `scanf` cannot convert (the rest of
the line is then discarded), the converted values otherwise.  When the
outcomes run out the call waits for input and does not return (`none`). -/

/-- The menu `updateEquipmentStatus` prints before it reads the choice. -/
def statusMenu : List String :=
  ["Select new status:\n", "1. Operational\n", "2. Under Maintenance\n",
    "Choose an option (1-2): "]

/-- The first loop of `updateEquipmentStatus`: it reads until the choice is 1
or 2; the result is `statusChoice` and what is printed. -/
def readStatusChoice : List (Option Int) → Option (Int × List String)
  | [] => none
  | none :: rest =>
    match readStatusChoice rest with
    | none => none
    | some (statusChoice, out) =>
      some (statusChoice, statusMenu ++ ["Invalid input. Please enter 1 or 2.\n"] ++ out)
  | some statusChoice :: rest =>
    if statusChoice = 1 ∨ statusChoice = 2 then some (statusChoice, statusMenu)
    else
      match readStatusChoice rest with
      | none => none
      | some (statusChoice, out) =>
        some (statusChoice, statusMenu ++ ["Invalid choice. Please select 1 or 2.\n"] ++ out)

/-- One pass of the second loop of `updateEquipmentStatus` on one `scanf`
outcome: the record afterwards, what is printed, and whether the loop is left
(`break`). -/
def repairETAAttempt (equipment : Equipment) (currentDate : Date)
    (input : Option (Int × Int × Int)) : Equipment × List String × Bool :=
  match input with
  | none =>
    (equipment,
      ["Enter the repair ETA (dd mm yyyy): ",
        "Error: Invalid date format. Please enter the day, month, and year as integers.\n"],
      false)
  | some (day, month, year) =>
    if isValidDate day month year = 0 then
      (equipment,
        ["Enter the repair ETA (dd mm yyyy): ",
          "Error: Invalid date entered. Please enter a valid date.\n"],
        false)
    else
      let repairETA : Date := ⟨day, month, year⟩
      let cmpResult := compareDates repairETA currentDate
      if cmpResult < 0 then
        (equipment,
          ["Enter the repair ETA (dd mm yyyy): ", "Error: Repair ETA cannot be in the past.\n"],
          false)
      else
        let equipment : Equipment :=
          { equipment with repairETA := { equipment.repairETA with day := day } }
        let equipment : Equipment :=
          { equipment with repairETA := { equipment.repairETA with month := month } }
        let equipment : Equipment :=
          { equipment with repairETA := { equipment.repairETA with year := year } }
        (equipment, ["Enter the repair ETA (dd mm yyyy): "], true)

/-- The second loop of `updateEquipmentStatus`: passes until one is left by `break`. -/
def repairETALoop (equipment : Equipment) (currentDate : Date) :
    List (Option (Int × Int × Int)) → Option (Equipment × List String)
  | [] => none
  | input :: rest =>
    match repairETAAttempt equipment currentDate input with
    | (equipment, out, true) => some (equipment, out)
    | (equipment, out, false) =>
      match repairETALoop equipment currentDate rest with
      | none => none
      | some (equipment, out1) => some (equipment, out ++ out1)

/-- The C function `updateEquipmentStatus`; `currentDate` is what
`getCurrentDate` reads from the clock, `choices` and `dates` are the outcomes
of the `scanf` calls of the first and of the second loop. -/
def updateEquipmentStatus (equipment : Equipment) (currentDate : Date)
    (choices : List (Option Int)) (dates : List (Option (Int × Int × Int))) :
    Option (Equipment × List String) :=
  let out0 := ["Current status: " ++ equipment.status ++ "\n"]
  match readStatusChoice choices with
  | none => none
  | some (statusChoice, out1) =>
    if statusChoice = 1 then
      let equipment : Equipment := { equipment with status := "Operational" }
      let equipment : Equipment :=
        { equipment with repairETA := { equipment.repairETA with day := 0 } }
      let equipment : Equipment :=
        { equipment with repairETA := { equipment.repairETA with month := 0 } }
      let equipment : Equipment :=
        { equipment with repairETA := { equipment.repairETA with year := 0 } }
      some (equipment,
        out0 ++ out1 ++ ["The equipment status has been successfully updated.\n"])
    else
      let equipment : Equipment := { equipment with status := "Under Maintenance" }
      match repairETALoop equipment currentDate dates with
      | none => none
      | some (equipment, out2) =>
        some (equipment,
          out0 ++ out1 ++ out2 ++ ["The equipment status has been successfully updated.\n"])

/-! ## Equipment creation

The add case of `equipmentManagementMenu` up to the call of `addEquipment`.
As for `updateEquipmentStatus`, the terminal input is given as the outcomes of
the successive reads of each loop; the date loop reads the clock in every pass,
so each of its outcomes comes with the date read in that pass. -/

/-- What a loop prints before a retry, put in front of what the retry prints. -/
def retryWith {α : Type} (out : List String) : Option (α × List String) → Option (α × List String)
  | none => none
  | some (a, out1) => some (a, out ++ out1)

/-- The name loop: it reads lines until one is not empty. -/
def readEquipmentName : List String → Option (String × List String)
  | [] => none
  | name :: rest =>
    if name.length < 1 then
      retryWith ["Enter equipment name: ", "Equipment name cannot be empty.\n"]
        (readEquipmentName rest)
    else some (name, ["Enter equipment name: "])

/-- The quantity loop: it reads until `scanf` converts a number above 0. -/
def readTotalQuantity : List (Option Int) → Option (Int × List String)
  | [] => none
  | none :: rest =>
    retryWith ["Enter total quantity: ", "Invalid input. Please enter a positive number.\n"]
      (readTotalQuantity rest)
  | some totalQuantity :: rest =>
    if totalQuantity ≤ 0 then
      retryWith ["Enter total quantity: ", "Invalid input. Please enter a positive number.\n"]
        (readTotalQuantity rest)
    else some (totalQuantity, ["Enter total quantity: "])

/-- The two yes/no loops (they differ in the question printed): they read
until `scanf` converts 1 or 2. -/
def readOneOrTwo (question : String) : List (Option Int) → Option (Int × List String)
  | [] => none
  | none :: rest =>
    retryWith [question, "1. Yes\n", "2. No\n", "Choose an option (1-2): ",
        "Invalid input. Please enter 1 or 2.\n"]
      (readOneOrTwo question rest)
  | some choice :: rest =>
    if choice ≠ 1 ∧ choice ≠ 2 then
      retryWith [question, "1. Yes\n", "2. No\n", "Choose an option (1-2): ",
          "Invalid input. Please enter 1 or 2.\n"]
        (readOneOrTwo question rest)
    else some (choice, [question, "1. Yes\n", "2. No\n", "Choose an option (1-2): "])

/-- The loop for the number of broken units: it reads until `scanf` converts a
number from 0 to `totalQuantity`. -/
def readBrokenCount (totalQuantity : Int) : List (Option Int) → Option (Int × List String)
  | [] => none
  | none :: rest =>
    retryWith ["Enter the number of broken equipments: ",
        "Invalid input. Please enter a number between 0 and " ++ toString totalQuantity ++ ".\n"]
      (readBrokenCount totalQuantity rest)
  | some broken :: rest =>
    if broken < 0 ∨ broken > totalQuantity then
      retryWith ["Enter the number of broken equipments: ",
          "Invalid input. Please enter a number between 0 and " ++ toString totalQuantity
            ++ ".\n"]
        (readBrokenCount totalQuantity rest)
    else some (broken, ["Enter the number of broken equipments: "])

/-- The part of the creation that sets `functional` and `broken`: one unit is
functional or not; several units are all functional or a number of them is
broken.  The result is (functional, broken) and what is printed. -/
def readQuantitySplit (totalQuantity : Int) (choices brokens : List (Option Int)) :
    Option ((Int × Int) × List String) :=
  if totalQuantity = 1 then
    match readOneOrTwo "Is the equipment functional?\n" choices with
    | none => none
    | some (functionalChoice, out) =>
      if functionalChoice = 1 then some ((1, 0), out) else some ((0, 1), out)
  else
    match readOneOrTwo "Are all equipments functional?\n" choices with
    | none => none
    | some (allFunctionalChoice, out) =>
      if allFunctionalChoice = 1 then some ((totalQuantity, 0), out)
      else
        match readBrokenCount totalQuantity brokens with
        | none => none
        | some (broken, out1) => some ((totalQuantity - broken, broken), out ++ out1)

/-- The repair-ETA loop of the creation: it reads until `scanf` converts three
numbers that `isValidDate` accepts and that are not before the date the clock
gives in that pass. -/
def readCreationETA : List (Option (Int × Int × Int) × Date) → Option (Date × List String)
  | [] => none
  | (none, _) :: rest =>
    retryWith ["Enter repair ETA (dd mm yyyy): ",
        "Invalid date format. Please enter day month year as numbers.\n"]
      (readCreationETA rest)
  | (some (day, month, year), currentDate) :: rest =>
    if isValidDate day month year = 0 then
      retryWith ["Enter repair ETA (dd mm yyyy): ",
          "Invalid date entered. Please enter a valid date.\n"]
        (readCreationETA rest)
    else
      let repairETA : Date := ⟨day, month, year⟩
      let cmpResult := compareDates repairETA currentDate
      if cmpResult < 0 then
        retryWith ["Enter repair ETA (dd mm yyyy): ",
            "Error: Repair ETA cannot be in the past.\n"]
          (readCreationETA rest)
      else some (repairETA, ["Enter repair ETA (dd mm yyyy): "])

/-- The record the add case of `equipmentManagementMenu` builds before it calls
`addEquipment`: `nextEquipmentID` is the id it takes from the counter. -/
def createEquipment (nextEquipmentID : Int) (names : List String)
    (quantities choices brokens : List (Option Int))
    (dates : List (Option (Int × Int × Int) × Date)) : Option (Equipment × List String) :=
  match readEquipmentName names with
  | none => none
  | some (name, out1) =>
    match readTotalQuantity quantities with
    | none => none
    | some (totalQuantity, out2) =>
      match readQuantitySplit totalQuantity choices brokens with
      | none => none
      | some ((functional, broken), out3) =>
        if broken > 0 then
          match readCreationETA dates with
          | none => none
          | some (repairETA, out4) =>
            some ({ name := name, totalQuantity := totalQuantity, functional := functional,
                    broken := broken, status := "Under Maintenance", repairETA := repairETA,
                    id := nextEquipmentID },
              out1 ++ out2 ++ out3 ++ out4)
        else
          some ({ name := name, totalQuantity := totalQuantity, functional := functional,
                  broken := broken, status := "Operational", repairETA := ⟨0, 0, 0⟩,
                  id := nextEquipmentID },
            out1 ++ out2 ++ out3)

/-- One call of `updateEquipmentStatus`: the date of the call and its input. -/
structure StatusCall where
  currentDate : Date
  choices : List (Option Int)
  dates : List (Option (Int × Int × Int))
  deriving DecidableEq, Repr

/-- A sequence of calls of `updateEquipmentStatus` on one record, each of which
returns. -/
def runStatusCalls : Equipment → List StatusCall → Option Equipment
  | equipment, [] => some equipment
  | equipment, call :: calls =>
    match updateEquipmentStatus equipment call.currentDate call.choices call.dates with
    | none => none
    | some (equipment1, _) => runStatusCalls equipment1 calls

/-- The record in memory when `updateEquipmentStatus`, the choice 2 taken, has
made the first pass of its date loop on `input`: the status has been written,
then the pass has run.  The third component tells whether the pass accepted. -/
def afterFirstRepairETAAttempt (equipment : Equipment) (currentDate : Date)
    (input : Option (Int × Int × Int)) : Equipment × List String × Bool :=
  repairETAAttempt { equipment with status := "Under Maintenance" } currentDate input

/-- A repair ETA as a call accepts it on the date `today`: `isValidDate`
returns 1 and the ETA is not before `today`. -/
def EtaAccepted (eta today : Date) : Prop :=
  isValidDate eta.day eta.month eta.year = 1 ∧ compareDates eta today ≥ 0

instance (eta today : Date) : Decidable (EtaAccepted eta today) := by
  unfold EtaAccepted; infer_instance

/-- A pass of the repair-ETA loop of the creation that does not leave the loop
(GymMS2.c:1102-1126): `scanf` did not convert three numbers, or `isValidDate`
rejects them, or they are before the date the clock gives in that pass. -/
def PassRejects (pass : Option (Int × Int × Int) × Date) : Prop :=
  match pass.1 with
  | none => True
  | some (day, month, year) => ¬ EtaAccepted ⟨day, month, year⟩ pass.2

/-! ## The generic record store of the specification

`RecordStore<T>` as the specification words it (sections 4.2 and 4.5), for the
comparison with the two stores of the program. -/

/-- The record store of the specification seen as the claims see it: the
records in stored order, their count and the capacity. -/
structure RecordStore (α : Type) where
  records : List α
  count : Int
  capacity : Int
  deriving DecidableEq, Repr

/-- As the specification words it, `insert(record)`: appends; grows capacity by
doubling when full. -/
def RecordStore.insert {α : Type} (s : RecordStore α) (record : α) : RecordStore α :=
  { records := s.records ++ [record]
    count := s.count + 1
    capacity := if s.count = s.capacity then 2 * s.capacity else s.capacity }

/-- As the specification words it, `deleteById(id) -> bool`: the first match is
removed with the order of the others kept and the count decremented, then the
capacity is halved if count > 0 and count <= capacity/2; an absent id changes
nothing and gives false. -/
def RecordStore.deleteById {α : Type} (key : α → Int) (s : RecordStore α) (id : Int) :
    RecordStore α × Bool :=
  if s.records.findIdx (fun r => decide (key r = id)) < s.records.length then
    ({ records := s.records.eraseIdx (s.records.findIdx (fun r => decide (key r = id)))
       count := s.count - 1
       capacity :=
        if s.count - 1 > 0 ∧ s.count - 1 ≤ s.capacity / 2 then s.capacity / 2
        else s.capacity },
      true)
  else (s, false)

/-- As the specification words it, `load` of an existing file: the count is
read, then that many records, the capacity is `max(count, 10)`, and the next
id is `max(all loaded ids) + 1`, 1 for an empty store. -/
def RecordStore.load {α : Type} (key : α → Int) (file : DataFile α) : RecordStore α × Int :=
  ({ records := file.records, count := file.count, capacity := max file.count 10 },
    (file.records.map key).foldl (fun next id => max next (id + 1)) 1)

/-- A record store with every record abstracted to its id. -/
def RecordStore.ids {α : Type} (key : α → Int) (s : RecordStore α) : RecordStore Int :=
  { records := s.records.map key, count := s.count, capacity := s.capacity }

/-- A data file with every record abstracted to its id. -/
def DataFile.ids {α : Type} (key : α → Int) (f : DataFile α) : DataFile Int :=
  { count := f.count, records := f.records.map key }

/-- The member store as a record store: its first `count` records, its count
and its capacity. -/
def MemberList.toRecordStore (list : MemberList) : RecordStore Member :=
  { records := list.records, count := list.count, capacity := list.capacity }

/-- The equipment store as a record store. -/
def EquipmentList.toRecordStore (list : EquipmentList) : RecordStore Equipment :=
  { records := list.records, count := list.count, capacity := list.capacity }

/-! ## Sequences of operations -/

/-- An operation on a record store: the insert of a record or the delete of an id. -/
inductive StoreOp (α : Type) where
  | insert (record : α)
  | delete (id : Int)
  deriving DecidableEq, Repr

/-- The records a sequence of operations inserts, in the order of the inserts. -/
def insertedRecords {α : Type} : List (StoreOp α) → List α
  | [] => []
  | StoreOp.insert r :: ops => r :: insertedRecords ops
  | StoreOp.delete _ :: ops => insertedRecords ops

/-- A sequence of inserts (`add`) and deletes (`del`) run on a store; the
second result is the number of deletes whose id was among the records of the
store (`recs`) when the delete was called. -/
def runOps {S α : Type} (key : α → Int) (add : S → α → Option S)
    (del : S → Int → Option (S × List String)) (recs : S → List α) :
    S → List (StoreOp α) → Option (S × Nat)
  | s, [] => some (s, 0)
  | s, StoreOp.insert r :: ops =>
    match add s r with
    | none => none
    | some s1 => runOps key add del recs s1 ops
  | s, StoreOp.delete id :: ops =>
    match del s id with
    | none => none
    | some (s1, _) =>
      match runOps key add del recs s1 ops with
      | none => none
      | some (s2, k) => some (s2, if ∃ r ∈ recs s, key r = id then k + 1 else k)

/-- A sequence of `addMember` and `deleteMember` calls. -/
def runMemberOps : MemberList → List (StoreOp Member) → Option (MemberList × Nat) :=
  runOps Member.memberID addMember deleteMember MemberList.records

/-- A sequence of `addEquipment` and `deleteEquipment` calls. -/
def runEquipmentOps : EquipmentList → List (StoreOp Equipment) → Option (EquipmentList × Nat) :=
  runOps Equipment.id addEquipment deleteEquipment EquipmentList.records

/-- The add case of `memberManagementMenu`:
`newMember.memberID = (*nextMemberID)++;`, the other fields are read from the
terminal (`input`), then `addMember(memberList, &newMember)`. -/
def menuAddMember (memberList : MemberList) (nextMemberID : Int) (input : Member) :
    Option (MemberList × Int) :=
  let newMember : Member := { input with memberID := nextMemberID }
  let nextMemberID := nextMemberID + 1
  match addMember memberList newMember with
  | none => none
  | some memberList => some (memberList, nextMemberID)

/-- The delete case of `memberManagementMenu`: `deleteMember(memberList, deleteID)`. -/
def menuDeleteMember (memberList : MemberList) (nextMemberID : Int) (deleteID : Int) :
    Option (MemberList × Int) :=
  match deleteMember memberList deleteID with
  | none => none
  | some (memberList, _) => some (memberList, nextMemberID)

/-- The add case of `equipmentManagementMenu`:
`newEquipment.id = (*nextEquipmentID)++;`, the other fields are read from the
terminal (`input`), then `addEquipment(equipmentList, &newEquipment)`. -/
def menuAddEquipment (equipmentList : EquipmentList) (nextEquipmentID : Int)
    (input : Equipment) : Option (EquipmentList × Int) :=
  let newEquipment : Equipment := { input with id := nextEquipmentID }
  let nextEquipmentID := nextEquipmentID + 1
  match addEquipment equipmentList newEquipment with
  | none => none
  | some equipmentList => some (equipmentList, nextEquipmentID)

/-- The delete case of `equipmentManagementMenu`:
`deleteEquipment(equipmentList, deleteID)`. -/
def menuDeleteEquipment (equipmentList : EquipmentList) (nextEquipmentID : Int)
    (deleteID : Int) : Option (EquipmentList × Int) :=
  match deleteEquipment equipmentList deleteID with
  | none => none
  | some (equipmentList, _) => some (equipmentList, nextEquipmentID)

/-- A sequence of menu adds (`madd`) and deletes (`mdel`) run on a store and
its next-id counter; the third result lists the ids the adds assigned, in
order (the value of the counter when the add was called). -/
def runMenu {S α : Type} (madd : S → Int → α → Option (S × Int))
    (mdel : S → Int → Int → Option (S × Int)) :
    S → Int → List (StoreOp α) → Option (S × Int × List Int)
  | s, next, [] => some (s, next, [])
  | s, next, StoreOp.insert input :: ops =>
    match madd s next input with
    | none => none
    | some (s1, next1) =>
      match runMenu madd mdel s1 next1 ops with
      | none => none
      | some (s2, next2, assigned) => some (s2, next2, next :: assigned)
  | s, next, StoreOp.delete id :: ops =>
    match mdel s next id with
    | none => none
    | some (s1, next1) => runMenu madd mdel s1 next1 ops

/-- A run of the member menu. -/
def runMemberMenu : MemberList → Int → List (StoreOp Member) →
    Option (MemberList × Int × List Int) :=
  runMenu menuAddMember menuDeleteMember

/-- A run of the equipment menu. -/
def runEquipmentMenu : EquipmentList → Int → List (StoreOp Equipment) →
    Option (EquipmentList × Int × List Int) :=
  runMenu menuAddEquipment menuDeleteEquipment

/-- A member store as the program keeps it: the block has `capacity` records,
`0 <= count <= capacity` and `capacity >= 1`. -/
def MemberList.WellFormed (list : MemberList) : Prop :=
  list.Allocated ∧ list.Inv ∧ 1 ≤ list.capacity

instance (list : MemberList) : Decidable list.WellFormed := by
  unfold MemberList.WellFormed; infer_instance

/-- An equipment store as the program keeps it: the block has `capacity`
records, `0 <= count <= capacity` and `capacity >= 1`. -/
def EquipmentList.WellFormed (list : EquipmentList) : Prop :=
  list.Allocated ∧ list.Inv ∧ 1 ≤ list.capacity

instance (list : EquipmentList) : Decidable list.WellFormed := by
  unfold EquipmentList.WellFormed; infer_instance

/-! ## Stores and records used as concrete inputs -/

/-- The member store `main` sets up: count 0, capacity 10, a block of 10 records. -/
def newMemberList : MemberList := ⟨0, 10, List.replicate 10 default⟩

/-- The equipment store `main` sets up: count 0, capacity 10, a block of 10 records. -/
def newEquipmentList : EquipmentList := ⟨0, 10, List.replicate 10 default⟩

/-- A member record with the given id. -/
def sampleMember (i : Int) : Member :=
  { memberID := i, firstName := "Ada", lastName := "Byron", phoneNum := "5550100",
    gender := 'F', emergencyName := "Anne Byron", emergencyPhone := "5550101",
    emergencyRelation := "Parent", dob := ⟨10, 12, 1990⟩ }

/-- An equipment record with the given id. -/
def sampleEquipment (i : Int) : Equipment :=
  { name := "Treadmill", totalQuantity := 5, functional := 5, broken := 0,
    status := "Operational", repairETA := ⟨0, 0, 0⟩, id := i }

/-- The member store after the ids in `ids` were added to the new store, when
there are at most 10 of them. -/
def memberListOf (ids : List Int) : MemberList :=
  ⟨ids.length, 10, ids.map sampleMember ++ List.replicate (10 - ids.length) default⟩

/-- The equipment store after the ids in `ids` were added to the new store,
when there are at most 10 of them. -/
def equipmentListOf (ids : List Int) : EquipmentList :=
  ⟨ids.length, 10, ids.map sampleEquipment ++ List.replicate (10 - ids.length) default⟩

/-- The store of the specification's report example: two kinds of equipment,
(quantity 5, functional 5, broken 0) and (quantity 3, functional 1, broken 2). -/
def reportExampleStore : EquipmentList :=
  ⟨2, 10,
    [{ name := "Treadmill", totalQuantity := 5, functional := 5, broken := 0,
       status := "Operational", repairETA := ⟨0, 0, 0⟩, id := 1 },
     { name := "Rowing machine", totalQuantity := 3, functional := 1, broken := 2,
       status := "Under Maintenance", repairETA := ⟨1, 12, 2030⟩, id := 2 }]
      ++ List.replicate 8 default⟩

/-- A member store with 37 records (ids 1..37) in a block of 40. -/
def memberStore37 : MemberList :=
  ⟨37, 40, (List.range 37).map (fun i => sampleMember (i + 1)) ++ List.replicate 3 default⟩

/-- An equipment store with 37 records (ids 1..37) in a block of 40. -/
def equipmentStore37 : EquipmentList :=
  ⟨37, 40, (List.range 37).map (fun i => sampleEquipment (i + 1)) ++ List.replicate 3 default⟩

/-! ## The calendar as the specification words it -/

/-- Leap years as the specification states them: the year is divisible by 4
and (not divisible by 100 or divisible by 400). -/
def specLeapYear (year : Int) : Prop :=
  4 ∣ year ∧ (¬ 100 ∣ year ∨ 400 ∣ year)

instance (year : Int) : Decidable (specLeapYear year) := by
  unfold specLeapYear; infer_instance

/-- Days in a month as the specification states them; only months 1..12 have
a length, the value 0 outside is never a valid upper bound for a day. -/
def daysInMonth (month year : Int) : Int :=
  if month ∈ [1, 3, 5, 7, 8, 10, 12] then 31
  else if month ∈ [4, 6, 9, 11] then 30
  else if month = 2 then (if specLeapYear year then 29 else 28)
  else 0

/-- The validity condition of the specification. -/
def specValidDate (day month year : Int) : Prop :=
  1900 ≤ year ∧ year ≤ 2100 ∧ 1 ≤ month ∧ month ≤ 12 ∧ 1 ≤ day ∧ day ≤ daysInMonth month year

instance (day month year : Int) : Decidable (specValidDate day month year) := by
  unfold specValidDate; infer_instance

/-- The triple a date is ordered by, in the lexicographic order: year first,
then month, then day. -/
def Date.ymd (d : Date) : Lex (Int × Lex (Int × Int)) :=
  toLex (d.year, toLex (d.month, d.day))

/-! ## Helper lemmas -/

theorem tmod_eq_zero_iff_dvd (a b : Int) : Int.tmod a b = 0 ↔ b ∣ a := by
  constructor
  · intro h
    exact Int.dvd_of_tmod_eq_zero h
  · intro h
    exact Int.tmod_eq_zero_of_dvd h

theorem leap_test_iff (year : Int) :
    ((Int.tmod year 4 = 0 ∧ Int.tmod year 100 ≠ 0) ∨ Int.tmod year 400 = 0) ↔ specLeapYear year := by
  unfold specLeapYear
  simp only [tmod_eq_zero_iff_dvd, ne_eq]
  constructor
  · rintro (⟨h4, h100⟩ | h400)
    · exact ⟨h4, Or.inl h100⟩
    · exact ⟨Dvd.dvd.trans (by norm_num) h400, Or.inr h400⟩
  · rintro ⟨h4, h100 | h400⟩
    · exact Or.inl ⟨h4, h100⟩
    · exact Or.inr h400

theorem isValidDate_eq (day month year : Int) :
    isValidDate day month year = if specValidDate day month year then 1 else 0 := by
  unfold isValidDate specValidDate daysInMonth
  simp only [leap_test_iff]
  by_cases hy : year < 1900 ∨ year > 2100
  · rw [if_pos hy, if_neg (by omega)]
  rw [if_neg hy]
  by_cases hm : month < 1 ∨ month > 12
  · rw [if_pos hm, if_neg (by omega)]
  rw [if_neg hm]
  have h1 : 1 ≤ month := by omega
  have h2 : month ≤ 12 := by omega
  interval_cases month <;> by_cases hl : specLeapYear year <;> simp [hl] <;> omega

/-- C1: `isValidDate` returns 1 exactly on the dates the specification calls
valid (year in 1900..2100, month in 1..12, day in 1..daysInMonth) and 0 on all
others; 29 Feb 2024 is valid, 29 Feb 2023 and 31 Apr 2024 are not. -/
theorem isValidDate_spec :
    (∀ day month year : Int,
      isValidDate day month year = if specValidDate day month year then 1 else 0) ∧
    isValidDate 29 2 2024 = 1 ∧ isValidDate 29 2 2023 = 0 ∧ isValidDate 31 4 2024 = 0 :=
  ⟨isValidDate_eq, by decide, by decide, by decide⟩

/-- C2: `compareDates` is the lexicographic comparison of (year, month, day):
-1 exactly when the first triple is smaller, 1 exactly when it is larger and
0 exactly when the triples are equal. -/
theorem compareDates_lex (a b : Date) :
    (compareDates a b = -1 ↔ a.ymd < b.ymd) ∧
    (compareDates a b = 1 ↔ b.ymd < a.ymd) ∧
    (compareDates a b = 0 ↔ (a.year, a.month, a.day) = (b.year, b.month, b.day)) := by
  simp only [Date.ymd, Prod.Lex.lt_iff, Prod.mk.injEq, compareDates, ofLex_toLex]
  refine ⟨?_, ?_, ?_⟩ <;> split_ifs <;> simp <;> omega

/-- C3: `calculateAge` is the difference of the years, less one exactly when
today's (month, day) is lexicographically before the (month, day) of birth. -/
theorem calculateAge_spec :
    (∀ dob today : Date,
      calculateAge dob today =
        today.year - dob.year -
          (if toLex (today.month, today.day) < toLex (dob.month, dob.day) then 1 else 0)) ∧
    calculateAge ⟨15, 6, 2000⟩ ⟨14, 6, 2024⟩ = 23 ∧
    calculateAge ⟨15, 6, 2000⟩ ⟨15, 6, 2024⟩ = 24 := by
  refine ⟨?_, by decide, by decide⟩
  intro dob today
  simp only [calculateAge, Prod.Lex.lt_iff]
  split_ifs <;> omega

theorem tdiv_two (k : Int) (h : 0 ≤ k) : Int.tdiv k 2 = k / 2 :=
  Int.tdiv_eq_ediv h (by decide)

/-! ## Heap blocks: reads, writes and the two loops -/

theorem readAt_natCast {α : Type} (block : List α) (k : Nat) :
    readAt block (k : Int) = block.get? k := by
  simp [readAt]

theorem writeAt_natCast {α : Type} (block : List α) (k : Nat) (v : α) (h : k < block.length) :
    writeAt block (k : Int) v = some (block.set k v) := by
  have h1 : (0 : Int) ≤ (k : Int) ∧ (k : Int) < (block.length : Int) := by
    constructor <;> omega
  simp [writeAt, h1]

theorem realloc_length {α : Type} [Inhabited α] (block : List α) (n : Int) :
    (realloc block n).length = n.toNat := by
  simp [realloc]
  omega

theorem take_realloc {α : Type} [Inhabited α] (block : List α) (n : Int) (k : Nat)
    (h1 : k ≤ n.toNat) (h2 : k ≤ block.length) :
    (realloc block n).take k = block.take k := by
  unfold realloc
  rw [List.take_append_of_le_length (by simp; omega), List.take_take]
  congr 1
  omega

theorem readAt_mid {α : Type} (pre : List α) (x : α) (tail : List α) :
    readAt (pre ++ x :: tail) (pre.length : Int) = some x := by
  rw [readAt_natCast]
  induction pre with
  | nil => rfl
  | cons a pre ih => simpa using ih

theorem writeAt_mid {α : Type} (pre : List α) (x v : α) (tail : List α) :
    writeAt (pre ++ x :: tail) (pre.length : Int) v = some (pre ++ v :: tail) := by
  rw [writeAt_natCast _ _ _ (by simp)]
  simp

theorem cast_length_snoc {α : Type} (pre : List α) (x : α) :
    (((pre ++ [x]).length : Nat) : Int) = (pre.length : Int) + 1 := by
  simp

/-- The scan finds nothing when no record of the scanned part has the id. -/
theorem findIndexFrom_none {α : Type} (key : α → Int) (id : Int) (block rest : List α) :
    ∀ (l pre : List α), block = pre ++ (l ++ rest) → (∀ r ∈ l, key r ≠ id) →
      findIndexFrom key block id l.length (pre.length : Int) = some (-1) := by
  intro l
  induction l with
  | nil => intro pre _ _; rfl
  | cons x l ih =>
    intro pre hb h
    have hx : key x ≠ id := h x (List.mem_cons_self _ _)
    have hl : ∀ r ∈ l, key r ≠ id := fun r hr => h r (List.mem_cons_of_mem _ hr)
    have hget : readAt block (pre.length : Int) = some x := by
      rw [hb]; exact readAt_mid pre x (l ++ rest)
    have hstep := ih (pre ++ [x]) (by rw [hb]; simp) hl
    rw [cast_length_snoc] at hstep
    simp only [List.length_cons, findIndexFrom, hget, if_neg hx]
    exact hstep

/-- The scan stops at the first record with the id. -/
theorem findIndexFrom_some {α : Type} (key : α → Int) (id : Int) (block : List α) (x : α)
    (rest : List α) (hx : key x = id) :
    ∀ (l pre : List α) (n : Nat), block = pre ++ (l ++ x :: rest) →
      (∀ r ∈ l, key r ≠ id) → l.length < n →
      findIndexFrom key block id n (pre.length : Int)
        = some ((pre.length : Int) + (l.length : Int)) := by
  intro l
  induction l with
  | nil =>
    intro pre n hb _ hn
    obtain ⟨m, rfl⟩ : ∃ m, n = m + 1 := ⟨n - 1, by simp at hn; omega⟩
    have hget : readAt block (pre.length : Int) = some x := by
      rw [hb]; exact readAt_mid pre x rest
    simp [findIndexFrom, hget, hx]
  | cons y l ih =>
    intro pre n hb h hn
    obtain ⟨m, rfl⟩ : ∃ m, n = m + 1 := ⟨n - 1, by simp at hn; omega⟩
    have hy : key y ≠ id := h y (List.mem_cons_self _ _)
    have hl : ∀ r ∈ l, key r ≠ id := fun r hr => h r (List.mem_cons_of_mem _ hr)
    have hget : readAt block (pre.length : Int) = some y := by
      rw [hb]; exact readAt_mid pre y (l ++ x :: rest)
    have hstep := ih (pre ++ [y]) m (by rw [hb]; simp) hl (by simp at hn; omega)
    rw [cast_length_snoc] at hstep
    simp only [List.length_cons, findIndexFrom, hget, if_neg hy, Nat.cast_add, Nat.cast_one]
    rw [hstep]
    congr 1
    omega

/-- The compaction loop moves the `mid` records one place to the left, over the
record `x` at the found index; the place of the last moved record keeps its
old contents. -/
theorem shiftLeftFrom_eq {α : Type} (post : List α) :
    ∀ (mid pre : List α) (x : α),
      shiftLeftFrom (pre ++ x :: (mid ++ post)) mid.length (pre.length : Int)
        = some (pre ++ (mid ++ (x :: mid).getLast (List.cons_ne_nil _ _) :: post)) := by
  intro mid
  induction mid with
  | nil => intro pre x; rfl
  | cons y mid ih =>
    intro pre x
    have hread : readAt (pre ++ x :: (y :: mid ++ post)) ((pre.length : Int) + 1) = some y := by
      have h := readAt_mid (pre ++ [x]) y (mid ++ post)
      rw [cast_length_snoc] at h
      simpa using h
    have hwrite := writeAt_mid pre x y (y :: mid ++ post)
    have hstep := ih (pre ++ [y]) y
    rw [cast_length_snoc] at hstep
    simp only [List.append_assoc, List.singleton_append, List.cons_append,
      List.nil_append] at hstep hwrite hread
    simp only [List.length_cons, shiftLeftFrom, hread, hwrite, List.cons_append, hstep]
    simp [List.getLast_cons]

/-- A list with a record of the given id splits at the first such record. -/
theorem exists_first_match {α : Type} (key : α → Int) (id : Int) :
    ∀ l : List α, (∃ r ∈ l, key r = id) →
      ∃ pre x mid, l = pre ++ x :: mid ∧ key x = id ∧ ∀ r ∈ pre, key r ≠ id := by
  intro l
  induction l with
  | nil => rintro ⟨r, hr, _⟩; cases hr
  | cons a l ih =>
    intro h
    by_cases ha : key a = id
    · exact ⟨[], a, l, rfl, ha, by simp⟩
    · obtain ⟨r, hr, hk⟩ := h
      have hr1 : r ∈ l := by
        rcases List.mem_cons.mp hr with h1 | h1
        · subst h1; exact absurd hk ha
        · exact h1
      obtain ⟨pre, x, mid, hl, hx, hpre⟩ := ih ⟨r, hr1, hk⟩
      refine ⟨a :: pre, x, mid, by rw [hl]; rfl, hx, ?_⟩
      intro r hr
      rcases List.mem_cons.mp hr with h1 | h1
      · subst h1; exact ha
      · exact hpre r h1

/-- The index of the first record with the id, in a list split at that record. -/
theorem findIdx_first_match {α : Type} (key : α → Int) (id : Int) (x : α) (mid : List α)
    (hx : key x = id) :
    ∀ pre : List α, (∀ r ∈ pre, key r ≠ id) →
      (pre ++ x :: mid).findIdx (fun r => decide (key r = id)) = pre.length := by
  intro pre
  induction pre with
  | nil => intro _; simp [List.findIdx_cons, hx]
  | cons a pre ih =>
    intro h
    have ha : key a ≠ id := h a (List.mem_cons_self _ _)
    have := ih (fun r hr => h r (List.mem_cons_of_mem _ hr))
    simp [List.findIdx_cons, ha, this]

theorem eraseIdx_first_match {α : Type} (pre : List α) (x : α) (mid : List α) :
    (pre ++ x :: mid).eraseIdx pre.length = pre ++ mid := by
  induction pre with
  | nil => rfl
  | cons a pre ih => simpa using ih

/-- The two loops of a delete on a block whose first `count` records split at
the first record with the id. -/
theorem delete_loops {α : Type} (key : α → Int) (id : Int) (block : List α) (count : Int)
    (pre : List α) (x : α) (mid : List α)
    (hle : count ≤ (block.length : Int))
    (hsplit : block.take count.toNat = pre ++ x :: mid)
    (hx : key x = id) (hpre : ∀ r ∈ pre, key r ≠ id) :
    count = (pre.length : Int) + 1 + (mid.length : Int) ∧
    block = pre ++ x :: (mid ++ block.drop count.toNat) ∧
    findIndexFrom key block id count.toNat 0 = some (pre.length : Int) ∧
    shiftLeftFrom block (count - 1 - (pre.length : Int)).toNat (pre.length : Int)
      = some (pre ++ (mid ++ (x :: mid).getLast (List.cons_ne_nil _ _)
          :: block.drop count.toNat)) := by
  have hlen : (block.take count.toNat).length = pre.length + 1 + mid.length := by
    rw [hsplit]; simp; omega
  have hcount : count.toNat = pre.length + 1 + mid.length := by
    rw [List.length_take] at hlen
    omega
  have hcount1 : count = (pre.length : Int) + 1 + (mid.length : Int) := by omega
  have hblock : block = pre ++ x :: (mid ++ block.drop count.toNat) := by
    conv_lhs => rw [← List.take_append_drop count.toNat block, hsplit]
    simp
  refine ⟨hcount1, hblock, ?_, ?_⟩
  · have h := findIndexFrom_some key id block x (mid ++ block.drop count.toNat) hx pre []
      count.toNat (by simpa using hblock) hpre (by omega)
    simpa using h
  · have hn : (count - 1 - (pre.length : Int)).toNat = mid.length := by omega
    rw [hn]
    conv_lhs => rw [hblock]
    exact shiftLeftFrom_eq (block.drop count.toNat) mid pre x

/-- The scan of a delete on a block none of whose first `count` records has the id. -/
theorem delete_scan_none {α : Type} (key : α → Int) (id : Int) (block : List α) (count : Int)
    (hlen : count ≤ (block.length : Int))
    (hno : ∀ r ∈ block.take count.toNat, key r ≠ id) :
    findIndexFrom key block id count.toNat 0 = some (-1) := by
  have h := findIndexFrom_none key id block (block.drop count.toNat) (block.take count.toNat) []
    (by simp) hno
  have hl : (block.take count.toNat).length = count.toNat := by
    rw [List.length_take]; omega
  rw [hl] at h
  simpa using h

theorem take_shifted {α : Type} (pre mid : List α) (y : α) (post : List α) (k : Nat)
    (hk : k = pre.length + mid.length) :
    (pre ++ (mid ++ y :: post)).take k = pre ++ mid := by
  subst hk
  rw [← List.append_assoc]
  rw [List.take_append_of_le_length (by simp)]
  rw [List.take_of_length_le (by simp)]

/-! ## The member store -/

theorem set_take_snoc {α : Type} (v : α) :
    ∀ (block : List α) (k : Nat), k < block.length →
      (block.set k v).take k = block.take k ∧
      (block.set k v).take (k + 1) = block.take k ++ [v] ∧
      (block.set k v).get? k = some v := by
  intro block
  induction block with
  | nil => intro k h; simp at h
  | cons a block ih =>
    intro k h
    cases k with
    | zero => simp
    | succ k =>
      obtain ⟨t1, t2, t3⟩ := ih k (by simpa using h)
      refine ⟨?_, ?_, ?_⟩
      · simp [t1]
      · simp only [List.set_cons_succ, List.take_succ_cons, t2, List.cons_append]
      · simpa using t3

/-- The result of `addMember` on a store with room for a doubling. -/
theorem addMember_ok (list : MemberList) (member : Member)
    (hA : list.Allocated) (h0 : 0 ≤ list.count) (h1 : list.count ≤ list.capacity)
    (h2 : 1 ≤ list.capacity) :
    ∃ list1 : MemberList, addMember list member = some list1 ∧
      list1.count = list.count + 1 ∧
      list1.capacity = (if list.count = list.capacity then list.capacity * 2 else list.capacity) ∧
      readAt list1.members list.count = some member ∧
      list1.members.take list.count.toNat = list.members.take list.count.toNat ∧
      list1.records = list.records ++ [member] ∧
      list1.Allocated := by
  obtain ⟨count, capacity, members⟩ := list
  simp only [MemberList.Allocated] at hA
  simp only at hA h0 h1 h2 ⊢
  obtain ⟨k, rfl⟩ : ∃ k : Nat, count = (k : Int) := ⟨count.toNat, by omega⟩
  have hk1 : ((k : Int) + 1).toNat = k + 1 := by omega
  unfold addMember
  by_cases hfull : (k : Int) = capacity
  · have hlen : k < (realloc members (capacity * 2)).length := by
      rw [realloc_length]; omega
    obtain ⟨t1, t2, t3⟩ := set_take_snoc member _ k hlen
    have hold : (realloc members (capacity * 2)).take k = members.take k :=
      take_realloc _ _ _ (by omega) (by omega)
    simp only [if_pos hfull, writeAt_natCast _ _ _ hlen]
    refine ⟨_, rfl, rfl, rfl, ?_, ?_, ?_, ?_⟩
    · rw [readAt_natCast]; exact t3
    · simp only [Int.toNat_ofNat]; rw [t1, hold]
    · simp only [MemberList.records, hk1, Int.toNat_ofNat]; rw [t2, hold]
    · simp only [MemberList.Allocated, List.length_set, realloc_length]; omega
  · have hlen : k < members.length := by omega
    obtain ⟨t1, t2, t3⟩ := set_take_snoc member _ k hlen
    simp only [if_neg hfull, writeAt_natCast _ _ _ hlen]
    refine ⟨_, rfl, rfl, rfl, ?_, ?_, ?_, ?_⟩
    · rw [readAt_natCast]; exact t3
    · simp only [Int.toNat_ofNat]; rw [t1]
    · simp only [MemberList.records, hk1, Int.toNat_ofNat]; rw [t2]
    · simp only [MemberList.Allocated, List.length_set]; omega

/-- The result of `deleteMember` when the records split at the first one with the id. -/
theorem deleteMember_found (list : MemberList) (memberID : Int)
    (pre : List Member) (x : Member) (mid : List Member)
    (hA : list.Allocated) (hcap : list.count ≤ list.capacity)
    (hsplit : list.records = pre ++ x :: mid)
    (hx : x.memberID = memberID) (hpre : ∀ r ∈ pre, r.memberID ≠ memberID) :
    ∃ list1 : MemberList, deleteMember list memberID = some (list1, []) ∧
      list1.count = list.count - 1 ∧
      list1.records = pre ++ mid ∧
      list1.capacity =
        (if list.count - 1 > 0 ∧ list.count - 1 ≤ Int.tdiv list.capacity 2
          then Int.tdiv list.capacity 2 else list.capacity) ∧
      list1.Allocated := by
  obtain ⟨hcount, hblock, hscan, hshift⟩ :=
    delete_loops Member.memberID memberID list.members list.count pre x mid
      (by rw [hA]; exact hcap) hsplit hx hpre
  have hne : ¬ ((pre.length : Int) = -1) := by omega
  unfold deleteMember
  simp only [hscan, hshift, if_neg hne]
  have hk : (list.count - 1).toNat = pre.length + mid.length := by omega
  split_ifs with hc
  · refine ⟨_, rfl, rfl, ?_, rfl, ?_⟩
    · simp only [MemberList.records]
      have hge : 0 ≤ Int.tdiv list.capacity 2 := by omega
      rw [take_realloc _ _ _ (by omega) (by simp; omega)]
      exact take_shifted pre mid _ _ _ hk
    · simp only [MemberList.Allocated, realloc_length]
      omega
  · refine ⟨_, rfl, rfl, ?_, rfl, ?_⟩
    · simp only [MemberList.records]
      exact take_shifted pre mid _ _ _ hk
    · simp only [MemberList.Allocated] at hA ⊢
      rw [← hA]
      conv_rhs => rw [hblock]
      simp
      omega

/-- The result of `deleteMember` when no record has the id. -/
theorem deleteMember_not_found (list : MemberList) (memberID : Int)
    (hA : list.Allocated) (hc : list.count ≤ list.capacity)
    (hno : ∀ r ∈ list.records, r.memberID ≠ memberID) :
    deleteMember list memberID
      = some (list, ["Member with ID " ++ toString memberID ++ " not found.\n"]) := by
  have hscan := delete_scan_none Member.memberID memberID list.members list.count
    (by rw [hA]; exact hc) hno
  unfold deleteMember
  simp [hscan]

/-! ## The equipment store -/

/-- The result of `addEquipment` on a store with room for a doubling. -/
theorem addEquipment_ok (list : EquipmentList) (equipment : Equipment)
    (hA : list.Allocated) (h0 : 0 ≤ list.count) (h1 : list.count ≤ list.capacity)
    (h2 : 1 ≤ list.capacity) :
    ∃ list1 : EquipmentList, addEquipment list equipment = some list1 ∧
      list1.count = list.count + 1 ∧
      list1.capacity = (if list.count = list.capacity then list.capacity * 2 else list.capacity) ∧
      readAt list1.equipments list.count = some equipment ∧
      list1.equipments.take list.count.toNat = list.equipments.take list.count.toNat ∧
      list1.records = list.records ++ [equipment] ∧
      list1.Allocated := by
  obtain ⟨count, capacity, equipments⟩ := list
  simp only [EquipmentList.Allocated] at hA
  simp only at hA h0 h1 h2 ⊢
  obtain ⟨k, rfl⟩ : ∃ k : Nat, count = (k : Int) := ⟨count.toNat, by omega⟩
  have hk1 : ((k : Int) + 1).toNat = k + 1 := by omega
  unfold addEquipment
  by_cases hfull : (k : Int) = capacity
  · have hlen : k < (realloc equipments (capacity * 2)).length := by
      rw [realloc_length]; omega
    obtain ⟨t1, t2, t3⟩ := set_take_snoc equipment _ k hlen
    have hold : (realloc equipments (capacity * 2)).take k = equipments.take k :=
      take_realloc _ _ _ (by omega) (by omega)
    simp only [if_pos hfull, writeAt_natCast _ _ _ hlen]
    refine ⟨_, rfl, rfl, rfl, ?_, ?_, ?_, ?_⟩
    · rw [readAt_natCast]; exact t3
    · simp only [Int.toNat_ofNat]; rw [t1, hold]
    · simp only [EquipmentList.records, hk1, Int.toNat_ofNat]; rw [t2, hold]
    · simp only [EquipmentList.Allocated, List.length_set, realloc_length]; omega
  · have hlen : k < equipments.length := by omega
    obtain ⟨t1, t2, t3⟩ := set_take_snoc equipment _ k hlen
    simp only [if_neg hfull, writeAt_natCast _ _ _ hlen]
    refine ⟨_, rfl, rfl, rfl, ?_, ?_, ?_, ?_⟩
    · rw [readAt_natCast]; exact t3
    · simp only [Int.toNat_ofNat]; rw [t1]
    · simp only [EquipmentList.records, hk1, Int.toNat_ofNat]; rw [t2]
    · simp only [EquipmentList.Allocated, List.length_set]; omega

/-- The result of `deleteEquipment` when the records split at the first one with the id. -/
theorem deleteEquipment_found (list : EquipmentList) (equipmentID : Int)
    (pre : List Equipment) (x : Equipment) (mid : List Equipment)
    (hA : list.Allocated) (hcap : list.count ≤ list.capacity)
    (hsplit : list.records = pre ++ x :: mid)
    (hx : x.id = equipmentID) (hpre : ∀ r ∈ pre, r.id ≠ equipmentID) :
    ∃ list1 : EquipmentList, deleteEquipment list equipmentID = some (list1, []) ∧
      list1.count = list.count - 1 ∧
      list1.records = pre ++ mid ∧
      list1.capacity =
        (if list.count - 1 > 0 ∧ list.count - 1 ≤ Int.tdiv list.capacity 2
          then Int.tdiv list.capacity 2 else list.capacity) ∧
      list1.Allocated := by
  obtain ⟨hcount, hblock, hscan, hshift⟩ :=
    delete_loops Equipment.id equipmentID list.equipments list.count pre x mid
      (by rw [hA]; exact hcap) hsplit hx hpre
  have hne : ¬ ((pre.length : Int) = -1) := by omega
  unfold deleteEquipment
  simp only [hscan, hshift, if_neg hne]
  have hk : (list.count - 1).toNat = pre.length + mid.length := by omega
  split_ifs with hc
  · refine ⟨_, rfl, rfl, ?_, rfl, ?_⟩
    · simp only [EquipmentList.records]
      have hge : 0 ≤ Int.tdiv list.capacity 2 := by omega
      rw [take_realloc _ _ _ (by omega) (by simp; omega)]
      exact take_shifted pre mid _ _ _ hk
    · simp only [EquipmentList.Allocated, realloc_length]
      omega
  · refine ⟨_, rfl, rfl, ?_, rfl, ?_⟩
    · simp only [EquipmentList.records]
      exact take_shifted pre mid _ _ _ hk
    · simp only [EquipmentList.Allocated] at hA ⊢
      rw [← hA]
      conv_rhs => rw [hblock]
      simp
      omega

/-- The result of `deleteEquipment` when no record has the id. -/
theorem deleteEquipment_not_found (list : EquipmentList) (equipmentID : Int)
    (hA : list.Allocated) (hc : list.count ≤ list.capacity)
    (hno : ∀ r ∈ list.records, r.id ≠ equipmentID) :
    deleteEquipment list equipmentID
      = some (list, ["Equipment with ID " ++ toString equipmentID ++ " not found.\n"]) := by
  have hscan := delete_scan_none Equipment.id equipmentID list.equipments list.count
    (by rw [hA]; exact hc) hno
  unfold deleteEquipment
  simp [hscan]

/-! ## Insert -/

/-- C4: on a store with 0 <= count <= capacity and capacity >= 1 (the block
having capacity records), `addMember` and `addEquipment` append the record:
the count grows by one, the record is at index old count, and the records
before it are the old ones in the old order. -/
theorem add_appends (ml : MemberList) (m : Member) (el : EquipmentList) (e : Equipment)
    (hmA : ml.Allocated) (hm0 : 0 ≤ ml.count) (hm1 : ml.count ≤ ml.capacity)
    (hm2 : 1 ≤ ml.capacity)
    (heA : el.Allocated) (he0 : 0 ≤ el.count) (he1 : el.count ≤ el.capacity)
    (he2 : 1 ≤ el.capacity) :
    (∃ ml1 : MemberList, addMember ml m = some ml1 ∧
      ml1.count = ml.count + 1 ∧
      readAt ml1.members ml.count = some m ∧
      ml1.members.take ml.count.toNat = ml.members.take ml.count.toNat ∧
      ml1.records = ml.records ++ [m]) ∧
    (∃ el1 : EquipmentList, addEquipment el e = some el1 ∧
      el1.count = el.count + 1 ∧
      readAt el1.equipments el.count = some e ∧
      el1.equipments.take el.count.toNat = el.equipments.take el.count.toNat ∧
      el1.records = el.records ++ [e]) := by
  obtain ⟨ml1, a1, a2, _, a4, a5, a6, _⟩ := addMember_ok ml m hmA hm0 hm1 hm2
  obtain ⟨el1, b1, b2, _, b4, b5, b6, _⟩ := addEquipment_ok el e heA he0 he1 he2
  exact ⟨⟨ml1, a1, a2, a4, a5, a6⟩, ⟨el1, b1, b2, b4, b5, b6⟩⟩

theorem add_appends_witness :
    (∃ ml1 : MemberList, addMember (memberListOf [1, 2]) (sampleMember 3) = some ml1 ∧
      ml1.count = (memberListOf [1, 2]).count + 1 ∧
      readAt ml1.members (memberListOf [1, 2]).count = some (sampleMember 3) ∧
      ml1.members.take (memberListOf [1, 2]).count.toNat
        = (memberListOf [1, 2]).members.take (memberListOf [1, 2]).count.toNat ∧
      ml1.records = (memberListOf [1, 2]).records ++ [sampleMember 3]) ∧
    (∃ el1 : EquipmentList,
      addEquipment (equipmentListOf [1, 2]) (sampleEquipment 3) = some el1 ∧
      el1.count = (equipmentListOf [1, 2]).count + 1 ∧
      readAt el1.equipments (equipmentListOf [1, 2]).count = some (sampleEquipment 3) ∧
      el1.equipments.take (equipmentListOf [1, 2]).count.toNat
        = (equipmentListOf [1, 2]).equipments.take (equipmentListOf [1, 2]).count.toNat ∧
      el1.records = (equipmentListOf [1, 2]).records ++ [sampleEquipment 3]) :=
  add_appends (memberListOf [1, 2]) (sampleMember 3) (equipmentListOf [1, 2])
    (sampleEquipment 3) (by decide) (by decide) (by decide) (by decide)
    (by decide) (by decide) (by decide) (by decide)

/-- C5: growth policy of `addMember` and `addEquipment`: on a full store
(count = capacity) the insert leaves the capacity at exactly twice the old
one, and the block the record is stored in already has the doubled size; on a
store with count < capacity the capacity is unchanged. -/
theorem add_growth (ml : MemberList) (m : Member) (el : EquipmentList) (e : Equipment)
    (hmA : ml.Allocated) (hm0 : 0 ≤ ml.count) (hm1 : ml.count ≤ ml.capacity)
    (hm2 : 1 ≤ ml.capacity)
    (heA : el.Allocated) (he0 : 0 ≤ el.count) (he1 : el.count ≤ el.capacity)
    (he2 : 1 ≤ el.capacity) :
    (∃ ml1 : MemberList, addMember ml m = some ml1 ∧
      (ml.count = ml.capacity → ml1.capacity = 2 * ml.capacity) ∧
      (ml.count < ml.capacity → ml1.capacity = ml.capacity) ∧
      (ml1.members.length : Int) = ml1.capacity ∧
      readAt ml1.members ml.count = some m) ∧
    (∃ el1 : EquipmentList, addEquipment el e = some el1 ∧
      (el.count = el.capacity → el1.capacity = 2 * el.capacity) ∧
      (el.count < el.capacity → el1.capacity = el.capacity) ∧
      (el1.equipments.length : Int) = el1.capacity ∧
      readAt el1.equipments el.count = some e) := by
  obtain ⟨ml1, a1, _, a3, a4, _, _, a7⟩ := addMember_ok ml m hmA hm0 hm1 hm2
  obtain ⟨el1, b1, _, b3, b4, _, _, b7⟩ := addEquipment_ok el e heA he0 he1 he2
  refine ⟨⟨ml1, a1, ?_, ?_, a7, a4⟩, ⟨el1, b1, ?_, ?_, b7, b4⟩⟩
  · intro h; rw [a3, if_pos h]; omega
  · intro h; rw [a3, if_neg (by omega)]
  · intro h; rw [b3, if_pos h]; omega
  · intro h; rw [b3, if_neg (by omega)]

theorem add_growth_witness :
    ((memberListOf [1, 2, 3, 4, 5, 6, 7, 8, 9, 10]).count
        = (memberListOf [1, 2, 3, 4, 5, 6, 7, 8, 9, 10]).capacity ∧
      (equipmentListOf [1, 2]).count < (equipmentListOf [1, 2]).capacity) ∧
    ((∃ ml1 : MemberList,
      addMember (memberListOf [1, 2, 3, 4, 5, 6, 7, 8, 9, 10]) (sampleMember 11) = some ml1 ∧
      ((memberListOf [1, 2, 3, 4, 5, 6, 7, 8, 9, 10]).count
          = (memberListOf [1, 2, 3, 4, 5, 6, 7, 8, 9, 10]).capacity →
        ml1.capacity = 2 * (memberListOf [1, 2, 3, 4, 5, 6, 7, 8, 9, 10]).capacity) ∧
      ((memberListOf [1, 2, 3, 4, 5, 6, 7, 8, 9, 10]).count
          < (memberListOf [1, 2, 3, 4, 5, 6, 7, 8, 9, 10]).capacity →
        ml1.capacity = (memberListOf [1, 2, 3, 4, 5, 6, 7, 8, 9, 10]).capacity) ∧
      (ml1.members.length : Int) = ml1.capacity ∧
      readAt ml1.members (memberListOf [1, 2, 3, 4, 5, 6, 7, 8, 9, 10]).count
        = some (sampleMember 11)) ∧
    (∃ el1 : EquipmentList,
      addEquipment (equipmentListOf [1, 2]) (sampleEquipment 3) = some el1 ∧
      ((equipmentListOf [1, 2]).count = (equipmentListOf [1, 2]).capacity →
        el1.capacity = 2 * (equipmentListOf [1, 2]).capacity) ∧
      ((equipmentListOf [1, 2]).count < (equipmentListOf [1, 2]).capacity →
        el1.capacity = (equipmentListOf [1, 2]).capacity) ∧
      (el1.equipments.length : Int) = el1.capacity ∧
      readAt el1.equipments (equipmentListOf [1, 2]).count = some (sampleEquipment 3))) :=
  ⟨by decide,
    add_growth (memberListOf [1, 2, 3, 4, 5, 6, 7, 8, 9, 10]) (sampleMember 11)
      (equipmentListOf [1, 2]) (sampleEquipment 3) (by decide) (by decide) (by decide)
      (by decide) (by decide) (by decide) (by decide) (by decide)⟩

/-- C6: when the id occurs among the records, `deleteMember` and
`deleteEquipment` remove exactly the first record with that id: the records
split as `pre ++ x :: mid` with `x` the first match, the records afterwards
are `pre ++ mid` (the old sequence with that one position erased, later
records with the same id kept), and the count is one less. -/
theorem delete_removes_first (ml : MemberList) (memberID : Int)
    (el : EquipmentList) (equipmentID : Int)
    (hmA : ml.Allocated) (hm1 : ml.count ≤ ml.capacity)
    (hm : ∃ r ∈ ml.records, r.memberID = memberID)
    (heA : el.Allocated) (he1 : el.count ≤ el.capacity)
    (he : ∃ r ∈ el.records, r.id = equipmentID) :
    (∃ (ml1 : MemberList) (pre : List Member) (x : Member) (mid : List Member),
      deleteMember ml memberID = some (ml1, []) ∧
      ml.records = pre ++ x :: mid ∧ x.memberID = memberID ∧
      (∀ r ∈ pre, r.memberID ≠ memberID) ∧
      ml1.records = pre ++ mid ∧
      ml1.records
        = ml.records.eraseIdx (ml.records.findIdx (fun r => decide (r.memberID = memberID))) ∧
      ml1.count = ml.count - 1) ∧
    (∃ (el1 : EquipmentList) (pre : List Equipment) (x : Equipment) (mid : List Equipment),
      deleteEquipment el equipmentID = some (el1, []) ∧
      el.records = pre ++ x :: mid ∧ x.id = equipmentID ∧
      (∀ r ∈ pre, r.id ≠ equipmentID) ∧
      el1.records = pre ++ mid ∧
      el1.records
        = el.records.eraseIdx (el.records.findIdx (fun r => decide (r.id = equipmentID))) ∧
      el1.count = el.count - 1) := by
  obtain ⟨pre, x, mid, hs, hx, hpre⟩ := exists_first_match Member.memberID memberID _ hm
  obtain ⟨ml1, a1, a2, a3, _, _⟩ := deleteMember_found ml memberID pre x mid hmA hm1 hs hx hpre
  obtain ⟨pre2, x2, mid2, hs2, hx2, hpre2⟩ := exists_first_match Equipment.id equipmentID _ he
  obtain ⟨el1, b1, b2, b3, _, _⟩ :=
    deleteEquipment_found el equipmentID pre2 x2 mid2 heA he1 hs2 hx2 hpre2
  refine ⟨⟨ml1, pre, x, mid, a1, hs, hx, hpre, a3, ?_, a2⟩,
    ⟨el1, pre2, x2, mid2, b1, hs2, hx2, hpre2, b3, ?_, b2⟩⟩
  · rw [a3, hs, findIdx_first_match Member.memberID memberID x mid hx pre hpre,
      eraseIdx_first_match]
  · rw [b3, hs2, findIdx_first_match Equipment.id equipmentID x2 mid2 hx2 pre2 hpre2,
      eraseIdx_first_match]

theorem delete_removes_first_witness :
    (∃ (ml1 : MemberList) (pre : List Member) (x : Member) (mid : List Member),
      deleteMember (memberListOf [1, 2, 3]) 2 = some (ml1, []) ∧
      (memberListOf [1, 2, 3]).records = pre ++ x :: mid ∧ x.memberID = 2 ∧
      (∀ r ∈ pre, r.memberID ≠ 2) ∧
      ml1.records = pre ++ mid ∧
      ml1.records
        = (memberListOf [1, 2, 3]).records.eraseIdx
            ((memberListOf [1, 2, 3]).records.findIdx (fun r => decide (r.memberID = 2))) ∧
      ml1.count = (memberListOf [1, 2, 3]).count - 1) ∧
    (∃ (el1 : EquipmentList) (pre : List Equipment) (x : Equipment) (mid : List Equipment),
      deleteEquipment (equipmentListOf [1, 2, 3]) 2 = some (el1, []) ∧
      (equipmentListOf [1, 2, 3]).records = pre ++ x :: mid ∧ x.id = 2 ∧
      (∀ r ∈ pre, r.id ≠ 2) ∧
      el1.records = pre ++ mid ∧
      el1.records
        = (equipmentListOf [1, 2, 3]).records.eraseIdx
            ((equipmentListOf [1, 2, 3]).records.findIdx (fun r => decide (r.id = 2))) ∧
      el1.count = (equipmentListOf [1, 2, 3]).count - 1) :=
  delete_removes_first (memberListOf [1, 2, 3]) 2 (equipmentListOf [1, 2, 3]) 2
    (by decide) (by decide) ⟨sampleMember 2, by decide, by decide⟩
    (by decide) (by decide) ⟨sampleEquipment 2, by decide, by decide⟩

/-- C7: when the id does not occur among the first count records,
`deleteMember` and `deleteEquipment` print the not-found message and return
the store as it was: records, count and capacity are unchanged. -/
theorem delete_absent_unchanged (ml : MemberList) (memberID : Int)
    (el : EquipmentList) (equipmentID : Int)
    (hmA : ml.Allocated) (hm1 : ml.count ≤ ml.capacity)
    (hm : ∀ r ∈ ml.records, r.memberID ≠ memberID)
    (heA : el.Allocated) (he1 : el.count ≤ el.capacity)
    (he : ∀ r ∈ el.records, r.id ≠ equipmentID) :
    deleteMember ml memberID
      = some (ml, ["Member with ID " ++ toString memberID ++ " not found.\n"]) ∧
    deleteEquipment el equipmentID
      = some (el, ["Equipment with ID " ++ toString equipmentID ++ " not found.\n"]) :=
  ⟨deleteMember_not_found ml memberID hmA hm1 hm,
    deleteEquipment_not_found el equipmentID heA he1 he⟩

theorem delete_absent_unchanged_witness :
    deleteMember (memberListOf [1, 2, 3]) 7
      = some (memberListOf [1, 2, 3], ["Member with ID " ++ toString (7 : Int) ++ " not found.\n"]) ∧
    deleteEquipment (equipmentListOf [1, 2, 3]) 7
      = some (equipmentListOf [1, 2, 3],
          ["Equipment with ID " ++ toString (7 : Int) ++ " not found.\n"]) :=
  delete_absent_unchanged (memberListOf [1, 2, 3]) 7 (equipmentListOf [1, 2, 3]) 7
    (by decide) (by decide) (by decide) (by decide) (by decide) (by decide)

/-! ## Shrinking -/

/-- C8: shrink policy after a successful removal: with `c` the count after the
removal and `k` the capacity before the call, the new capacity is `k / 2` (one
halving) when `c > 0` and `c <= k / 2`, and `k` otherwise; it is never anything
but `k` or `k / 2`. -/
theorem delete_shrink_policy (ml : MemberList) (memberID : Int)
    (el : EquipmentList) (equipmentID : Int)
    (hmA : ml.Allocated) (hm1 : ml.count ≤ ml.capacity)
    (hm : ∃ r ∈ ml.records, r.memberID = memberID)
    (heA : el.Allocated) (he1 : el.count ≤ el.capacity)
    (he : ∃ r ∈ el.records, r.id = equipmentID) :
    (∃ ml1 : MemberList, deleteMember ml memberID = some (ml1, []) ∧
      ml1.count = ml.count - 1 ∧
      ml1.capacity =
        (if ml1.count > 0 ∧ ml1.count ≤ Int.tdiv ml.capacity 2
          then Int.tdiv ml.capacity 2 else ml.capacity) ∧
      (ml1.capacity = ml.capacity ∨ ml1.capacity = Int.tdiv ml.capacity 2)) ∧
    (∃ el1 : EquipmentList, deleteEquipment el equipmentID = some (el1, []) ∧
      el1.count = el.count - 1 ∧
      el1.capacity =
        (if el1.count > 0 ∧ el1.count ≤ Int.tdiv el.capacity 2
          then Int.tdiv el.capacity 2 else el.capacity) ∧
      (el1.capacity = el.capacity ∨ el1.capacity = Int.tdiv el.capacity 2)) := by
  obtain ⟨pre, x, mid, hs, hx, hpre⟩ := exists_first_match Member.memberID memberID _ hm
  obtain ⟨ml1, a1, a2, _, a4, _⟩ := deleteMember_found ml memberID pre x mid hmA hm1 hs hx hpre
  obtain ⟨pre2, x2, mid2, hs2, hx2, hpre2⟩ := exists_first_match Equipment.id equipmentID _ he
  obtain ⟨el1, b1, b2, _, b4, _⟩ :=
    deleteEquipment_found el equipmentID pre2 x2 mid2 heA he1 hs2 hx2 hpre2
  refine ⟨⟨ml1, a1, a2, by rw [a2]; exact a4, ?_⟩, ⟨el1, b1, b2, by rw [b2]; exact b4, ?_⟩⟩
  · rw [a4]; split_ifs
    · exact Or.inr rfl
    · exact Or.inl rfl
  · rw [b4]; split_ifs
    · exact Or.inr rfl
    · exact Or.inl rfl

theorem delete_shrink_policy_witness :
    (∃ ml1 : MemberList, deleteMember (memberListOf [1, 2]) 2 = some (ml1, []) ∧
      ml1.count = (memberListOf [1, 2]).count - 1 ∧
      ml1.capacity =
        (if ml1.count > 0 ∧ ml1.count ≤ Int.tdiv (memberListOf [1, 2]).capacity 2
          then Int.tdiv (memberListOf [1, 2]).capacity 2 else (memberListOf [1, 2]).capacity) ∧
      (ml1.capacity = (memberListOf [1, 2]).capacity ∨
        ml1.capacity = Int.tdiv (memberListOf [1, 2]).capacity 2)) ∧
    (∃ el1 : EquipmentList, deleteEquipment (equipmentListOf [1, 2]) 2 = some (el1, []) ∧
      el1.count = (equipmentListOf [1, 2]).count - 1 ∧
      el1.capacity =
        (if el1.count > 0 ∧ el1.count ≤ Int.tdiv (equipmentListOf [1, 2]).capacity 2
          then Int.tdiv (equipmentListOf [1, 2]).capacity 2
          else (equipmentListOf [1, 2]).capacity) ∧
      (el1.capacity = (equipmentListOf [1, 2]).capacity ∨
        el1.capacity = Int.tdiv (equipmentListOf [1, 2]).capacity 2)) :=
  delete_shrink_policy (memberListOf [1, 2]) 2 (equipmentListOf [1, 2]) 2
    (by decide) (by decide) ⟨sampleMember 2, by decide, by decide⟩
    (by decide) (by decide) ⟨sampleEquipment 2, by decide, by decide⟩

/-- C9, the claim fails: a store with count 1 and capacity 10 (the new store
after one insert) has count > 0 and count <= capacity / 2, its only id is
present, and the delete leaves the capacity at 10, not at 10 / 2 = 5. -/
theorem delete_last_record_keeps_capacity :
    (addMember newMemberList (sampleMember 1) = some (memberListOf [1]) ∧
      (memberListOf [1]).count > 0 ∧
      (memberListOf [1]).count ≤ Int.tdiv (memberListOf [1]).capacity 2 ∧
      sampleMember 1 ∈ (memberListOf [1]).records ∧
      (deleteMember (memberListOf [1]) 1).map (fun p => (p.1.count, p.1.capacity))
        = some (0, 10) ∧
      Int.tdiv (memberListOf [1]).capacity 2 = 5) ∧
    (addEquipment newEquipmentList (sampleEquipment 1) = some (equipmentListOf [1]) ∧
      (equipmentListOf [1]).count > 0 ∧
      (equipmentListOf [1]).count ≤ Int.tdiv (equipmentListOf [1]).capacity 2 ∧
      sampleEquipment 1 ∈ (equipmentListOf [1]).records ∧
      (deleteEquipment (equipmentListOf [1]) 1).map (fun p => (p.1.count, p.1.capacity))
        = some (0, 10) ∧
      Int.tdiv (equipmentListOf [1]).capacity 2 = 5) := by
  decide

/-- C9 as amended: for a store with count > 0 and count <= capacity / 2 and an
id present in it, the delete halves the capacity exactly when the count was
more than 1; the delete of the only record (count 1) leaves the capacity
unchanged. -/
theorem delete_halves_unless_emptied (ml : MemberList) (memberID : Int)
    (el : EquipmentList) (equipmentID : Int)
    (hmA : ml.Allocated) (hm0 : ml.count > 0) (hm1 : ml.count ≤ Int.tdiv ml.capacity 2)
    (hm : ∃ r ∈ ml.records, r.memberID = memberID)
    (heA : el.Allocated) (he0 : el.count > 0) (he1 : el.count ≤ Int.tdiv el.capacity 2)
    (he : ∃ r ∈ el.records, r.id = equipmentID) :
    (∃ ml1 : MemberList, deleteMember ml memberID = some (ml1, []) ∧
      ml1.capacity = (if ml.count = 1 then ml.capacity else Int.tdiv ml.capacity 2)) ∧
    (∃ el1 : EquipmentList, deleteEquipment el equipmentID = some (el1, []) ∧
      el1.capacity = (if el.count = 1 then el.capacity else Int.tdiv el.capacity 2)) := by
  have hmt := tdiv_two ml.capacity (by rw [← hmA]; omega)
  have het := tdiv_two el.capacity (by rw [← heA]; omega)
  obtain ⟨pre, x, mid, hs, hx, hpre⟩ := exists_first_match Member.memberID memberID _ hm
  obtain ⟨ml1, a1, _, _, a4, _⟩ :=
    deleteMember_found ml memberID pre x mid hmA (by omega) hs hx hpre
  obtain ⟨pre2, x2, mid2, hs2, hx2, hpre2⟩ := exists_first_match Equipment.id equipmentID _ he
  obtain ⟨el1, b1, _, _, b4, _⟩ :=
    deleteEquipment_found el equipmentID pre2 x2 mid2 heA (by omega) hs2 hx2 hpre2
  refine ⟨⟨ml1, a1, ?_⟩, ⟨el1, b1, ?_⟩⟩
  · rw [a4]
    by_cases h : ml.count = 1
    · rw [if_pos h, if_neg (by omega)]
    · rw [if_neg h, if_pos ⟨by omega, by omega⟩]
  · rw [b4]
    by_cases h : el.count = 1
    · rw [if_pos h, if_neg (by omega)]
    · rw [if_neg h, if_pos ⟨by omega, by omega⟩]

theorem delete_halves_unless_emptied_witness :
    (∃ ml1 : MemberList, deleteMember (memberListOf [1, 2, 3]) 2 = some (ml1, []) ∧
      ml1.capacity = (if (memberListOf [1, 2, 3]).count = 1
        then (memberListOf [1, 2, 3]).capacity
        else Int.tdiv (memberListOf [1, 2, 3]).capacity 2)) ∧
    (∃ el1 : EquipmentList, deleteEquipment (equipmentListOf [1]) 1 = some (el1, []) ∧
      el1.capacity = (if (equipmentListOf [1]).count = 1
        then (equipmentListOf [1]).capacity
        else Int.tdiv (equipmentListOf [1]).capacity 2)) :=
  delete_halves_unless_emptied (memberListOf [1, 2, 3]) 2 (equipmentListOf [1]) 1
    (by decide) (by decide) (by decide) ⟨sampleMember 2, by decide, by decide⟩
    (by decide) (by decide) (by decide) ⟨sampleEquipment 1, by decide, by decide⟩

/-- Every delete on a store whose count is within its block returns, and the
capacity afterwards is the old one or half of it. -/
theorem deleteMember_capacity (list : MemberList) (memberID : Int)
    (hA : list.Allocated) (hc : list.count ≤ list.capacity) :
    ∃ (list1 : MemberList) (out : List String),
      deleteMember list memberID = some (list1, out) ∧
      (list1.capacity = list.capacity ∨ list1.capacity = Int.tdiv list.capacity 2) := by
  by_cases h : ∃ r ∈ list.records, r.memberID = memberID
  · obtain ⟨pre, x, mid, hs, hx, hpre⟩ := exists_first_match Member.memberID memberID _ h
    obtain ⟨list1, a1, _, _, a4, _⟩ :=
      deleteMember_found list memberID pre x mid hA hc hs hx hpre
    refine ⟨list1, [], a1, ?_⟩
    rw [a4]; split_ifs
    · exact Or.inr rfl
    · exact Or.inl rfl
  · have hno : ∀ r ∈ list.records, r.memberID ≠ memberID :=
      fun r hr hk => h ⟨r, hr, hk⟩
    exact ⟨list, _, deleteMember_not_found list memberID hA hc hno, Or.inl rfl⟩

/-- Every delete on a store whose count is within its block returns, and the
capacity afterwards is the old one or half of it. -/
theorem deleteEquipment_capacity (list : EquipmentList) (equipmentID : Int)
    (hA : list.Allocated) (hc : list.count ≤ list.capacity) :
    ∃ (list1 : EquipmentList) (out : List String),
      deleteEquipment list equipmentID = some (list1, out) ∧
      (list1.capacity = list.capacity ∨ list1.capacity = Int.tdiv list.capacity 2) := by
  by_cases h : ∃ r ∈ list.records, r.id = equipmentID
  · obtain ⟨pre, x, mid, hs, hx, hpre⟩ := exists_first_match Equipment.id equipmentID _ h
    obtain ⟨list1, a1, _, _, a4, _⟩ :=
      deleteEquipment_found list equipmentID pre x mid hA hc hs hx hpre
    refine ⟨list1, [], a1, ?_⟩
    rw [a4]; split_ifs
    · exact Or.inr rfl
    · exact Or.inl rfl
  · have hno : ∀ r ∈ list.records, r.id ≠ equipmentID :=
      fun r hr hk => h ⟨r, hr, hk⟩
    exact ⟨list, _, deleteEquipment_not_found list equipmentID hA hc hno, Or.inl rfl⟩

/-- C10, the claim fails: six inserts into the new store give a store of
capacity 10 with six records, and one delete takes its capacity to 5. -/
theorem delete_shrinks_below_initial_capacity :
    ([1, 2, 3, 4, 5, 6].foldlM (fun s i => addMember s (sampleMember i)) newMemberList
        = some (memberListOf [1, 2, 3, 4, 5, 6]) ∧
      (memberListOf [1, 2, 3, 4, 5, 6]).capacity ≥ 10 ∧
      deleteMember (memberListOf [1, 2, 3, 4, 5, 6]) 1
        = some (⟨5, 5, [2, 3, 4, 5, 6].map sampleMember⟩, [])) ∧
    ([1, 2, 3, 4, 5, 6].foldlM (fun s i => addEquipment s (sampleEquipment i)) newEquipmentList
        = some (equipmentListOf [1, 2, 3, 4, 5, 6]) ∧
      (equipmentListOf [1, 2, 3, 4, 5, 6]).capacity ≥ 10 ∧
      deleteEquipment (equipmentListOf [1, 2, 3, 4, 5, 6]) 1
        = some (⟨5, 5, [2, 3, 4, 5, 6].map sampleEquipment⟩, [])) := by
  decide

/-- C10 as amended: a delete on a store with capacity >= 10 leaves the
capacity at the old value or at half of it, hence at 5 or more, and at 10 or
more when the capacity was 20 or more. -/
theorem delete_capacity_floor (ml : MemberList) (memberID : Int)
    (el : EquipmentList) (equipmentID : Int)
    (hmA : ml.Allocated) (hm1 : ml.count ≤ ml.capacity) (hm2 : ml.capacity ≥ 10)
    (heA : el.Allocated) (he1 : el.count ≤ el.capacity) (he2 : el.capacity ≥ 10) :
    (∃ (ml1 : MemberList) (out : List String), deleteMember ml memberID = some (ml1, out) ∧
      (ml1.capacity = ml.capacity ∨ ml1.capacity = Int.tdiv ml.capacity 2) ∧
      ml1.capacity ≥ 5 ∧ (ml.capacity ≥ 20 → ml1.capacity ≥ 10)) ∧
    (∃ (el1 : EquipmentList) (out : List String),
      deleteEquipment el equipmentID = some (el1, out) ∧
      (el1.capacity = el.capacity ∨ el1.capacity = Int.tdiv el.capacity 2) ∧
      el1.capacity ≥ 5 ∧ (el.capacity ≥ 20 → el1.capacity ≥ 10)) := by
  have hmt := tdiv_two ml.capacity (by omega)
  have het := tdiv_two el.capacity (by omega)
  obtain ⟨ml1, out1, a1, a2⟩ := deleteMember_capacity ml memberID hmA hm1
  obtain ⟨el1, out2, b1, b2⟩ := deleteEquipment_capacity el equipmentID heA he1
  refine ⟨⟨ml1, out1, a1, a2, ?_, ?_⟩, ⟨el1, out2, b1, b2, ?_, ?_⟩⟩
  · rcases a2 with h | h <;> rw [h] <;> omega
  · intro h20; rcases a2 with h | h <;> rw [h] <;> omega
  · rcases b2 with h | h <;> rw [h] <;> omega
  · intro h20; rcases b2 with h | h <;> rw [h] <;> omega

theorem delete_capacity_floor_witness :
    (∃ (ml1 : MemberList) (out : List String),
      deleteMember (memberListOf [1, 2, 3, 4, 5, 6]) 1 = some (ml1, out) ∧
      (ml1.capacity = (memberListOf [1, 2, 3, 4, 5, 6]).capacity ∨
        ml1.capacity = Int.tdiv (memberListOf [1, 2, 3, 4, 5, 6]).capacity 2) ∧
      ml1.capacity ≥ 5 ∧
      ((memberListOf [1, 2, 3, 4, 5, 6]).capacity ≥ 20 → ml1.capacity ≥ 10)) ∧
    (∃ (el1 : EquipmentList) (out : List String),
      deleteEquipment (equipmentListOf [1, 2, 3]) 9 = some (el1, out) ∧
      (el1.capacity = (equipmentListOf [1, 2, 3]).capacity ∨
        el1.capacity = Int.tdiv (equipmentListOf [1, 2, 3]).capacity 2) ∧
      el1.capacity ≥ 5 ∧
      ((equipmentListOf [1, 2, 3]).capacity ≥ 20 → el1.capacity ≥ 10)) :=
  delete_capacity_floor (memberListOf [1, 2, 3, 4, 5, 6]) 1 (equipmentListOf [1, 2, 3]) 9
    (by decide) (by decide) (by decide) (by decide) (by decide) (by decide)

/-! ## Loading and saving -/

theorem toSizeT_of_nonneg (n : Int) (h : 0 ≤ n) : toSizeT n = n.toNat := by
  simp [toSizeT, h]

/-- The next-id loop over the part `l` of the block folds the update over `l`. -/
theorem nextIdFrom_eq {α : Type} (key : α → Int) (block rest : List α) :
    ∀ (l pre : List α) (next : Int), block = pre ++ (l ++ rest) →
      nextIdFrom key block l.length (pre.length : Int) next
        = some (l.foldl (fun nx r => if key r ≥ nx then key r + 1 else nx) next) := by
  intro l
  induction l with
  | nil => intro pre next _; rfl
  | cons x l ih =>
    intro pre next hb
    have hget : readAt block (pre.length : Int) = some x := by
      rw [hb]; exact readAt_mid pre x (l ++ rest)
    have hstep := ih (pre ++ [x]) (if key x ≥ next then key x + 1 else next) (by rw [hb]; simp)
    rw [cast_length_snoc] at hstep
    simp only [List.length_cons, nextIdFrom, hget, List.foldl_cons]
    exact hstep

/-- What the fold of the next-id update computes: it is at least the start
value, above every id, and is the start value or some id plus one. -/
theorem nextId_fold {α : Type} (key : α → Int) :
    ∀ (l : List α) (next : Int),
      next ≤ l.foldl (fun nx r => if key r ≥ nx then key r + 1 else nx) next ∧
      (∀ r ∈ l, key r < l.foldl (fun nx r => if key r ≥ nx then key r + 1 else nx) next) ∧
      (l.foldl (fun nx r => if key r ≥ nx then key r + 1 else nx) next = next ∨
        ∃ r ∈ l, l.foldl (fun nx r => if key r ≥ nx then key r + 1 else nx) next = key r + 1) := by
  intro l
  induction l with
  | nil => intro next; simp
  | cons x l ih =>
    intro next
    simp only [List.foldl_cons]
    by_cases hx : key x ≥ next
    · obtain ⟨h1, h2, h3⟩ := ih (key x + 1)
      simp only [if_pos hx]
      refine ⟨by omega, ?_, ?_⟩
      · intro r hr
        rcases List.mem_cons.mp hr with h | h
        · subst h; omega
        · exact h2 r h
      · rcases h3 with h | ⟨r, hr, h⟩
        · right; exact ⟨x, List.mem_cons_self _ _, h⟩
        · right; exact ⟨r, List.mem_cons_of_mem _ hr, h⟩
    · obtain ⟨h1, h2, h3⟩ := ih next
      simp only [if_neg hx]
      refine ⟨h1, ?_, ?_⟩
      · intro r hr
        rcases List.mem_cons.mp hr with h | h
        · subst h; omega
        · exact h2 r h
      · rcases h3 with h | ⟨r, hr, h⟩
        · left; exact h
        · right; exact ⟨r, List.mem_cons_of_mem _ hr, h⟩

/-- The fold of the next-id update is `max 1 (m + 1)` for the greatest id `m`. -/
theorem nextId_fold_max {α : Type} (key : α → Int) (l : List α) (m : Int)
    (hm : ∃ r ∈ l, key r = m) (hmax : ∀ r ∈ l, key r ≤ m) :
    l.foldl (fun nx r => if key r ≥ nx then key r + 1 else nx) 1 = max 1 (m + 1) := by
  obtain ⟨h1, h2, h3⟩ := nextId_fold key l 1
  obtain ⟨r0, hr0, hk0⟩ := hm
  have hlow := h2 r0 hr0
  rcases h3 with h | ⟨r, hr, h⟩
  · rw [h] at hlow ⊢; omega
  · have := hmax r hr
    rw [h] at hlow h1 ⊢; omega

/-- The two reads of a load for a non-negative count: the block has
`max count 10` records, its first `count` records are those of the file (and
default records where the file is short), and the next id is the fold of the
update over them. -/
theorem load_block {α : Type} [Inhabited α] (key : α → Int) (count : Int) (data : List α)
    (h0 : 0 ≤ count) :
    ∃ block : List α,
      fread (malloc (if count > 10 then count else 10)) (toSizeT count) data = some block ∧
      (block.length : Int) = (if count > 10 then count else 10) ∧
      block.take count.toNat
        = data.take count.toNat ++ List.replicate (count.toNat - data.length) default ∧
      nextIdFrom key block count.toNat 0 1
        = some ((block.take count.toNat).foldl
            (fun nx r => if key r ≥ nx then key r + 1 else nx) 1) := by
  have hcap : count.toNat ≤ (if count > 10 then count else 10).toNat := by
    split_ifs <;> omega
  have hitems : (data.take count.toNat).length ≤ count.toNat := by
    rw [List.length_take]; omega
  obtain ⟨B, hB⟩ : ∃ B : List α, B = data.take count.toNat ++
      List.replicate ((if count > 10 then count else 10).toNat - (data.take count.toNat).length)
        default := ⟨_, rfl⟩
  have hBlen : B.length = (if count > 10 then count else 10).toNat := by
    rw [hB, List.length_append, List.length_replicate]; omega
  refine ⟨B, ?_, ?_, ?_, ?_⟩
  · simp only [fread, malloc, toSizeT_of_nonneg count h0, List.length_replicate,
      List.drop_replicate]
    rw [if_pos (by omega), hB]
  · rw [hBlen]
    split_ifs <;> omega
  · rw [hB, List.take_append_eq_append_take, List.take_take, Nat.min_self, List.take_replicate]
    congr 2
    rw [List.length_take]
    omega
  · have hlen : (B.take count.toNat).length = count.toNat := by
      rw [List.length_take]; omega
    have h := nextIdFrom_eq key B (B.drop count.toNat) (B.take count.toNat) [] 1 (by simp)
    rw [hlen] at h
    simpa using h

/-- The result of `loadMembersFromFile` on a file with a non-negative count. -/
theorem loadMembersFromFile_ok (list : MemberList) (f : DataFile Member) (h0 : 0 ≤ f.count) :
    ∃ list1 : MemberList,
      loadMembersFromFile list (some f)
        = some (list1, list1.records.foldl
            (fun nx r => if r.memberID ≥ nx then r.memberID + 1 else nx) 1) ∧
      list1.count = f.count ∧
      list1.capacity = (if f.count > 10 then f.count else 10) ∧
      list1.Allocated ∧
      list1.records = f.records.take f.count.toNat
        ++ List.replicate (f.count.toNat - f.records.length) default := by
  obtain ⟨block, h1, h2, h3, h4⟩ := load_block Member.memberID f.count f.records h0
  unfold loadMembersFromFile
  simp only [h1, h4]
  exact ⟨_, rfl, rfl, rfl, h2, h3⟩

/-- An insert that returns keeps `0 <= count <= capacity`. -/
theorem addMember_inv (list list1 : MemberList) (member : Member) (hInv : list.Inv)
    (h : addMember list member = some list1) : list1.Inv := by
  obtain ⟨h0, h1⟩ := hInv
  unfold addMember at h
  by_cases hfull : list.count = list.capacity
  · simp only [if_pos hfull, writeAt] at h
    split_ifs at h with hw
    cases h
    rw [realloc_length] at hw
    simp only [MemberList.Inv]
    omega
  · simp only [if_neg hfull] at h
    split at h
    · cases h
    · cases h
      simp only [MemberList.Inv]
      omega

/-- A delete on a store with `0 <= count <= capacity` returns and keeps it. -/
theorem deleteMember_inv (list : MemberList) (memberID : Int)
    (hA : list.Allocated) (hInv : list.Inv) :
    ∃ (list1 : MemberList) (out : List String),
      deleteMember list memberID = some (list1, out) ∧ list1.Inv ∧ list1.Allocated ∧
      (1 ≤ list.capacity → 1 ≤ list1.capacity) := by
  obtain ⟨h0, h1⟩ := hInv
  by_cases h : ∃ r ∈ list.records, r.memberID = memberID
  · obtain ⟨pre, x, mid, hs, hx, hpre⟩ := exists_first_match Member.memberID memberID _ h
    obtain ⟨list1, a1, a2, _, a4, a5⟩ :=
      deleteMember_found list memberID pre x mid hA h1 hs hx hpre
    have hlen : (list.records).length = pre.length + 1 + mid.length := by
      rw [hs]; simp; omega
    have hpos : 1 ≤ list.count := by
      simp only [MemberList.records, List.length_take] at hlen
      omega
    have ht := tdiv_two list.capacity (by omega)
    refine ⟨list1, [], a1, ?_, a5, ?_⟩
    · simp only [MemberList.Inv]
      rw [a2, a4]
      split_ifs <;> omega
    · intro _
      rw [a4]
      split_ifs <;> omega
  · have hno : ∀ r ∈ list.records, r.memberID ≠ memberID :=
      fun r hr hk => h ⟨r, hr, hk⟩
    exact ⟨list, _, deleteMember_not_found list memberID hA h1 hno, ⟨h0, h1⟩, hA, fun h => h⟩

/-- The result of `loadEquipmentFromFile` on a file with a non-negative count. -/
theorem loadEquipmentFromFile_ok (list : EquipmentList) (f : DataFile Equipment) (h0 : 0 ≤ f.count) :
    ∃ list1 : EquipmentList,
      loadEquipmentFromFile list (some f)
        = some (list1, list1.records.foldl
            (fun nx r => if r.id ≥ nx then r.id + 1 else nx) 1) ∧
      list1.count = f.count ∧
      list1.capacity = (if f.count > 10 then f.count else 10) ∧
      list1.Allocated ∧
      list1.records = f.records.take f.count.toNat
        ++ List.replicate (f.count.toNat - f.records.length) default := by
  obtain ⟨block, h1, h2, h3, h4⟩ := load_block Equipment.id f.count f.records h0
  unfold loadEquipmentFromFile
  simp only [h1, h4]
  exact ⟨_, rfl, rfl, rfl, h2, h3⟩

/-- An insert that returns keeps `0 <= count <= capacity`. -/
theorem addEquipment_inv (list list1 : EquipmentList) (equipment : Equipment) (hInv : list.Inv)
    (h : addEquipment list equipment = some list1) : list1.Inv := by
  obtain ⟨h0, h1⟩ := hInv
  unfold addEquipment at h
  by_cases hfull : list.count = list.capacity
  · simp only [if_pos hfull, writeAt] at h
    split_ifs at h with hw
    cases h
    rw [realloc_length] at hw
    simp only [EquipmentList.Inv]
    omega
  · simp only [if_neg hfull] at h
    split at h
    · cases h
    · cases h
      simp only [EquipmentList.Inv]
      omega

/-- A delete on a store with `0 <= count <= capacity` returns and keeps it. -/
theorem deleteEquipment_inv (list : EquipmentList) (equipmentID : Int)
    (hA : list.Allocated) (hInv : list.Inv) :
    ∃ (list1 : EquipmentList) (out : List String),
      deleteEquipment list equipmentID = some (list1, out) ∧ list1.Inv ∧ list1.Allocated ∧
      (1 ≤ list.capacity → 1 ≤ list1.capacity) := by
  obtain ⟨h0, h1⟩ := hInv
  by_cases h : ∃ r ∈ list.records, r.id = equipmentID
  · obtain ⟨pre, x, mid, hs, hx, hpre⟩ := exists_first_match Equipment.id equipmentID _ h
    obtain ⟨list1, a1, a2, _, a4, a5⟩ :=
      deleteEquipment_found list equipmentID pre x mid hA h1 hs hx hpre
    have hlen : (list.records).length = pre.length + 1 + mid.length := by
      rw [hs]; simp; omega
    have hpos : 1 ≤ list.count := by
      simp only [EquipmentList.records, List.length_take] at hlen
      omega
    have ht := tdiv_two list.capacity (by omega)
    refine ⟨list1, [], a1, ?_, a5, ?_⟩
    · simp only [EquipmentList.Inv]
      rw [a2, a4]
      split_ifs <;> omega
    · intro _
      rw [a4]
      split_ifs <;> omega
  · have hno : ∀ r ∈ list.records, r.id ≠ equipmentID :=
      fun r hr hk => h ⟨r, hr, hk⟩
    exact ⟨list, _, deleteEquipment_not_found list equipmentID hA h1 hno, ⟨h0, h1⟩, hA, fun h => h⟩

/-- The result of `loadMembersFromFile` on a file that holds as many records
as its count says. -/
theorem loadMembersFromFile_whole (list : MemberList) (f : DataFile Member)
    (hf : f.count = (f.records.length : Int)) :
    ∃ list1 : MemberList,
      loadMembersFromFile list (some f)
        = some (list1, f.records.foldl
            (fun nx r => if r.memberID ≥ nx then r.memberID + 1 else nx) 1) ∧
      list1.count = f.count ∧
      list1.capacity = (if f.count > 10 then f.count else 10) ∧
      list1.Allocated ∧
      list1.records = f.records := by
  obtain ⟨list1, h1, h2, h3, h4, h5⟩ := loadMembersFromFile_ok list f (by omega)
  have hrec : list1.records = f.records := by
    rw [h5]
    have hn : f.count.toNat = f.records.length := by omega
    rw [hn, List.take_length, Nat.sub_self]
    simp
  rw [hrec] at h1
  exact ⟨list1, h1, h2, h3, h4, hrec⟩

/-- The result of `saveMembersToFile` when the file opens: the count and the
records of the store. -/
theorem saveMembersToFile_ok (list : MemberList) (disk : Option (DataFile Member))
    (hA : list.Allocated) (hInv : list.Inv) :
    saveMembersToFile list disk true = some (some ⟨list.count, list.records⟩, []) ∧
    ((list.records.length : Int) = list.count) := by
  obtain ⟨h0, h1⟩ := hInv
  simp only [MemberList.Allocated] at hA
  have hle : list.count.toNat ≤ list.members.length := by omega
  refine ⟨?_, ?_⟩
  · simp [saveMembersToFile, fwrite, toSizeT_of_nonneg _ h0, hle, MemberList.records]
  · simp only [MemberList.records, List.length_take]
    omega

/-- The result of `loadEquipmentFromFile` on a file that holds as many records
as its count says. -/
theorem loadEquipmentFromFile_whole (list : EquipmentList) (f : DataFile Equipment)
    (hf : f.count = (f.records.length : Int)) :
    ∃ list1 : EquipmentList,
      loadEquipmentFromFile list (some f)
        = some (list1, f.records.foldl
            (fun nx r => if r.id ≥ nx then r.id + 1 else nx) 1) ∧
      list1.count = f.count ∧
      list1.capacity = (if f.count > 10 then f.count else 10) ∧
      list1.Allocated ∧
      list1.records = f.records := by
  obtain ⟨list1, h1, h2, h3, h4, h5⟩ := loadEquipmentFromFile_ok list f (by omega)
  have hrec : list1.records = f.records := by
    rw [h5]
    have hn : f.count.toNat = f.records.length := by omega
    rw [hn, List.take_length, Nat.sub_self]
    simp
  rw [hrec] at h1
  exact ⟨list1, h1, h2, h3, h4, hrec⟩

/-- The result of `saveEquipmentToFile` when the file opens: the count and the
records of the store. -/
theorem saveEquipmentToFile_ok (list : EquipmentList) (disk : Option (DataFile Equipment))
    (hA : list.Allocated) (hInv : list.Inv) :
    saveEquipmentToFile list disk true = some (some ⟨list.count, list.records⟩, []) ∧
    ((list.records.length : Int) = list.count) := by
  obtain ⟨h0, h1⟩ := hInv
  simp only [EquipmentList.Allocated] at hA
  have hle : list.count.toNat ≤ list.equipments.length := by omega
  refine ⟨?_, ?_⟩
  · simp [saveEquipmentToFile, fwrite, toSizeT_of_nonneg _ h0, hle, EquipmentList.records]
  · simp only [EquipmentList.records, List.length_take]
    omega

/-! ## The invariant `0 <= count <= capacity` -/

/-- C11: `0 <= count <= capacity` holds for the new stores, holds after a load
of a file with a non-negative count (and after a load without a file) whatever
the store passed to the load was (`ml0`, `el0`, with no condition on them), and
on a store that has it (`ml`, `el`) is kept by every insert that returns (an
insert returns whenever the capacity is at least 1, doubling included) and by
every delete (halving included). -/
theorem count_within_capacity (ml ml0 : MemberList) (m : Member) (memberID : Int)
    (mf : DataFile Member) (el el0 : EquipmentList) (e : Equipment) (equipmentID : Int)
    (ef : DataFile Equipment)
    (hmInv : ml.Inv) (hmA : ml.Allocated) (hmf : 0 ≤ mf.count)
    (heInv : el.Inv) (heA : el.Allocated) (hef : 0 ≤ ef.count) :
    (newMemberList.Inv ∧
      (∃ ml1 next, loadMembersFromFile ml0 (some mf) = some (ml1, next) ∧ ml1.Inv) ∧
      (∃ ml1 next, loadMembersFromFile ml0 none = some (ml1, next) ∧ ml1.Inv) ∧
      (∀ ml1, addMember ml m = some ml1 → ml1.Inv) ∧
      (1 ≤ ml.capacity → ∃ ml1, addMember ml m = some ml1 ∧ ml1.Inv) ∧
      (∃ ml1 out, deleteMember ml memberID = some (ml1, out) ∧ ml1.Inv)) ∧
    (newEquipmentList.Inv ∧
      (∃ el1 next, loadEquipmentFromFile el0 (some ef) = some (el1, next) ∧ el1.Inv) ∧
      (∃ el1 next, loadEquipmentFromFile el0 none = some (el1, next) ∧ el1.Inv) ∧
      (∀ el1, addEquipment el e = some el1 → el1.Inv) ∧
      (1 ≤ el.capacity → ∃ el1, addEquipment el e = some el1 ∧ el1.Inv) ∧
      (∃ el1 out, deleteEquipment el equipmentID = some (el1, out) ∧ el1.Inv)) := by
  refine ⟨⟨by decide, ?_, ?_, ?_, ?_, ?_⟩, ⟨by decide, ?_, ?_, ?_, ?_, ?_⟩⟩
  · obtain ⟨ml1, h1, h2, h3, _, _⟩ := loadMembersFromFile_ok ml0 mf hmf
    refine ⟨ml1, _, h1, ?_⟩
    simp only [MemberList.Inv]
    rw [h2, h3]
    split_ifs <;> omega
  · exact ⟨_, _, rfl, by simp [MemberList.Inv]⟩
  · intro ml1 h
    exact addMember_inv ml ml1 m hmInv h
  · intro hcap
    obtain ⟨ml1, h1, _⟩ := addMember_ok ml m hmA hmInv.1 hmInv.2 hcap
    exact ⟨ml1, h1, addMember_inv ml ml1 m hmInv h1⟩
  · obtain ⟨ml1, out, h1, h2, _⟩ := deleteMember_inv ml memberID hmA hmInv
    exact ⟨ml1, out, h1, h2⟩
  · obtain ⟨el1, h1, h2, h3, _, _⟩ := loadEquipmentFromFile_ok el0 ef hef
    refine ⟨el1, _, h1, ?_⟩
    simp only [EquipmentList.Inv]
    rw [h2, h3]
    split_ifs <;> omega
  · exact ⟨_, _, rfl, by simp [EquipmentList.Inv]⟩
  · intro el1 h
    exact addEquipment_inv el el1 e heInv h
  · intro hcap
    obtain ⟨el1, h1, _⟩ := addEquipment_ok el e heA heInv.1 heInv.2 hcap
    exact ⟨el1, h1, addEquipment_inv el el1 e heInv h1⟩
  · obtain ⟨el1, out, h1, h2, _⟩ := deleteEquipment_inv el equipmentID heA heInv
    exact ⟨el1, out, h1, h2⟩

theorem count_within_capacity_witness :
    (∃ ml1 next,
      loadMembersFromFile ⟨-3, 0, []⟩ (some ⟨2, [sampleMember 4, sampleMember 7]⟩)
        = some (ml1, next) ∧ ml1.Inv) ∧
    (∃ ml1 out, deleteMember (memberListOf [1, 2, 3, 4, 5, 6]) 3 = some (ml1, out) ∧ ml1.Inv) ∧
    (∃ el1, addEquipment (equipmentListOf [1, 2, 3, 4, 5, 6, 7, 8, 9, 10]) (sampleEquipment 11)
      = some el1 ∧ el1.Inv) :=
  have h := count_within_capacity (memberListOf [1, 2, 3, 4, 5, 6]) ⟨-3, 0, []⟩
    (sampleMember 7) 3 ⟨2, [sampleMember 4, sampleMember 7]⟩
    (equipmentListOf [1, 2, 3, 4, 5, 6, 7, 8, 9, 10]) ⟨7, 2, []⟩ (sampleEquipment 11) 3
    ⟨0, []⟩ (by decide) (by decide) (by decide) (by decide) (by decide) (by decide)
  ⟨h.1.2.1, h.1.2.2.2.2.2, h.2.2.2.2.2.1 (by decide)⟩

/-! ## Loading and saving: the next id, the missing file, the round trip -/

/-- C15: for a file that holds as many records as its count says, the load
leaves the next id at `max 1 (m + 1)` for the greatest id `m` of the loaded
records, and at 1 when there are no records. -/
theorem load_next_id (ml : MemberList) (mf : DataFile Member)
    (el : EquipmentList) (ef : DataFile Equipment)
    (hmf : mf.count = (mf.records.length : Int))
    (hef : ef.count = (ef.records.length : Int)) :
    (∃ ml1 next, loadMembersFromFile ml (some mf) = some (ml1, next) ∧
      ml1.records = mf.records ∧
      (mf.records = [] → next = 1) ∧
      (∀ m : Int, (∃ r ∈ mf.records, r.memberID = m) → (∀ r ∈ mf.records, r.memberID ≤ m) →
        next = max 1 (m + 1))) ∧
    (∃ el1 next, loadEquipmentFromFile el (some ef) = some (el1, next) ∧
      el1.records = ef.records ∧
      (ef.records = [] → next = 1) ∧
      (∀ m : Int, (∃ r ∈ ef.records, r.id = m) → (∀ r ∈ ef.records, r.id ≤ m) →
        next = max 1 (m + 1))) := by
  obtain ⟨ml1, a1, _, _, _, a5⟩ := loadMembersFromFile_whole ml mf hmf
  obtain ⟨el1, b1, _, _, _, b5⟩ := loadEquipmentFromFile_whole el ef hef
  refine ⟨⟨ml1, _, a1, a5, ?_, ?_⟩, ⟨el1, _, b1, b5, ?_, ?_⟩⟩
  · intro h; rw [h]; rfl
  · intro m hm hmax; exact nextId_fold_max Member.memberID mf.records m hm hmax
  · intro h; rw [h]; rfl
  · intro m hm hmax; exact nextId_fold_max Equipment.id ef.records m hm hmax

theorem load_next_id_witness :
    (∃ ml1 next,
      loadMembersFromFile newMemberList
        (some ⟨3, [sampleMember 4, sampleMember 9, sampleMember 2]⟩) = some (ml1, next) ∧
      next = max 1 (9 + 1)) ∧
    (∃ el1 next, loadEquipmentFromFile newEquipmentList (some ⟨0, []⟩) = some (el1, next) ∧
      next = 1) :=
  have h := load_next_id newMemberList ⟨3, [sampleMember 4, sampleMember 9, sampleMember 2]⟩
    newEquipmentList ⟨0, []⟩ (by decide) (by decide)
  ⟨h.1.imp fun _ h1 => h1.imp fun _ h2 =>
      ⟨h2.1, h2.2.2.2 9 ⟨sampleMember 9, by decide, by decide⟩ (by decide)⟩,
    h.2.imp fun _ h1 => h1.imp fun _ h2 => ⟨h2.1, h2.2.2.1 rfl⟩⟩

/-- C16: when the file cannot be opened the load returns the empty store with
count 0 and capacity 10 (a fresh block of 10 records) and the next id 1. -/
theorem load_missing_file (ml : MemberList) (el : EquipmentList) :
    (loadMembersFromFile ml none = some (newMemberList, 1) ∧
      newMemberList.count = 0 ∧ newMemberList.capacity = 10 ∧ newMemberList.records = []) ∧
    (loadEquipmentFromFile el none = some (newEquipmentList, 1) ∧
      newEquipmentList.count = 0 ∧ newEquipmentList.capacity = 10 ∧
      newEquipmentList.records = []) :=
  ⟨⟨rfl, rfl, rfl, rfl⟩, ⟨rfl, rfl, rfl, rfl⟩⟩

/-- C17: a save that opens its file followed by a load of that file gives a
store with the same count, the same records in the same order, the capacity
`max count 10` and the next id `max 1 (m + 1)` for the greatest saved id `m`
(1 when no record was saved). -/
theorem save_load_round_trip (ml ml0 : MemberList) (mdisk : Option (DataFile Member))
    (el el0 : EquipmentList) (edisk : Option (DataFile Equipment))
    (hmA : ml.Allocated) (hmInv : ml.Inv) (heA : el.Allocated) (heInv : el.Inv) :
    (∃ file ml1 next,
      saveMembersToFile ml mdisk true = some (some file, []) ∧
      loadMembersFromFile ml0 (some file) = some (ml1, next) ∧
      ml1.count = ml.count ∧ ml1.records = ml.records ∧
      ml1.capacity = max ml.count 10 ∧
      (ml.records = [] → next = 1) ∧
      (∀ m : Int, (∃ r ∈ ml.records, r.memberID = m) → (∀ r ∈ ml.records, r.memberID ≤ m) →
        next = max 1 (m + 1))) ∧
    (∃ file el1 next,
      saveEquipmentToFile el edisk true = some (some file, []) ∧
      loadEquipmentFromFile el0 (some file) = some (el1, next) ∧
      el1.count = el.count ∧ el1.records = el.records ∧
      el1.capacity = max el.count 10 ∧
      (el.records = [] → next = 1) ∧
      (∀ m : Int, (∃ r ∈ el.records, r.id = m) → (∀ r ∈ el.records, r.id ≤ m) →
        next = max 1 (m + 1))) := by
  obtain ⟨a1, a2⟩ := saveMembersToFile_ok ml mdisk hmA hmInv
  obtain ⟨ml1, a3, a4, a5, _, a7⟩ :=
    loadMembersFromFile_whole ml0 ⟨ml.count, ml.records⟩ a2.symm
  obtain ⟨b1, b2⟩ := saveEquipmentToFile_ok el edisk heA heInv
  obtain ⟨el1, b3, b4, b5, _, b7⟩ :=
    loadEquipmentFromFile_whole el0 ⟨el.count, el.records⟩ b2.symm
  refine ⟨⟨_, ml1, _, a1, a3, a4, a7, ?_, ?_, ?_⟩, ⟨_, el1, _, b1, b3, b4, b7, ?_, ?_, ?_⟩⟩
  · rw [a5]; simp only []; split_ifs <;> omega
  · intro h; simp only [h]; rfl
  · intro m hm hmax; exact nextId_fold_max Member.memberID ml.records m hm hmax
  · rw [b5]; simp only []; split_ifs <;> omega
  · intro h; simp only [h]; rfl
  · intro m hm hmax; exact nextId_fold_max Equipment.id el.records m hm hmax

theorem save_load_round_trip_witness :
    (∃ file ml1 next,
      saveMembersToFile memberStore37 none true = some (some file, []) ∧
      loadMembersFromFile newMemberList (some file) = some (ml1, next) ∧
      ml1.count = memberStore37.count ∧ ml1.records = memberStore37.records ∧
      ml1.capacity = max memberStore37.count 10 ∧ next = max 1 (37 + 1)) ∧
    (∃ file el1 next,
      saveEquipmentToFile (equipmentListOf [1]) none true = some (some file, []) ∧
      loadEquipmentFromFile newEquipmentList (some file) = some (el1, next) ∧
      el1.count = (equipmentListOf [1]).count ∧ el1.records = (equipmentListOf [1]).records ∧
      el1.capacity = max (equipmentListOf [1]).count 10 ∧ next = max 1 (1 + 1)) ∧
    (∃ file ml1 next,
      saveMembersToFile newMemberList none true = some (some file, []) ∧
      loadMembersFromFile newMemberList (some file) = some (ml1, next) ∧
      ml1.count = newMemberList.count ∧ ml1.records = newMemberList.records ∧
      ml1.capacity = max newMemberList.count 10 ∧ next = 1) :=
  have h := save_load_round_trip memberStore37 newMemberList none
    (equipmentListOf [1]) newEquipmentList none
    (by decide) (by decide) (by decide) (by decide)
  have h0 := save_load_round_trip newMemberList newMemberList none
    newEquipmentList newEquipmentList none
    (by decide) (by decide) (by decide) (by decide)
  ⟨h.1.imp fun _ h1 => h1.imp fun _ h2 => h2.imp fun _ h3 =>
      ⟨h3.1, h3.2.1, h3.2.2.1, h3.2.2.2.1, h3.2.2.2.2.1,
        h3.2.2.2.2.2.2 37 ⟨sampleMember 37, by decide, by decide⟩ (by decide)⟩,
    h.2.imp fun _ h1 => h1.imp fun _ h2 => h2.imp fun _ h3 =>
      ⟨h3.1, h3.2.1, h3.2.2.1, h3.2.2.2.1, h3.2.2.2.2.1,
        h3.2.2.2.2.2.2 1 ⟨sampleEquipment 1, by decide, by decide⟩ (by decide)⟩,
    h0.1.imp fun _ h1 => h1.imp fun _ h2 => h2.imp fun _ h3 =>
      ⟨h3.1, h3.2.1, h3.2.2.1, h3.2.2.2.1, h3.2.2.2.2.1, h3.2.2.2.2.2.1 (by decide)⟩⟩

/-! ## Lookup -/

/-- The loop of `findMemberByID` is the scan of `deleteMember` with `NULL` for -1. -/
theorem findMemberFrom_eq (block : List Member) (memberID : Int) :
    ∀ (n k : Nat), findMemberFrom block memberID n (k : Int)
      = (findIndexFrom Member.memberID block memberID n (k : Int)).map
          (fun j => if j = -1 then none else some j) := by
  intro n
  induction n with
  | zero => intro k; rfl
  | succ n ih =>
    intro k
    have hk : ((k : Int) + 1) = ((k + 1 : Nat) : Int) := by push_cast; rfl
    simp only [findMemberFrom, findIndexFrom]
    cases hr : readAt block (k : Int) with
    | none => rfl
    | some r =>
      simp only []
      by_cases h : r.memberID = memberID
      · have hne : ¬ ((k : Int) = -1) := by omega
        simp [h, hne]
      · simp only [if_neg h]
        rw [hk]
        exact ih (k + 1)

/-- The result of `findMemberByID` in terms of the first `count` records. -/
theorem findMemberByID_eq (list : MemberList) (memberID : Int)
    (hA : list.Allocated) (hc : list.count ≤ list.capacity) :
    findMemberByID list memberID
      = some (list,
          if list.records.findIdx (fun r => decide (r.memberID = memberID)) < list.records.length
          then some ((list.records.findIdx (fun r => decide (r.memberID = memberID)) : Nat) : Int)
          else none) := by
  have h0 := findMemberFrom_eq list.members memberID list.count.toNat 0
  simp only [Nat.cast_zero] at h0
  unfold findMemberByID
  rw [h0]
  by_cases h : ∃ r ∈ list.records, r.memberID = memberID
  · obtain ⟨pre, x, mid, hs, hx, hpre⟩ := exists_first_match Member.memberID memberID _ h
    obtain ⟨_, _, hscan, _⟩ := delete_loops Member.memberID memberID list.members list.count
      pre x mid (by rw [hA]; exact hc) hs hx hpre
    have hidx := findIdx_first_match Member.memberID memberID x mid hx pre hpre
    have hne : ¬ ((pre.length : Int) = -1) := by omega
    rw [hscan, hs, hidx]
    simp [hne]
  · have hno : ∀ r ∈ list.records, r.memberID ≠ memberID := fun r hr hk => h ⟨r, hr, hk⟩
    have hscan := delete_scan_none Member.memberID memberID list.members list.count
      (by rw [hA]; exact hc) hno
    have hidx : list.records.findIdx (fun r => decide (r.memberID = memberID))
        = list.records.length :=
      List.findIdx_eq_length_of_false (by simpa using hno)
    rw [hscan, hidx]
    simp

/-- C13: `findMemberByID` returns the store as it was and a pointer to the
record at the smallest index below count whose id matches (the records split
as `pre ++ x :: mid` at it), and `NULL` exactly when no record among the first
count has the id; the result is the same for every store with the same first
count records, whatever lies at or beyond count. -/
theorem findMemberByID_first (list : MemberList) (memberID : Int)
    (hA : list.Allocated) (hc : list.count ≤ list.capacity) :
    ∃ ptr : Option Int, findMemberByID list memberID = some (list, ptr) ∧
      (ptr = none ↔ ∀ r ∈ list.records, r.memberID ≠ memberID) ∧
      (∀ i : Int, ptr = some i →
        ∃ (pre : List Member) (x : Member) (mid : List Member),
          list.records = pre ++ x :: mid ∧ i = (pre.length : Int) ∧ i < list.count ∧
          x.memberID = memberID ∧ (∀ r ∈ pre, r.memberID ≠ memberID) ∧
          readAt list.members i = some x) ∧
      (∀ list2 : MemberList, list2.Allocated → list2.count ≤ list2.capacity →
        list2.count = list.count → list2.records = list.records →
        findMemberByID list2 memberID = some (list2, ptr)) := by
  refine ⟨_, findMemberByID_eq list memberID hA hc, ?_, ?_, ?_⟩
  · constructor
    · intro h r hr hk
      have hlt : list.records.findIdx (fun r => decide (r.memberID = memberID))
          < list.records.length :=
        List.findIdx_lt_length_of_exists ⟨r, hr, by simpa using hk⟩
      rw [if_pos hlt] at h
      cases h
    · intro hno
      have hidx : list.records.findIdx (fun r => decide (r.memberID = memberID))
          = list.records.length :=
        List.findIdx_eq_length_of_false (by simpa using hno)
      rw [hidx, if_neg (by omega)]
  · intro i hi
    by_cases h : ∃ r ∈ list.records, r.memberID = memberID
    · obtain ⟨pre, x, mid, hs, hx, hpre⟩ := exists_first_match Member.memberID memberID _ h
      obtain ⟨hcount, hblock, _, _⟩ := delete_loops Member.memberID memberID list.members
        list.count pre x mid (by rw [hA]; exact hc) hs hx hpre
      have hidx := findIdx_first_match Member.memberID memberID x mid hx pre hpre
      rw [hs, hidx, if_pos (by simp)] at hi
      have hi2 : i = (pre.length : Int) := by cases hi; rfl
      refine ⟨pre, x, mid, hs, hi2, by omega, hx, hpre, ?_⟩
      rw [hi2, hblock]
      exact readAt_mid pre x _
    · have hno : ∀ r ∈ list.records, r.memberID ≠ memberID := fun r hr hk => h ⟨r, hr, hk⟩
      have hidx : list.records.findIdx (fun r => decide (r.memberID = memberID))
          = list.records.length :=
        List.findIdx_eq_length_of_false (by simpa using hno)
      rw [hidx, if_neg (by omega)] at hi
      cases hi
  · intro list2 hA2 hc2 _ hrec
    rw [findMemberByID_eq list2 memberID hA2 hc2, hrec]

theorem findMemberByID_first_witness :
    ∃ ptr : Option Int, findMemberByID (memberListOf [4, 7, 9]) 7
        = some (memberListOf [4, 7, 9], ptr) ∧
      (ptr = none ↔ ∀ r ∈ (memberListOf [4, 7, 9]).records, r.memberID ≠ 7) ∧
      (∀ i : Int, ptr = some i →
        ∃ (pre : List Member) (x : Member) (mid : List Member),
          (memberListOf [4, 7, 9]).records = pre ++ x :: mid ∧ i = (pre.length : Int) ∧
          i < (memberListOf [4, 7, 9]).count ∧
          x.memberID = 7 ∧ (∀ r ∈ pre, r.memberID ≠ 7) ∧
          readAt (memberListOf [4, 7, 9]).members i = some x) ∧
      (∀ list2 : MemberList, list2.Allocated → list2.count ≤ list2.capacity →
        list2.count = (memberListOf [4, 7, 9]).count →
        list2.records = (memberListOf [4, 7, 9]).records →
        findMemberByID list2 7 = some (list2, ptr)) :=
  findMemberByID_first (memberListOf [4, 7, 9]) 7 (by decide) (by decide)

/-! ## Reports -/

/-- The loop of `generateReport` over the part `l` of the block adds the sums
of the three counts over `l` to the totals. -/
theorem generateReportLoop_eq (block rest : List Equipment) :
    ∀ (l pre : List Equipment) (report : Report), block = pre ++ (l ++ rest) →
      generateReportLoop block l.length (pre.length : Int) report
        = some { report with
            total_equipment_count :=
              report.total_equipment_count + (l.map Equipment.totalQuantity).sum
            total_functional_equipment :=
              report.total_functional_equipment + (l.map Equipment.functional).sum
            total_broken_equipment :=
              report.total_broken_equipment + (l.map Equipment.broken).sum } := by
  intro l
  induction l with
  | nil => intro pre report _; simp [generateReportLoop]
  | cons x l ih =>
    intro pre report hb
    have hget : readAt block (pre.length : Int) = some x := by
      rw [hb]; exact readAt_mid pre x (l ++ rest)
    have hstep := ih (pre ++ [x])
      { report with
        total_equipment_count := report.total_equipment_count + x.totalQuantity
        total_functional_equipment := report.total_functional_equipment + x.functional
        total_broken_equipment := report.total_broken_equipment + x.broken }
      (by rw [hb]; simp)
    rw [cast_length_snoc] at hstep
    simp only [List.length_cons, generateReportLoop, hget]
    rw [hstep]
    simp only [List.map_cons, List.sum_cons, add_assoc]

/-- The totals `generateReport` writes are the sums over the first `count`
records. -/
theorem generateReport_ok (list : EquipmentList) (report : Report) (currentDate : Date)
    (hA : list.Allocated) (hc : list.count ≤ list.capacity) :
    ∃ (report1 : Report) (out : List String),
      generateReport list report currentDate = some (report1, out) ∧
      report1.total_equipment_count = (list.records.map Equipment.totalQuantity).sum ∧
      report1.total_functional_equipment = (list.records.map Equipment.functional).sum ∧
      report1.total_broken_equipment = (list.records.map Equipment.broken).sum ∧
      report1.report_date = currentDate ∧
      report1.report_ID = report.report_ID := by
  simp only [EquipmentList.Allocated] at hA
  have hlen : (list.equipments.take list.count.toNat).length = list.count.toNat := by
    rw [List.length_take]; omega
  have h := generateReportLoop_eq list.equipments (list.equipments.drop list.count.toNat)
    (list.equipments.take list.count.toNat) []
    { report with
      total_equipment_count := 0, total_functional_equipment := 0, total_broken_equipment := 0 }
    (by simp)
  rw [hlen] at h
  simp only [List.length_nil, Nat.cast_zero] at h
  unfold generateReport
  simp only [h]
  exact ⟨_, _, rfl, by simp [EquipmentList.records], by simp [EquipmentList.records],
    by simp [EquipmentList.records], rfl, rfl⟩

/-- C18: `generateReport` sets the three totals to the sums of totalQuantity,
functional and broken over the first count records, whatever the report passed
in held before; the totals are 0 for the empty store and (8, 6, 2) for the
store of the two records (5, 5, 0) and (3, 1, 2). -/
theorem generateReport_totals (list : EquipmentList) (report report2 : Report)
    (currentDate : Date) (hA : list.Allocated) (hc : list.count ≤ list.capacity) :
    (∃ (report1 : Report) (out : List String),
      generateReport list report currentDate = some (report1, out) ∧
      report1.total_equipment_count = (list.records.map Equipment.totalQuantity).sum ∧
      report1.total_functional_equipment = (list.records.map Equipment.functional).sum ∧
      report1.total_broken_equipment = (list.records.map Equipment.broken).sum ∧
      (∃ (report3 : Report) (out3 : List String),
        generateReport list report2 currentDate = some (report3, out3) ∧
        report3.total_equipment_count = report1.total_equipment_count ∧
        report3.total_functional_equipment = report1.total_functional_equipment ∧
        report3.total_broken_equipment = report1.total_broken_equipment)) ∧
    (generateReport newEquipmentList report currentDate).map
      (fun p => (p.1.total_equipment_count, p.1.total_functional_equipment,
        p.1.total_broken_equipment)) = some (0, 0, 0) ∧
    (generateReport reportExampleStore report currentDate).map
      (fun p => (p.1.total_equipment_count, p.1.total_functional_equipment,
        p.1.total_broken_equipment)) = some (8, 6, 2) := by
  obtain ⟨r1, o1, a1, a2, a3, a4, _, _⟩ := generateReport_ok list report currentDate hA hc
  obtain ⟨r3, o3, b1, b2, b3, b4, _, _⟩ := generateReport_ok list report2 currentDate hA hc
  refine ⟨⟨r1, o1, a1, a2, a3, a4, r3, o3, b1, ?_, ?_, ?_⟩, ?_, ?_⟩
  · rw [a2, b2]
  · rw [a3, b3]
  · rw [a4, b4]
  · obtain ⟨r, o, c1, c2, c3, c4, _, _⟩ :=
      generateReport_ok newEquipmentList report currentDate (by decide) (by decide)
    rw [c1]
    simp only [Option.map_some', c2, c3, c4]
    rfl
  · obtain ⟨r, o, c1, c2, c3, c4, _, _⟩ :=
      generateReport_ok reportExampleStore report currentDate (by decide) (by decide)
    rw [c1]
    simp only [Option.map_some', c2, c3, c4]
    rfl

theorem generateReport_totals_witness :
    (generateReport (equipmentListOf [1, 2, 3]) default ⟨3, 11, 2026⟩).map
      (fun p => (p.1.total_equipment_count, p.1.total_functional_equipment,
        p.1.total_broken_equipment)) = some (15, 15, 0) :=
  have h := generateReport_totals (equipmentListOf [1, 2, 3]) default default ⟨3, 11, 2026⟩
    (by decide) (by decide)
  match h.1 with
  | ⟨r1, _, h1, h2, h3, h4, _⟩ => by
    rw [h1]
    simp only [Option.map_some', h2, h3, h4]
    rfl

/-! ## Equipment status -/

theorem isValidDate_zero_or_one (day month year : Int) :
    isValidDate day month year = 0 ∨ isValidDate day month year = 1 := by
  rw [isValidDate_eq]
  split_ifs
  · exact Or.inr rfl
  · exact Or.inl rfl

theorem compareDates_self (d : Date) : compareDates d d = 0 := by
  simp [compareDates]

/-- The first loop returns the first outcome that is 1 or 2. -/
theorem readStatusChoice_skips (c : Int) (hc : c = 1 ∨ c = 2) (rest : List (Option Int)) :
    ∀ bad : List (Option Int), (∀ x ∈ bad, x ≠ some 1 ∧ x ≠ some 2) →
      ∃ out, readStatusChoice (bad ++ some c :: rest) = some (c, out) := by
  intro bad
  induction bad with
  | nil => intro _; exact ⟨statusMenu, by simp [readStatusChoice, hc]⟩
  | cons x bad ih =>
    intro h
    obtain ⟨out, hout⟩ := ih (fun y hy => h y (List.mem_cons_of_mem _ hy))
    have hx := h x (List.mem_cons_self _ _)
    cases x with
    | none =>
      have e : (none :: bad) ++ some c :: rest = none :: (bad ++ some c :: rest) := rfl
      rw [e]
      simp only [readStatusChoice, hout]
      exact ⟨_, rfl⟩
    | some v =>
      have hv : ¬ (v = 1 ∨ v = 2) := by
        rintro (h1 | h1)
        · exact hx.1 (by rw [h1])
        · exact hx.2 (by rw [h1])
      have e : (some v :: bad) ++ some c :: rest = some v :: (bad ++ some c :: rest) := rfl
      rw [e]
      simp only [readStatusChoice, hout, if_neg hv]
      exact ⟨_, rfl⟩

/-- C19: `updateEquipmentStatus` with the choice 1 (after any number of
rejected choices) returns with status "Operational" and repair ETA (0,0,0),
whatever the record, the date and the remaining input; no other field
changes. -/
theorem mark_operational (equipment : Equipment) (currentDate : Date)
    (bad rest : List (Option Int)) (dates : List (Option (Int × Int × Int)))
    (hbad : ∀ x ∈ bad, x ≠ some 1 ∧ x ≠ some 2) :
    ∃ out : List String,
      updateEquipmentStatus equipment currentDate (bad ++ some 1 :: rest) dates
        = some ({ equipment with status := "Operational", repairETA := ⟨0, 0, 0⟩ }, out) := by
  obtain ⟨out, hout⟩ := readStatusChoice_skips 1 (Or.inl rfl) rest bad hbad
  simp only [updateEquipmentStatus, hout, if_true]
  exact ⟨_, rfl⟩

theorem mark_operational_witness :
    ∃ out : List String,
      updateEquipmentStatus (sampleEquipment 1) ⟨3, 11, 2026⟩
          ([none, some 5] ++ some 1 :: []) [some (1, 1, 2000)]
        = some ({ sampleEquipment 1 with status := "Operational", repairETA := ⟨0, 0, 0⟩ },
            out) :=
  mark_operational (sampleEquipment 1) ⟨3, 11, 2026⟩ [none, some 5] [] [some (1, 1, 2000)]
    (by decide)

/-- C20: with the choice 2 and one candidate date, the candidate is accepted
exactly when `isValidDate` returns 1 and `compareDates candidate today >= 0`
(so today itself is accepted); the call then returns with status "Under
Maintenance" and the candidate as repair ETA.  A candidate `isValidDate`
rejects gets the invalid-date message whatever its order to today, a valid one
before today gets the past-date message, and in both cases the call does not
return on that candidate. -/
theorem mark_under_maintenance (equipment : Equipment) (currentDate : Date)
    (bad rest : List (Option Int)) (day month year : Int)
    (hbad : ∀ x ∈ bad, x ≠ some 1 ∧ x ≠ some 2) :
    ((repairETAAttempt equipment currentDate (some (day, month, year))).2.2 = true ↔
      (isValidDate day month year = 1 ∧ compareDates ⟨day, month, year⟩ currentDate ≥ 0)) ∧
    (isValidDate day month year = 1 → currentDate = ⟨day, month, year⟩ →
      (repairETAAttempt equipment currentDate (some (day, month, year))).2.2 = true) ∧
    (isValidDate day month year = 1 → compareDates ⟨day, month, year⟩ currentDate ≥ 0 →
      ∃ out : List String,
        updateEquipmentStatus equipment currentDate (bad ++ some 2 :: rest)
            [some (day, month, year)]
          = some ({ equipment with
                    status := "Under Maintenance", repairETA := ⟨day, month, year⟩ }, out)) ∧
    (isValidDate day month year ≠ 1 →
      repairETAAttempt equipment currentDate (some (day, month, year))
        = (equipment,
            ["Enter the repair ETA (dd mm yyyy): ",
              "Error: Invalid date entered. Please enter a valid date.\n"], false)) ∧
    (isValidDate day month year = 1 → compareDates ⟨day, month, year⟩ currentDate < 0 →
      repairETAAttempt equipment currentDate (some (day, month, year))
        = (equipment,
            ["Enter the repair ETA (dd mm yyyy): ",
              "Error: Repair ETA cannot be in the past.\n"], false)) ∧
    ((repairETAAttempt equipment currentDate (some (day, month, year))).2.2 = false →
      updateEquipmentStatus equipment currentDate (bad ++ some 2 :: rest)
        [some (day, month, year)] = none) := by
  obtain ⟨out, hout⟩ := readStatusChoice_skips 2 (Or.inr rfl) rest bad hbad
  have h01 := isValidDate_zero_or_one day month year
  have hacc : (repairETAAttempt equipment currentDate (some (day, month, year))).2.2 = true ↔
      (isValidDate day month year = 1 ∧ compareDates ⟨day, month, year⟩ currentDate ≥ 0) := by
    unfold repairETAAttempt
    rcases h01 with h | h
    · simp [h]
    · by_cases hc : compareDates ⟨day, month, year⟩ currentDate < 0
      · simp [h, hc]
      · simp [h, hc]; omega
  refine ⟨hacc, ?_, ?_, ?_, ?_, ?_⟩
  · intro hv ht
    rw [hacc, ht]
    exact ⟨hv, by rw [compareDates_self]⟩
  · intro hv hc
    have hc2 : ¬ (compareDates ⟨day, month, year⟩ currentDate < 0) := by omega
    have h21 : ¬ ((2 : Int) = 1) := by decide
    have h10 : ¬ ((1 : Int) = 0) := by decide
    simp only [updateEquipmentStatus, hout, repairETALoop, repairETAAttempt, hv, if_neg hc2,
      if_neg h21, if_neg h10]
    exact ⟨_, rfl⟩
  · intro hv
    have h0 : isValidDate day month year = 0 := by
      rcases h01 with h | h
      · exact h
      · exact absurd h hv
    simp [repairETAAttempt, h0]
  · intro hv hc
    simp [repairETAAttempt, hv, hc]
  · intro hrej
    unfold repairETAAttempt at hrej
    rcases h01 with h | h
    · simp [updateEquipmentStatus, hout, repairETALoop, repairETAAttempt, h]
    · by_cases hc : compareDates ⟨day, month, year⟩ currentDate < 0
      · simp [updateEquipmentStatus, hout, repairETALoop, repairETAAttempt, h, hc]
      · simp [h, hc] at hrej

theorem mark_under_maintenance_witness :
    ∃ out : List String,
      updateEquipmentStatus (sampleEquipment 1) ⟨3, 11, 2026⟩ ([some 0] ++ some 2 :: [])
          [some (3, 11, 2026)]
        = some ({ sampleEquipment 1 with
                  status := "Under Maintenance", repairETA := ⟨3, 11, 2026⟩ }, out) :=
  (mark_under_maintenance (sampleEquipment 1) ⟨3, 11, 2026⟩ [some 0] [] 3 11 2026
    (by decide)).2.2.1 (by decide) (by decide)

/-! ## Sequences of operations -/

/-- A run of inserts and deletes on any store whose insert appends and whose
delete erases the first record with the id: it returns, the number of records
is the number held at the start plus the inserts minus the counted deletes, the
ids stay distinct and the records stay in the order of insertion. -/
theorem runOps_spec {S α : Type} (key : α → Int) (add : S → α → Option S)
    (del : S → Int → Option (S × List String)) (recs : S → List α) (WF : S → Prop)
    (hadd : ∀ s r, WF s → ∃ s1, add s r = some s1 ∧ WF s1 ∧ recs s1 = recs s ++ [r])
    (hdelF : ∀ s id pre x mid, WF s → recs s = pre ++ x :: mid → key x = id →
      (∀ r ∈ pre, key r ≠ id) →
      ∃ s1 out, del s id = some (s1, out) ∧ WF s1 ∧ recs s1 = pre ++ mid)
    (hdelN : ∀ s id, WF s → (∀ r ∈ recs s, key r ≠ id) → ∃ out, del s id = some (s, out)) :
    ∀ (ops : List (StoreOp α)) (s : S), WF s →
      ((recs s ++ insertedRecords ops).map key).Nodup →
      ∃ s1 k, runOps key add del recs s ops = some (s1, k) ∧ WF s1 ∧
        (recs s1).length + k = (recs s).length + (insertedRecords ops).length ∧
        ((recs s1).map key).Nodup ∧
        (recs s1).Sublist (recs s ++ insertedRecords ops) := by
  intro ops
  induction ops with
  | nil =>
    intro s hs hnd
    refine ⟨s, 0, rfl, hs, by simp [insertedRecords], ?_, ?_⟩
    · simpa [insertedRecords] using hnd
    · simp [insertedRecords]
  | cons op ops ih =>
    intro s hs hnd
    cases op with
    | insert r =>
      obtain ⟨s1, h1, hwf1, hrec1⟩ := hadd s r hs
      have hlist : recs s1 ++ insertedRecords ops
          = recs s ++ insertedRecords (StoreOp.insert r :: ops) := by
        rw [hrec1]; simp [insertedRecords]
      obtain ⟨s2, k, h2, hwf2, hlen, hnd2, hsub⟩ := ih s1 hwf1 (by rw [hlist]; exact hnd)
      refine ⟨s2, k, ?_, hwf2, ?_, hnd2, ?_⟩
      · simp only [runOps, h1, h2]
      · rw [hlen, hrec1]; simp [insertedRecords]; omega
      · rw [← hlist]; exact hsub
    | delete id =>
      have hins : insertedRecords (StoreOp.delete id :: ops) = insertedRecords ops := rfl
      rw [hins] at hnd ⊢
      by_cases hp : ∃ r ∈ recs s, key r = id
      · obtain ⟨pre, x, mid, hsplit, hx, hpre⟩ := exists_first_match key id _ hp
        obtain ⟨s1, out, h1, hwf1, hrec1⟩ := hdelF s id pre x mid hs hsplit hx hpre
        have hsub1 : (recs s1 ++ insertedRecords ops).Sublist (recs s ++ insertedRecords ops) := by
          rw [hrec1, hsplit]
          exact List.Sublist.append
            (List.Sublist.append (List.Sublist.refl pre) (List.sublist_cons_self x mid))
            (List.Sublist.refl _)
        obtain ⟨s2, k, h2, hwf2, hlen, hnd2, hsub⟩ :=
          ih s1 hwf1 (List.Nodup.sublist (List.Sublist.map key hsub1) hnd)
        refine ⟨s2, k + 1, ?_, hwf2, ?_, hnd2, List.Sublist.trans hsub hsub1⟩
        · simp only [runOps, h1, h2, if_pos hp]
        · have hl1 : (recs s1).length + 1 = (recs s).length := by
            rw [hrec1, hsplit]; simp; omega
          omega
      · have hno : ∀ r ∈ recs s, key r ≠ id := fun r hr hk => hp ⟨r, hr, hk⟩
        obtain ⟨out, h1⟩ := hdelN s id hs hno
        obtain ⟨s2, k, h2, hwf2, hlen, hnd2, hsub⟩ := ih s hs hnd
        refine ⟨s2, k, ?_, hwf2, hlen, hnd2, hsub⟩
        simp only [runOps, h1, h2, if_neg hp]

/-- A run of menu adds and deletes from a state whose ids are all below the
counter: it returns, the counter has grown by the number of adds, the ids in
the store are still below it, and the ids assigned are strictly increasing
from the old counter up to below the new one. -/
theorem runMenu_spec {S α : Type} (key : α → Int) (madd : S → Int → α → Option (S × Int))
    (mdel : S → Int → Int → Option (S × Int)) (recs : S → List α) (WF : S → Prop)
    (hadd : ∀ s next input, WF s →
      ∃ s1 r, madd s next input = some (s1, next + 1) ∧ WF s1 ∧ key r = next ∧
        recs s1 = recs s ++ [r])
    (hdel : ∀ s next id, WF s →
      ∃ s1, mdel s next id = some (s1, next) ∧ WF s1 ∧ (recs s1).Sublist (recs s)) :
    ∀ (ops : List (StoreOp α)) (s : S) (next : Int), WF s → (∀ r ∈ recs s, key r < next) →
      ∃ s1 next1 assigned, runMenu madd mdel s next ops = some (s1, next1, assigned) ∧
        WF s1 ∧ (∀ r ∈ recs s1, key r < next1) ∧
        next1 = next + (insertedRecords ops).length ∧
        (∀ a ∈ assigned, next ≤ a ∧ a < next1) ∧
        assigned.Pairwise (fun a b => a < b) := by
  intro ops
  induction ops with
  | nil =>
    intro s next hs hlt
    exact ⟨s, next, [], rfl, hs, hlt, by simp [insertedRecords], by simp, List.Pairwise.nil⟩
  | cons op ops ih =>
    intro s next hs hlt
    cases op with
    | insert input =>
      obtain ⟨s1, r, h1, hwf1, hr, hrec1⟩ := hadd s next input hs
      have hlt1 : ∀ q ∈ recs s1, key q < next + 1 := by
        intro q hq
        rw [hrec1] at hq
        rcases List.mem_append.mp hq with h | h
        · have := hlt q h; omega
        · have hq2 : q = r := by simpa using h
          rw [hq2, hr]; omega
      obtain ⟨s2, next2, assigned, h2, hwf2, hlt2, hn2, hall, hpw⟩ := ih s1 (next + 1) hwf1 hlt1
      refine ⟨s2, next2, next :: assigned, ?_, hwf2, hlt2, ?_, ?_, ?_⟩
      · simp only [runMenu, h1, h2]
      · rw [hn2]; simp [insertedRecords]; omega
      · intro a ha
        rcases List.mem_cons.mp ha with h | h
        · rw [h, hn2]; omega
        · have := hall a h; omega
      · exact List.Pairwise.cons (fun a ha => by have := hall a ha; omega) hpw
    | delete id =>
      obtain ⟨s1, h1, hwf1, hsub⟩ := hdel s next id hs
      have hlt1 : ∀ q ∈ recs s1, key q < next := fun q hq => hlt q (hsub.subset hq)
      obtain ⟨s2, next2, assigned, h2, hwf2, hlt2, hn2, hall, hpw⟩ := ih s1 next hwf1 hlt1
      refine ⟨s2, next2, assigned, ?_, hwf2, hlt2, ?_, hall, hpw⟩
      · simp only [runMenu, h1, h2]
      · rw [hn2]; simp [insertedRecords]

/-- An insert into a well-formed member store returns a well-formed store
with the record appended. -/
theorem addMember_wellFormed (list : MemberList) (member : Member) (h : list.WellFormed) :
    ∃ list1, addMember list member = some list1 ∧ list1.WellFormed ∧
      list1.records = list.records ++ [member] := by
  obtain ⟨hA, hInv, hcap⟩ := h
  obtain ⟨list1, h1, h2, h3, _, _, h6, h7⟩ := addMember_ok list member hA hInv.1 hInv.2 hcap
  refine ⟨list1, h1, ⟨h7, addMember_inv list list1 member hInv h1, ?_⟩, h6⟩
  rw [h3]; split_ifs <;> omega

/-- A delete of a present id on a well-formed member store returns a
well-formed store without the first record of that id. -/
theorem deleteMember_wellFormed (list : MemberList) (memberID : Int)
    (pre : List Member) (x : Member) (mid : List Member) (h : list.WellFormed)
    (hs : list.records = pre ++ x :: mid) (hx : x.memberID = memberID)
    (hpre : ∀ r ∈ pre, r.memberID ≠ memberID) :
    ∃ list1 out, deleteMember list memberID = some (list1, out) ∧ list1.WellFormed ∧
      list1.records = pre ++ mid := by
  obtain ⟨hA, hInv, hcap⟩ := h
  obtain ⟨list1, a1, _, a3, _, _⟩ :=
    deleteMember_found list memberID pre x mid hA hInv.2 hs hx hpre
  obtain ⟨list2, out, b1, b2, b3, b4⟩ := deleteMember_inv list memberID hA hInv
  have heq : list2 = list1 := by
    rw [a1] at b1
    cases b1
    rfl
  subst heq
  exact ⟨list2, [], a1, ⟨b3, b2, b4 hcap⟩, a3⟩

/-- The count of a well-formed member store is the number of its records. -/
theorem memberList_count_eq_length (list : MemberList) (h : list.WellFormed) :
    list.count = (list.records.length : Int) := by
  obtain ⟨hA, hInv, _⟩ := h
  simp only [MemberList.Allocated] at hA
  simp only [MemberList.Inv] at hInv
  simp only [MemberList.records, List.length_take]
  omega

/-- Runs of `addMember` and `deleteMember` from a well-formed store. -/
theorem runMemberOps_spec (ops : List (StoreOp Member)) (list : MemberList)
    (h : list.WellFormed)
    (hnd : ((list.records ++ insertedRecords ops).map Member.memberID).Nodup) :
    ∃ list1 k, runMemberOps list ops = some (list1, k) ∧ list1.WellFormed ∧
      list1.records.length + k = list.records.length + (insertedRecords ops).length ∧
      (list1.records.map Member.memberID).Nodup ∧
      list1.records.Sublist (list.records ++ insertedRecords ops) :=
  runOps_spec Member.memberID addMember deleteMember MemberList.records MemberList.WellFormed
    (fun s r hs => addMember_wellFormed s r hs)
    (fun s id pre x mid hs hsplit hx hpre => deleteMember_wellFormed s id pre x mid hs hsplit hx hpre)
    (fun s id hs hno => ⟨_, deleteMember_not_found s id hs.1 hs.2.1.2 hno⟩)
    ops list h hnd

/-- The add case of the member menu on a well-formed store. -/
theorem menuAddMember_ok (list : MemberList) (nextMemberID : Int) (input : Member)
    (h : list.WellFormed) :
    ∃ list1, menuAddMember list nextMemberID input = some (list1, nextMemberID + 1) ∧
      list1.WellFormed ∧
      list1.records = list.records ++ [{ input with memberID := nextMemberID }] := by
  obtain ⟨list1, h1, h2, h3⟩ :=
    addMember_wellFormed list { input with memberID := nextMemberID } h
  exact ⟨list1, by simp only [menuAddMember, h1], h2, h3⟩

/-- The delete case of the member menu on a well-formed store. -/
theorem menuDeleteMember_ok (list : MemberList) (nextMemberID : Int) (deleteID : Int)
    (h : list.WellFormed) :
    ∃ list1, menuDeleteMember list nextMemberID deleteID = some (list1, nextMemberID) ∧
      list1.WellFormed ∧ list1.records.Sublist list.records := by
  by_cases hp : ∃ r ∈ list.records, r.memberID = deleteID
  · obtain ⟨pre, x, mid, hs, hx, hpre⟩ := exists_first_match Member.memberID deleteID _ hp
    obtain ⟨list1, out, h1, h2, h3⟩ := deleteMember_wellFormed list deleteID pre x mid h hs hx hpre
    refine ⟨list1, by simp only [menuDeleteMember, h1], h2, ?_⟩
    rw [h3, hs]
    exact List.Sublist.append (List.Sublist.refl pre) (List.sublist_cons_self x mid)
  · have hno : ∀ r ∈ list.records, r.memberID ≠ deleteID := fun r hr hk => hp ⟨r, hr, hk⟩
    have h1 := deleteMember_not_found list deleteID h.1 h.2.1.2 hno
    exact ⟨list, by simp only [menuDeleteMember, h1], h, List.Sublist.refl _⟩

/-- Runs of the member menu from a well-formed store whose ids are below the counter. -/
theorem runMemberMenu_spec (ops : List (StoreOp Member)) (list : MemberList) (next : Int)
    (h : list.WellFormed) (hlt : ∀ r ∈ list.records, r.memberID < next) :
    ∃ list1 next1 assigned, runMemberMenu list next ops = some (list1, next1, assigned) ∧
      list1.WellFormed ∧ (∀ r ∈ list1.records, r.memberID < next1) ∧
      next1 = next + (insertedRecords ops).length ∧
      (∀ a ∈ assigned, next ≤ a ∧ a < next1) ∧
      assigned.Pairwise (fun a b => a < b) :=
  runMenu_spec Member.memberID menuAddMember menuDeleteMember MemberList.records
    MemberList.WellFormed
    (fun s next input hs =>
      match menuAddMember_ok s next input hs with
      | ⟨s1, h1, h2, h3⟩ => ⟨s1, _, h1, h2, rfl, h3⟩)
    (fun s next id hs => menuDeleteMember_ok s next id hs)
    ops list next h hlt

/-- A load of a member file (none, or one with a non-negative count) gives a
well-formed store whose ids are all below the next id, which is at least 1. -/
theorem loadMembersFromFile_wellFormed (list : MemberList) (file : Option (DataFile Member))
    (hf : ∀ f, file = some f → 0 ≤ f.count) :
    ∃ list1 next, loadMembersFromFile list file = some (list1, next) ∧ list1.WellFormed ∧
      (∀ r ∈ list1.records, r.memberID < next) ∧ 1 ≤ next := by
  cases file with
  | none =>
    refine ⟨newMemberList, 1, rfl, by decide, ?_, by decide⟩
    intro r hr
    simp [newMemberList, MemberList.records] at hr
  | some f =>
    obtain ⟨list1, h1, h2, h3, h4, _⟩ := loadMembersFromFile_ok list f (hf f rfl)
    obtain ⟨f1, f2, _⟩ := nextId_fold Member.memberID list1.records 1
    have h0 := hf f rfl
    refine ⟨list1, _, h1, ⟨h4, ?_, ?_⟩, f2, f1⟩
    · simp only [MemberList.Inv]; rw [h2, h3]; split_ifs <;> omega
    · rw [h3]; split_ifs <;> omega

/-- An insert into a well-formed equipment store returns a well-formed store
with the record appended. -/
theorem addEquipment_wellFormed (list : EquipmentList) (equipment : Equipment) (h : list.WellFormed) :
    ∃ list1, addEquipment list equipment = some list1 ∧ list1.WellFormed ∧
      list1.records = list.records ++ [equipment] := by
  obtain ⟨hA, hInv, hcap⟩ := h
  obtain ⟨list1, h1, h2, h3, _, _, h6, h7⟩ := addEquipment_ok list equipment hA hInv.1 hInv.2 hcap
  refine ⟨list1, h1, ⟨h7, addEquipment_inv list list1 equipment hInv h1, ?_⟩, h6⟩
  rw [h3]; split_ifs <;> omega

/-- A delete of a present id on a well-formed equipment store returns a
well-formed store without the first record of that id. -/
theorem deleteEquipment_wellFormed (list : EquipmentList) (equipmentID : Int)
    (pre : List Equipment) (x : Equipment) (mid : List Equipment) (h : list.WellFormed)
    (hs : list.records = pre ++ x :: mid) (hx : x.id = equipmentID)
    (hpre : ∀ r ∈ pre, r.id ≠ equipmentID) :
    ∃ list1 out, deleteEquipment list equipmentID = some (list1, out) ∧ list1.WellFormed ∧
      list1.records = pre ++ mid := by
  obtain ⟨hA, hInv, hcap⟩ := h
  obtain ⟨list1, a1, _, a3, _, _⟩ :=
    deleteEquipment_found list equipmentID pre x mid hA hInv.2 hs hx hpre
  obtain ⟨list2, out, b1, b2, b3, b4⟩ := deleteEquipment_inv list equipmentID hA hInv
  have heq : list2 = list1 := by
    rw [a1] at b1
    cases b1
    rfl
  subst heq
  exact ⟨list2, [], a1, ⟨b3, b2, b4 hcap⟩, a3⟩

/-- The count of a well-formed equipment store is the number of its records. -/
theorem equipmentList_count_eq_length (list : EquipmentList) (h : list.WellFormed) :
    list.count = (list.records.length : Int) := by
  obtain ⟨hA, hInv, _⟩ := h
  simp only [EquipmentList.Allocated] at hA
  simp only [EquipmentList.Inv] at hInv
  simp only [EquipmentList.records, List.length_take]
  omega

/-- Runs of `addEquipment` and `deleteEquipment` from a well-formed store. -/
theorem runEquipmentOps_spec (ops : List (StoreOp Equipment)) (list : EquipmentList)
    (h : list.WellFormed)
    (hnd : ((list.records ++ insertedRecords ops).map Equipment.id).Nodup) :
    ∃ list1 k, runEquipmentOps list ops = some (list1, k) ∧ list1.WellFormed ∧
      list1.records.length + k = list.records.length + (insertedRecords ops).length ∧
      (list1.records.map Equipment.id).Nodup ∧
      list1.records.Sublist (list.records ++ insertedRecords ops) :=
  runOps_spec Equipment.id addEquipment deleteEquipment EquipmentList.records EquipmentList.WellFormed
    (fun s r hs => addEquipment_wellFormed s r hs)
    (fun s id pre x mid hs hsplit hx hpre => deleteEquipment_wellFormed s id pre x mid hs hsplit hx hpre)
    (fun s id hs hno => ⟨_, deleteEquipment_not_found s id hs.1 hs.2.1.2 hno⟩)
    ops list h hnd

/-- The add case of the equipment menu on a well-formed store. -/
theorem menuAddEquipment_ok (list : EquipmentList) (nextEquipmentID : Int) (input : Equipment)
    (h : list.WellFormed) :
    ∃ list1, menuAddEquipment list nextEquipmentID input = some (list1, nextEquipmentID + 1) ∧
      list1.WellFormed ∧
      list1.records = list.records ++ [{ input with id := nextEquipmentID }] := by
  obtain ⟨list1, h1, h2, h3⟩ :=
    addEquipment_wellFormed list { input with id := nextEquipmentID } h
  exact ⟨list1, by simp only [menuAddEquipment, h1], h2, h3⟩

/-- The delete case of the equipment menu on a well-formed store. -/
theorem menuDeleteEquipment_ok (list : EquipmentList) (nextEquipmentID : Int) (deleteID : Int)
    (h : list.WellFormed) :
    ∃ list1, menuDeleteEquipment list nextEquipmentID deleteID = some (list1, nextEquipmentID) ∧
      list1.WellFormed ∧ list1.records.Sublist list.records := by
  by_cases hp : ∃ r ∈ list.records, r.id = deleteID
  · obtain ⟨pre, x, mid, hs, hx, hpre⟩ := exists_first_match Equipment.id deleteID _ hp
    obtain ⟨list1, out, h1, h2, h3⟩ := deleteEquipment_wellFormed list deleteID pre x mid h hs hx hpre
    refine ⟨list1, by simp only [menuDeleteEquipment, h1], h2, ?_⟩
    rw [h3, hs]
    exact List.Sublist.append (List.Sublist.refl pre) (List.sublist_cons_self x mid)
  · have hno : ∀ r ∈ list.records, r.id ≠ deleteID := fun r hr hk => hp ⟨r, hr, hk⟩
    have h1 := deleteEquipment_not_found list deleteID h.1 h.2.1.2 hno
    exact ⟨list, by simp only [menuDeleteEquipment, h1], h, List.Sublist.refl _⟩

/-- Runs of the equipment menu from a well-formed store whose ids are below the counter. -/
theorem runEquipmentMenu_spec (ops : List (StoreOp Equipment)) (list : EquipmentList) (next : Int)
    (h : list.WellFormed) (hlt : ∀ r ∈ list.records, r.id < next) :
    ∃ list1 next1 assigned, runEquipmentMenu list next ops = some (list1, next1, assigned) ∧
      list1.WellFormed ∧ (∀ r ∈ list1.records, r.id < next1) ∧
      next1 = next + (insertedRecords ops).length ∧
      (∀ a ∈ assigned, next ≤ a ∧ a < next1) ∧
      assigned.Pairwise (fun a b => a < b) :=
  runMenu_spec Equipment.id menuAddEquipment menuDeleteEquipment EquipmentList.records
    EquipmentList.WellFormed
    (fun s next input hs =>
      match menuAddEquipment_ok s next input hs with
      | ⟨s1, h1, h2, h3⟩ => ⟨s1, _, h1, h2, rfl, h3⟩)
    (fun s next id hs => menuDeleteEquipment_ok s next id hs)
    ops list next h hlt

/-- A load of a equipment file (none, or one with a non-negative count) gives a
well-formed store whose ids are all below the next id, which is at least 1. -/
theorem loadEquipmentFromFile_wellFormed (list : EquipmentList) (file : Option (DataFile Equipment))
    (hf : ∀ f, file = some f → 0 ≤ f.count) :
    ∃ list1 next, loadEquipmentFromFile list file = some (list1, next) ∧ list1.WellFormed ∧
      (∀ r ∈ list1.records, r.id < next) ∧ 1 ≤ next := by
  cases file with
  | none =>
    refine ⟨newEquipmentList, 1, rfl, by decide, ?_, by decide⟩
    intro r hr
    simp [newEquipmentList, EquipmentList.records] at hr
  | some f =>
    obtain ⟨list1, h1, h2, h3, h4, _⟩ := loadEquipmentFromFile_ok list f (hf f rfl)
    obtain ⟨f1, f2, _⟩ := nextId_fold Equipment.id list1.records 1
    have h0 := hf f rfl
    refine ⟨list1, _, h1, ⟨h4, ?_, ?_⟩, f2, f1⟩
    · simp only [EquipmentList.Inv]; rw [h2, h3]; split_ifs <;> omega
    · rw [h3]; split_ifs <;> omega

/-- C12: for every sequence of inserts and deletes run on the new store, the
inserted ids being pairwise distinct, the run returns; the final count is the
number of inserts minus the number of deletes whose id was present, the ids of
the remaining records are pairwise distinct and the remaining records are in
the order in which they were inserted. -/
theorem insert_delete_sequences (mops : List (StoreOp Member))
    (eops : List (StoreOp Equipment))
    (hm : ((insertedRecords mops).map Member.memberID).Nodup)
    (he : ((insertedRecords eops).map Equipment.id).Nodup) :
    (∃ final k, runMemberOps newMemberList mops = some (final, k) ∧
      final.count = ((insertedRecords mops).length : Int) - (k : Int) ∧
      (final.records.length : Int) = final.count ∧
      (final.records.map Member.memberID).Nodup ∧
      final.records.Sublist (insertedRecords mops)) ∧
    (∃ final k, runEquipmentOps newEquipmentList eops = some (final, k) ∧
      final.count = ((insertedRecords eops).length : Int) - (k : Int) ∧
      (final.records.length : Int) = final.count ∧
      (final.records.map Equipment.id).Nodup ∧
      final.records.Sublist (insertedRecords eops)) := by
  have hm0 : newMemberList.records = [] := rfl
  have he0 : newEquipmentList.records = [] := rfl
  obtain ⟨mf, mk, a1, a2, a3, a4, a5⟩ :=
    runMemberOps_spec mops newMemberList (by decide) (by rw [hm0]; simpa using hm)
  obtain ⟨ef, ek, b1, b2, b3, b4, b5⟩ :=
    runEquipmentOps_spec eops newEquipmentList (by decide) (by rw [he0]; simpa using he)
  have mc := memberList_count_eq_length mf a2
  have ec := equipmentList_count_eq_length ef b2
  rw [hm0] at a3 a5
  rw [he0] at b3 b5
  simp only [List.length_nil, List.nil_append, Nat.zero_add] at a3 a5 b3 b5
  exact ⟨⟨mf, mk, a1, by omega, mc.symm, a4, a5⟩, ⟨ef, ek, b1, by omega, ec.symm, b4, b5⟩⟩

theorem insert_delete_sequences_witness :
    (∃ final k,
      runMemberOps newMemberList
          [StoreOp.insert (sampleMember 1), StoreOp.insert (sampleMember 2), StoreOp.delete 5,
            StoreOp.delete 1, StoreOp.insert (sampleMember 3)] = some (final, k) ∧
        final.count = 3 - (k : Int) ∧ (final.records.map Member.memberID).Nodup) ∧
    (∃ final k,
      runEquipmentOps newEquipmentList
          [StoreOp.insert (sampleEquipment 1), StoreOp.delete 1] = some (final, k) ∧
        final.count = 1 - (k : Int) ∧ (final.records.map Equipment.id).Nodup) :=
  have h := insert_delete_sequences
    [StoreOp.insert (sampleMember 1), StoreOp.insert (sampleMember 2), StoreOp.delete 5,
      StoreOp.delete 1, StoreOp.insert (sampleMember 3)]
    [StoreOp.insert (sampleEquipment 1), StoreOp.delete 1] (by decide) (by decide)
  ⟨h.1.imp fun _ h1 => h1.imp fun _ h2 => ⟨h2.1, h2.2.1, h2.2.2.2.1⟩,
    h.2.imp fun _ h1 => h1.imp fun _ h2 => ⟨h2.1, h2.2.1, h2.2.2.2.1⟩⟩

/-- C14: a load gives a store whose ids are all below the next-id counter.
From any such state, every run of menu adds and deletes returns a state of the
same kind in which the counter has not decreased; the ids the adds assigned
are strictly increasing, at least the old counter and below the new one, and
none of them was in the store at the start; the next add then assigns the
counter itself, an id that is in no record of the store and was assigned to
none before (deleted or not). -/
theorem ids_never_reused (ml ml0 : MemberList) (mnext : Int) (mops : List (StoreOp Member))
    (minput : Member) (mfile : Option (DataFile Member))
    (el el0 : EquipmentList) (enext : Int) (eops : List (StoreOp Equipment))
    (einput : Equipment) (efile : Option (DataFile Equipment))
    (hmWF : ml.WellFormed) (hmlt : ∀ r ∈ ml.records, r.memberID < mnext)
    (hmf : ∀ f, mfile = some f → 0 ≤ f.count)
    (heWF : el.WellFormed) (helt : ∀ r ∈ el.records, r.id < enext)
    (hef : ∀ f, efile = some f → 0 ≤ f.count) :
    ((∃ l1 n1, loadMembersFromFile ml0 mfile = some (l1, n1) ∧ l1.WellFormed ∧
        (∀ r ∈ l1.records, r.memberID < n1)) ∧
      (∃ l1 n1 assigned, runMemberMenu ml mnext mops = some (l1, n1, assigned) ∧
        l1.WellFormed ∧ (∀ r ∈ l1.records, r.memberID < n1) ∧
        mnext ≤ n1 ∧ n1 = mnext + (insertedRecords mops).length ∧
        (∀ a ∈ assigned, mnext ≤ a ∧ a < n1) ∧
        assigned.Pairwise (fun a b => a < b) ∧
        (∀ a ∈ assigned, ∀ r ∈ ml.records, r.memberID ≠ a) ∧
        (∃ l2, menuAddMember l1 n1 minput = some (l2, n1 + 1) ∧
          l2.records = l1.records ++ [{ minput with memberID := n1 }] ∧
          (∀ r ∈ l1.records, r.memberID ≠ n1) ∧ (∀ a ∈ assigned, a ≠ n1)))) ∧
    ((∃ l1 n1, loadEquipmentFromFile el0 efile = some (l1, n1) ∧ l1.WellFormed ∧
        (∀ r ∈ l1.records, r.id < n1)) ∧
      (∃ l1 n1 assigned, runEquipmentMenu el enext eops = some (l1, n1, assigned) ∧
        l1.WellFormed ∧ (∀ r ∈ l1.records, r.id < n1) ∧
        enext ≤ n1 ∧ n1 = enext + (insertedRecords eops).length ∧
        (∀ a ∈ assigned, enext ≤ a ∧ a < n1) ∧
        assigned.Pairwise (fun a b => a < b) ∧
        (∀ a ∈ assigned, ∀ r ∈ el.records, r.id ≠ a) ∧
        (∃ l2, menuAddEquipment l1 n1 einput = some (l2, n1 + 1) ∧
          l2.records = l1.records ++ [{ einput with id := n1 }] ∧
          (∀ r ∈ l1.records, r.id ≠ n1) ∧ (∀ a ∈ assigned, a ≠ n1)))) := by
  refine ⟨⟨?_, ?_⟩, ⟨?_, ?_⟩⟩
  · obtain ⟨l1, n1, h1, h2, h3, _⟩ := loadMembersFromFile_wellFormed ml0 mfile hmf
    exact ⟨l1, n1, h1, h2, h3⟩
  · obtain ⟨l1, n1, assigned, h1, h2, h3, h4, h5, h6⟩ :=
      runMemberMenu_spec mops ml mnext hmWF hmlt
    obtain ⟨l2, g1, _, g3⟩ := menuAddMember_ok l1 n1 minput h2
    refine ⟨l1, n1, assigned, h1, h2, h3, by omega, h4, h5, h6, ?_, l2, g1, g3, ?_, ?_⟩
    · intro a ha r hr hk
      have := (h5 a ha).1
      have := hmlt r hr
      omega
    · intro r hr hk
      have := h3 r hr
      omega
    · intro a ha hk
      have := (h5 a ha).2
      omega
  · obtain ⟨l1, n1, h1, h2, h3, _⟩ := loadEquipmentFromFile_wellFormed el0 efile hef
    exact ⟨l1, n1, h1, h2, h3⟩
  · obtain ⟨l1, n1, assigned, h1, h2, h3, h4, h5, h6⟩ :=
      runEquipmentMenu_spec eops el enext heWF helt
    obtain ⟨l2, g1, _, g3⟩ := menuAddEquipment_ok l1 n1 einput h2
    refine ⟨l1, n1, assigned, h1, h2, h3, by omega, h4, h5, h6, ?_, l2, g1, g3, ?_, ?_⟩
    · intro a ha r hr hk
      have := (h5 a ha).1
      have := helt r hr
      omega
    · intro r hr hk
      have := h3 r hr
      omega
    · intro a ha hk
      have := (h5 a ha).2
      omega

theorem ids_never_reused_witness :
    (∃ l1 n1 assigned,
      runMemberMenu (memberListOf [4, 7]) 8
          [StoreOp.insert (sampleMember 0), StoreOp.delete 8, StoreOp.insert (sampleMember 0)]
        = some (l1, n1, assigned) ∧
      n1 = 8 + (insertedRecords
        [StoreOp.insert (sampleMember 0), StoreOp.delete 8,
          StoreOp.insert (sampleMember 0)]).length ∧
      assigned.Pairwise (fun a b => a < b)) ∧
    (∃ l1 n1, loadEquipmentFromFile newEquipmentList none = some (l1, n1) ∧ l1.WellFormed ∧
      (∀ r ∈ l1.records, r.id < n1)) :=
  have h := ids_never_reused (memberListOf [4, 7]) newMemberList 8
    [StoreOp.insert (sampleMember 0), StoreOp.delete 8, StoreOp.insert (sampleMember 0)]
    (sampleMember 0) (some ⟨2, [sampleMember 4, sampleMember 7]⟩)
    newEquipmentList newEquipmentList 1 [] (sampleEquipment 0) none
    (by decide) (by decide) (by intro f hf; cases hf; decide)
    (by decide) (by decide) (by intro f hf; cases hf)
  ⟨h.1.2.imp fun _ h1 => h1.imp fun _ h2 => h2.imp fun _ h3 =>
      ⟨h3.1, h3.2.2.2.2.1, h3.2.2.2.2.2.2.1⟩,
    h.2.1⟩

/-! ## Equipment creation and status transitions -/

theorem retryWith_eq_some {α : Type} (out : List String) (x : Option (α × List String))
    (a : α) (o : List String) (h : retryWith out x = some (a, o)) :
    ∃ o1, x = some (a, o1) := by
  cases x with
  | none => simp [retryWith] at h
  | some v =>
    obtain ⟨a1, o1⟩ := v
    simp only [retryWith, Option.some.injEq, Prod.mk.injEq] at h
    exact ⟨o1, by rw [h.1]⟩

/-- The quantity loop returns a number above 0. -/
theorem readTotalQuantity_pos :
    ∀ (inputs : List (Option Int)) (q : Int) (out : List String),
      readTotalQuantity inputs = some (q, out) → q > 0 := by
  intro inputs
  induction inputs with
  | nil => intro q out h; simp [readTotalQuantity] at h
  | cons x rest ih =>
    intro q out h
    cases x with
    | none =>
      obtain ⟨o1, h1⟩ := retryWith_eq_some _ _ _ _ h
      exact ih q o1 h1
    | some v =>
      simp only [readTotalQuantity] at h
      split_ifs at h with hv
      · obtain ⟨o1, h1⟩ := retryWith_eq_some _ _ _ _ h
        exact ih q o1 h1
      · simp only [Option.some.injEq, Prod.mk.injEq] at h
        omega

/-- The yes/no loops return 1 or 2. -/
theorem readOneOrTwo_range (question : String) :
    ∀ (inputs : List (Option Int)) (c : Int) (out : List String),
      readOneOrTwo question inputs = some (c, out) → c = 1 ∨ c = 2 := by
  intro inputs
  induction inputs with
  | nil => intro c out h; simp [readOneOrTwo] at h
  | cons x rest ih =>
    intro c out h
    cases x with
    | none =>
      obtain ⟨o1, h1⟩ := retryWith_eq_some _ _ _ _ h
      exact ih c o1 h1
    | some v =>
      simp only [readOneOrTwo] at h
      split_ifs at h with hv
      · obtain ⟨o1, h1⟩ := retryWith_eq_some _ _ _ _ h
        exact ih c o1 h1
      · simp only [Option.some.injEq, Prod.mk.injEq] at h
        omega

/-- The loop for the broken units returns a number from 0 to the total. -/
theorem readBrokenCount_range (totalQuantity : Int) :
    ∀ (inputs : List (Option Int)) (b : Int) (out : List String),
      readBrokenCount totalQuantity inputs = some (b, out) → 0 ≤ b ∧ b ≤ totalQuantity := by
  intro inputs
  induction inputs with
  | nil => intro b out h; simp [readBrokenCount] at h
  | cons x rest ih =>
    intro b out h
    cases x with
    | none =>
      obtain ⟨o1, h1⟩ := retryWith_eq_some _ _ _ _ h
      exact ih b o1 h1
    | some v =>
      simp only [readBrokenCount] at h
      split_ifs at h with hv
      · obtain ⟨o1, h1⟩ := retryWith_eq_some _ _ _ _ h
        exact ih b o1 h1
      · simp only [Option.some.injEq, Prod.mk.injEq] at h
        omega

/-- The split the creation reads adds up to the total, with no negative part. -/
theorem readQuantitySplit_sum (totalQuantity : Int) (choices brokens : List (Option Int))
    (f b : Int) (out : List String) (ht : totalQuantity > 0)
    (h : readQuantitySplit totalQuantity choices brokens = some ((f, b), out)) :
    f + b = totalQuantity ∧ f ≥ 0 ∧ b ≥ 0 := by
  unfold readQuantitySplit at h
  split_ifs at h with h1
  · split at h
    · cases h
    · split_ifs at h <;> simp only [Option.some.injEq, Prod.mk.injEq] at h <;> omega
  · split at h
    · cases h
    · split_ifs at h
      · simp only [Option.some.injEq, Prod.mk.injEq] at h; omega
      · split at h
        · cases h
        · rename_i broken out1 hb
          have := readBrokenCount_range totalQuantity brokens broken out1 hb
          simp only [Option.some.injEq, Prod.mk.injEq] at h
          omega

/-- The repair-ETA loop of the creation returns the date of its first pass that
does not reject, accepted on the date the clock gave in that very pass: the
passes before it all rejected. -/
theorem readCreationETA_accepted :
    ∀ (dates : List (Option (Int × Int × Int) × Date)) (eta : Date) (out : List String),
      readCreationETA dates = some (eta, out) →
      ∃ rejected today rest,
        dates = rejected ++ (some (eta.day, eta.month, eta.year), today) :: rest ∧
        (∀ p ∈ rejected, PassRejects p) ∧ EtaAccepted eta today := by
  intro dates
  induction dates with
  | nil => intro eta out h; simp [readCreationETA] at h
  | cons x rest ih =>
    intro eta out h
    obtain ⟨input, today⟩ := x
    cases input with
    | none =>
      obtain ⟨o1, h1⟩ := retryWith_eq_some _ _ _ _ h
      obtain ⟨rej, t, rs, hd, hrej, hacc⟩ := ih eta o1 h1
      refine ⟨(none, today) :: rej, t, rs, by rw [hd]; rfl, ?_, hacc⟩
      intro p hp
      rcases List.mem_cons.mp hp with hp | hp
      · subst hp; trivial
      · exact hrej p hp
    | some v =>
      obtain ⟨day, month, year⟩ := v
      simp only [readCreationETA] at h
      split_ifs at h with hv hc
      · obtain ⟨o1, h1⟩ := retryWith_eq_some _ _ _ _ h
        obtain ⟨rej, t, rs, hd, hrej, hacc⟩ := ih eta o1 h1
        refine ⟨(some (day, month, year), today) :: rej, t, rs, by rw [hd]; rfl, ?_, hacc⟩
        intro p hp
        rcases List.mem_cons.mp hp with hp | hp
        · subst hp
          intro hacc2
          have h1 : isValidDate day month year = 1 := hacc2.1
          omega
        · exact hrej p hp
      · obtain ⟨o1, h1⟩ := retryWith_eq_some _ _ _ _ h
        obtain ⟨rej, t, rs, hd, hrej, hacc⟩ := ih eta o1 h1
        refine ⟨(some (day, month, year), today) :: rej, t, rs, by rw [hd]; rfl, ?_, hacc⟩
        intro p hp
        rcases List.mem_cons.mp hp with hp | hp
        · subst hp
          intro hacc2
          have h2 : compareDates ⟨day, month, year⟩ today ≥ 0 := hacc2.2
          omega
        · exact hrej p hp
      · simp only [Option.some.injEq, Prod.mk.injEq] at h
        obtain ⟨h1, _⟩ := h
        subst h1
        refine ⟨[], today, rest, rfl, ?_, ?_, ?_⟩
        · intro p hp; cases hp
        · rcases isValidDate_zero_or_one day month year with h0 | h0
          · exact absurd h0 hv
          · exact h0
        · omega

/-- A retry returns the value the rest of the loop returns. -/
theorem retryWith_map_fst {α : Type} (out : List String) (x : Option (α × List String)) :
    (retryWith out x).map Prod.fst = x.map Prod.fst := by
  cases x with
  | none => rfl
  | some v => rfl

/-- The converse: on an input whose first passes all reject and whose next pass
reads a date accepted on the date the clock gives in that pass, the repair-ETA
loop of the creation returns that date. -/
theorem readCreationETA_of_accepting_pass :
    ∀ (rejected : List (Option (Int × Int × Int) × Date)) (eta today : Date)
      (rest : List (Option (Int × Int × Int) × Date)),
      (∀ p ∈ rejected, PassRejects p) → EtaAccepted eta today →
      (readCreationETA (rejected ++ (some (eta.day, eta.month, eta.year), today) :: rest)).map
        Prod.fst = some eta := by
  intro rejected
  induction rejected with
  | nil =>
    intro eta today rest _ hacc
    have h1 : isValidDate eta.day eta.month eta.year = 1 := hacc.1
    have h2 : compareDates eta today ≥ 0 := hacc.2
    have hv : ¬ isValidDate eta.day eta.month eta.year = 0 := by omega
    have hc : ¬ compareDates ⟨eta.day, eta.month, eta.year⟩ today < 0 := by
      have e : (⟨eta.day, eta.month, eta.year⟩ : Date) = eta := rfl
      rw [e]; omega
    simp only [List.nil_append, readCreationETA, if_neg hv, if_neg hc]
    rfl
  | cons x xs ih =>
    intro eta today rest hrej hacc
    have hx : PassRejects x := hrej x (List.mem_cons_self _ _)
    have hxs : ∀ p ∈ xs, PassRejects p := fun p hp => hrej p (List.mem_cons_of_mem _ hp)
    have hrec := ih eta today rest hxs hacc
    obtain ⟨input, clock⟩ := x
    cases input with
    | none =>
      simp only [List.cons_append, readCreationETA, retryWith_map_fst]
      exact hrec
    | some v =>
      obtain ⟨day, month, year⟩ := v
      simp only [List.cons_append, readCreationETA]
      split_ifs with hv hc
      · rw [retryWith_map_fst]; exact hrec
      · rw [retryWith_map_fst]; exact hrec
      · exfalso
        apply hx
        refine ⟨?_, ?_⟩
        · rcases isValidDate_zero_or_one day month year with h0 | h0
          · exact absurd h0 hv
          · exact h0
        · show compareDates ⟨day, month, year⟩ clock ≥ 0
          omega

/-- What the creation builds: a positive total split into non-negative
functional and broken parts, the id taken from the counter, and the status
following the broken count; when it is above 0 the repair ETA is the date of
the first pass of the date loop that did not reject, accepted on the date the
clock gave in that pass. -/
theorem createEquipment_spec (nextEquipmentID : Int) (names : List String)
    (quantities choices brokens : List (Option Int))
    (dates : List (Option (Int × Int × Int) × Date)) (e : Equipment) (out : List String)
    (h : createEquipment nextEquipmentID names quantities choices brokens dates = some (e, out)) :
    e.totalQuantity > 0 ∧ e.functional + e.broken = e.totalQuantity ∧
    e.functional ≥ 0 ∧ e.broken ≥ 0 ∧ e.id = nextEquipmentID ∧
    ((e.broken > 0 ∧ e.status = "Under Maintenance" ∧
        ∃ rejected today rest,
          dates = rejected ++
            (some (e.repairETA.day, e.repairETA.month, e.repairETA.year), today) :: rest ∧
          (∀ p ∈ rejected, PassRejects p) ∧ EtaAccepted e.repairETA today) ∨
      (e.broken = 0 ∧ e.status = "Operational" ∧ e.repairETA = ⟨0, 0, 0⟩)) := by
  unfold createEquipment at h
  split at h
  · cases h
  · split at h
    · cases h
    · rename_i totalQuantity out2 hq
      have hpos := readTotalQuantity_pos quantities totalQuantity out2 hq
      split at h
      · cases h
      · rename_i functional broken out3 hsplit
        obtain ⟨s1, s2, s3⟩ :=
          readQuantitySplit_sum totalQuantity choices brokens functional broken out3 hpos hsplit
        split_ifs at h with hb
        · split at h
          · cases h
          · rename_i repairETA out4 heta
            obtain ⟨rej, today, rs, hd, hrej, hacc⟩ :=
              readCreationETA_accepted dates repairETA out4 heta
            simp only [Option.some.injEq, Prod.mk.injEq] at h
            obtain ⟨h1, _⟩ := h
            subst h1
            exact ⟨hpos, s1, s2, s3, rfl, Or.inl ⟨hb, rfl, rej, today, rs, hd, hrej, hacc⟩⟩
        · simp only [Option.some.injEq, Prod.mk.injEq] at h
          obtain ⟨h1, _⟩ := h
          subst h1
          exact ⟨hpos, s1, s2, s3, rfl, Or.inr ⟨by simp only []; omega, rfl, rfl⟩⟩

/-- The first loop of `updateEquipmentStatus` returns 1 or 2. -/
theorem readStatusChoice_range :
    ∀ (choices : List (Option Int)) (c : Int) (out : List String),
      readStatusChoice choices = some (c, out) → c = 1 ∨ c = 2 := by
  intro choices
  induction choices with
  | nil => intro c out h; simp [readStatusChoice] at h
  | cons x rest ih =>
    intro c out h
    cases x with
    | none =>
      simp only [readStatusChoice] at h
      split at h
      · cases h
      · rename_i c1 o1 h1
        simp only [Option.some.injEq, Prod.mk.injEq] at h
        rw [← h.1]
        exact ih c1 o1 h1
    | some v =>
      simp only [readStatusChoice] at h
      split_ifs at h with hv
      · simp only [Option.some.injEq, Prod.mk.injEq] at h
        rw [← h.1]; exact hv
      · split at h
        · cases h
        · rename_i c1 o1 h1
          simp only [Option.some.injEq, Prod.mk.injEq] at h
          rw [← h.1]
          exact ih c1 o1 h1

/-- One pass of the date loop: a rejecting pass leaves the record as it was, an
accepting pass writes a repair ETA accepted on the date of the call. -/
theorem repairETAAttempt_spec (equipment : Equipment) (currentDate : Date)
    (input : Option (Int × Int × Int)) :
    ((repairETAAttempt equipment currentDate input).2.2 = false ∧
      (repairETAAttempt equipment currentDate input).1 = equipment) ∨
    ((repairETAAttempt equipment currentDate input).2.2 = true ∧
      ∃ eta : Date, (repairETAAttempt equipment currentDate input).1
          = { equipment with repairETA := eta } ∧
        EtaAccepted eta currentDate) := by
  cases input with
  | none => left; exact ⟨rfl, rfl⟩
  | some v =>
    obtain ⟨day, month, year⟩ := v
    rcases isValidDate_zero_or_one day month year with h0 | h1
    · left
      have hval : repairETAAttempt equipment currentDate (some (day, month, year))
          = (equipment, ["Enter the repair ETA (dd mm yyyy): ",
              "Error: Invalid date entered. Please enter a valid date.\n"], false) := by
        simp [repairETAAttempt, h0]
      rw [hval]
      exact ⟨rfl, rfl⟩
    · by_cases hc : compareDates ⟨day, month, year⟩ currentDate < 0
      · left
        have hval : repairETAAttempt equipment currentDate (some (day, month, year))
            = (equipment, ["Enter the repair ETA (dd mm yyyy): ",
                "Error: Repair ETA cannot be in the past.\n"], false) := by
          simp [repairETAAttempt, h1, hc]
        rw [hval]
        exact ⟨rfl, rfl⟩
      · right
        have hval : repairETAAttempt equipment currentDate (some (day, month, year))
            = ({ equipment with repairETA := ⟨day, month, year⟩ },
                ["Enter the repair ETA (dd mm yyyy): "], true) := by
          simp [repairETAAttempt, h1, hc]
        rw [hval]
        exact ⟨rfl, ⟨day, month, year⟩, rfl, h1, by omega⟩

/-- The date loop returns the record with a repair ETA accepted on the date of
the call, and nothing else changed. -/
theorem repairETALoop_spec (currentDate : Date) :
    ∀ (dates : List (Option (Int × Int × Int))) (equipment e1 : Equipment) (out : List String),
      repairETALoop equipment currentDate dates = some (e1, out) →
      ∃ eta : Date, e1 = { equipment with repairETA := eta } ∧ EtaAccepted eta currentDate := by
  intro dates
  induction dates with
  | nil => intro equipment e1 out h; simp [repairETALoop] at h
  | cons x rest ih =>
    intro equipment e1 out h
    simp only [repairETALoop] at h
    have hspec := repairETAAttempt_spec equipment currentDate x
    rcases hx : repairETAAttempt equipment currentDate x with ⟨a, o, b⟩
    rw [hx] at h hspec
    simp only at hspec
    rcases hspec with ⟨hf, he⟩ | ⟨ht, eta, he, hacc⟩
    · subst hf he
      simp only at h
      split at h
      · cases h
      · rename_i e2 o2 h2
        simp only [Option.some.injEq, Prod.mk.injEq] at h
        rw [← h.1]
        exact ih a e2 o2 h2
    · subst ht
      simp only [Option.some.injEq, Prod.mk.injEq] at h
      rw [← h.1, he]
      exact ⟨eta, rfl, hacc⟩

/-- A call of `updateEquipmentStatus` that returns has changed only the status
and the repair ETA: to "Operational" and (0,0,0), or to "Under Maintenance" and
a repair ETA accepted on the date of the call. -/
theorem updateEquipmentStatus_spec (equipment : Equipment) (currentDate : Date)
    (choices : List (Option Int)) (dates : List (Option (Int × Int × Int)))
    (e1 : Equipment) (out : List String)
    (h : updateEquipmentStatus equipment currentDate choices dates = some (e1, out)) :
    (e1.id = equipment.id ∧ e1.name = equipment.name ∧
      e1.totalQuantity = equipment.totalQuantity ∧ e1.functional = equipment.functional ∧
      e1.broken = equipment.broken) ∧
    ((e1.status = "Operational" ∧ e1.repairETA = ⟨0, 0, 0⟩) ∨
      (e1.status = "Under Maintenance" ∧ EtaAccepted e1.repairETA currentDate)) := by
  unfold updateEquipmentStatus at h
  simp only at h
  split at h
  · cases h
  · rename_i c o1 hc
    split_ifs at h with h1
    · simp only [Option.some.injEq, Prod.mk.injEq] at h
      rw [← h.1]
      exact ⟨⟨rfl, rfl, rfl, rfl, rfl⟩, Or.inl ⟨rfl, rfl⟩⟩
    · split at h
      · cases h
      · rename_i e2 o2 h2
        obtain ⟨eta, he, hacc⟩ := repairETALoop_spec currentDate dates _ e2 o2 h2
        simp only [Option.some.injEq, Prod.mk.injEq] at h
        rw [← h.1, he]
        exact ⟨⟨rfl, rfl, rfl, rfl, rfl⟩, Or.inr ⟨rfl, hacc⟩⟩

/-- A run of status calls ends with the record it started with, or with the
result of its last call. -/
theorem runStatusCalls_last :
    ∀ (calls : List StatusCall) (e0 e : Equipment), runStatusCalls e0 calls = some e →
      (calls = [] ∧ e = e0) ∨
      ∃ (call : StatusCall) (e1 : Equipment) (out : List String),
        calls.getLast? = some call ∧
        updateEquipmentStatus e1 call.currentDate call.choices call.dates = some (e, out) := by
  intro calls
  induction calls with
  | nil => intro e0 e h; left; simp only [runStatusCalls, Option.some.injEq] at h; exact ⟨rfl, h.symm⟩
  | cons call rest ih =>
    intro e0 e h
    simp only [runStatusCalls] at h
    split at h
    · cases h
    · rename_i e1 o1 h1
      right
      rcases ih e1 e h with ⟨hnil, he⟩ | ⟨c, e2, o2, hlast, hup⟩
      · subst hnil he
        exact ⟨call, e0, o1, rfl, h1⟩
      · refine ⟨c, e2, o2, ?_, hup⟩
        cases rest with
        | nil => simp at hlast
        | cons r rs => rw [List.getLast?_cons_cons]; exact hlast

/-- A run of status calls changes no field but the status and the repair ETA. -/
theorem runStatusCalls_fields :
    ∀ (calls : List StatusCall) (e0 e : Equipment), runStatusCalls e0 calls = some e →
      e.id = e0.id ∧ e.name = e0.name ∧ e.totalQuantity = e0.totalQuantity ∧
      e.functional = e0.functional ∧ e.broken = e0.broken := by
  intro calls
  induction calls with
  | nil =>
    intro e0 e h
    simp only [runStatusCalls, Option.some.injEq] at h
    subst h
    exact ⟨rfl, rfl, rfl, rfl, rfl⟩
  | cons call rest ih =>
    intro e0 e h
    simp only [runStatusCalls] at h
    split at h
    · cases h
    · rename_i e1 o1 h1
      obtain ⟨⟨a1, a2, a3, a4, a5⟩, _⟩ := updateEquipmentStatus_spec e0 _ _ _ e1 o1 h1
      obtain ⟨b1, b2, b3, b4, b5⟩ := ih e1 e h
      exact ⟨b1.trans a1, b2.trans a2, b3.trans a3, b4.trans a4, b5.trans a5⟩

/-- One pass of the date loop accepts exactly the candidates that
`isValidDate` accepts and that are not before the date of the call. -/
theorem repairETAAttempt_accepts_iff (equipment : Equipment) (currentDate : Date)
    (day month year : Int) :
    (repairETAAttempt equipment currentDate (some (day, month, year))).2.2 = true ↔
      (isValidDate day month year = 1 ∧ compareDates ⟨day, month, year⟩ currentDate ≥ 0) := by
  unfold repairETAAttempt
  rcases isValidDate_zero_or_one day month year with h | h
  · simp [h]
  · by_cases hc : compareDates ⟨day, month, year⟩ currentDate < 0
    · simp [h, hc]
    · simp [h, hc]; omega

theorem sentinel_not_accepted (today : Date) : ¬ EtaAccepted ⟨0, 0, 0⟩ today := by
  intro h
  have h0 : isValidDate 0 0 0 = 0 := by decide
  have h1 := h.1
  simp only [] at h1
  rw [h0] at h1
  exact absurd h1 (by decide)

/-- With the choice 2 taken, the call goes on from the record the first pass of
the date loop leaves: it returns it when the pass accepted, and otherwise runs
the loop on the remaining input. -/
theorem updateEquipmentStatus_first_pass (equipment : Equipment) (currentDate : Date)
    (bad rest : List (Option Int)) (input : Option (Int × Int × Int))
    (dates : List (Option (Int × Int × Int)))
    (hbad : ∀ x ∈ bad, x ≠ some 1 ∧ x ≠ some 2) :
    (updateEquipmentStatus equipment currentDate (bad ++ some 2 :: rest) (input :: dates)).map
        Prod.fst
      = (if (afterFirstRepairETAAttempt equipment currentDate input).2.2 = true
          then some (afterFirstRepairETAAttempt equipment currentDate input).1
          else (repairETALoop (afterFirstRepairETAAttempt equipment currentDate input).1
            currentDate dates).map Prod.fst) := by
  obtain ⟨out, hout⟩ := readStatusChoice_skips 2 (Or.inr rfl) rest bad hbad
  have h21 : ¬ ((2 : Int) = 1) := by decide
  simp only [updateEquipmentStatus, hout, if_neg h21, repairETALoop, afterFirstRepairETAAttempt]
  rcases hx : repairETAAttempt { equipment with status := "Under Maintenance" } currentDate input
    with ⟨a, o, b⟩
  cases b with
  | true => simp
  | false =>
    simp only [Bool.false_eq_true, if_false]
    cases repairETALoop a currentDate dates with
    | none => rfl
    | some v => rfl

/-- C21, the claim fails: for a record that is Operational with the sentinel
ETA, a candidate before today (and likewise a candidate that is no date) is
rejected by the first pass of the date loop, and the record then has status
"Under Maintenance" with the sentinel ETA. -/
theorem rejected_candidate_status_changed :
    (sampleEquipment 1).status = "Operational" ∧ (sampleEquipment 1).repairETA = ⟨0, 0, 0⟩ ∧
    isValidDate 2 11 2026 = 1 ∧ compareDates ⟨2, 11, 2026⟩ ⟨3, 11, 2026⟩ < 0 ∧
    afterFirstRepairETAAttempt (sampleEquipment 1) ⟨3, 11, 2026⟩ (some (2, 11, 2026))
      = ({ sampleEquipment 1 with status := "Under Maintenance" },
          ["Enter the repair ETA (dd mm yyyy): ", "Error: Repair ETA cannot be in the past.\n"],
          false) ∧
    isValidDate 31 2 2027 = 0 ∧
    afterFirstRepairETAAttempt (sampleEquipment 1) ⟨3, 11, 2026⟩ (some (31, 2, 2027))
      = ({ sampleEquipment 1 with status := "Under Maintenance" },
          ["Enter the repair ETA (dd mm yyyy): ",
            "Error: Invalid date entered. Please enter a valid date.\n"],
          false) ∧
    (updateEquipmentStatus (sampleEquipment 1) ⟨3, 11, 2026⟩ [some 2]
      [some (2, 11, 2026), some (4, 11, 2026)]).map Prod.fst
      = some { sampleEquipment 1 with
          status := "Under Maintenance", repairETA := ⟨4, 11, 2026⟩ } := by
  decide

/-- C21 as amended: when the first candidate is invalid or before today, the
record at the point of the rejection has the repair ETA and every other field
it had before, and the status "Under Maintenance", written when the choice 2
was taken; so it is the record as it was exactly when the status already was
"Under Maintenance".  The call does not return there: it goes on with the
remaining input from that record. -/
theorem rejected_candidate_keeps_eta (equipment : Equipment) (currentDate : Date)
    (bad rest : List (Option Int)) (day month year : Int)
    (dates : List (Option (Int × Int × Int)))
    (hbad : ∀ x ∈ bad, x ≠ some 1 ∧ x ≠ some 2)
    (hrej : isValidDate day month year ≠ 1 ∨ compareDates ⟨day, month, year⟩ currentDate < 0) :
    (afterFirstRepairETAAttempt equipment currentDate (some (day, month, year))).2.2 = false ∧
    (afterFirstRepairETAAttempt equipment currentDate (some (day, month, year))).1
      = { equipment with status := "Under Maintenance" } ∧
    (afterFirstRepairETAAttempt equipment currentDate (some (day, month, year))).1.repairETA
      = equipment.repairETA ∧
    ((afterFirstRepairETAAttempt equipment currentDate (some (day, month, year))).1 = equipment ↔
      equipment.status = "Under Maintenance") ∧
    (updateEquipmentStatus equipment currentDate (bad ++ some 2 :: rest)
        (some (day, month, year) :: dates)).map Prod.fst
      = (repairETALoop { equipment with status := "Under Maintenance" } currentDate dates).map
          Prod.fst := by
  have hfirst := updateEquipmentStatus_first_pass equipment currentDate bad rest
    (some (day, month, year)) dates hbad
  have hflag : (afterFirstRepairETAAttempt equipment currentDate
      (some (day, month, year))).2.2 = false := by
    have hacc := (repairETAAttempt_accepts_iff { equipment with status := "Under Maintenance" }
      currentDate day month year)
    cases hb : (afterFirstRepairETAAttempt equipment currentDate (some (day, month, year))).2.2
    · rfl
    · exfalso
      have := hacc.mp hb
      rcases hrej with h | h
      · exact h this.1
      · omega
  have hrec : (afterFirstRepairETAAttempt equipment currentDate (some (day, month, year))).1
      = { equipment with status := "Under Maintenance" } := by
    rcases repairETAAttempt_spec { equipment with status := "Under Maintenance" } currentDate
      (some (day, month, year)) with ⟨_, he⟩ | ⟨ht, _⟩
    · exact he
    · simp only [afterFirstRepairETAAttempt] at hflag
      rw [hflag] at ht
      cases ht
  refine ⟨hflag, hrec, by rw [hrec], ?_, ?_⟩
  · rw [hrec]
    constructor
    · intro h; rw [← h]
    · intro h
      cases equipment
      simp only at h
      subst h
      rfl
  · rw [hfirst, hflag, hrec]
    simp

/-- After the creation and any returned calls of `updateEquipmentStatus` the
record is "Operational" with the sentinel, or "Under Maintenance" with a repair
ETA accepted on the date the clock gave when it was set: the date of the last
call when there was a call, and otherwise the date of the pass of the creation
loop that took the ETA, the first pass that did not reject. -/
theorem status_cases_after_run (nextEquipmentID : Int) (names : List String)
    (quantities choices brokens : List (Option Int))
    (dates : List (Option (Int × Int × Int) × Date)) (calls : List StatusCall)
    (e0 e : Equipment) (out : List String)
    (hcreate : createEquipment nextEquipmentID names quantities choices brokens dates
      = some (e0, out))
    (hrun : runStatusCalls e0 calls = some e) :
    (e.status = "Operational" ∧ e.repairETA = ⟨0, 0, 0⟩) ∨
      (e.status = "Under Maintenance" ∧
        ((∃ call, calls.getLast? = some call ∧ EtaAccepted e.repairETA call.currentDate) ∨
          (calls = [] ∧ ∃ rejected today rest,
            dates = rejected ++
              (some (e.repairETA.day, e.repairETA.month, e.repairETA.year), today) :: rest ∧
            (∀ p ∈ rejected, PassRejects p) ∧ EtaAccepted e.repairETA today))) := by
  rcases runStatusCalls_last calls e0 e hrun with ⟨hnil, he⟩ | ⟨call, e1, o1, hlast, hup⟩
  · subst hnil he
    obtain ⟨_, _, _, _, _, hst⟩ := createEquipment_spec _ _ _ _ _ _ e out hcreate
    rcases hst with ⟨_, hs, hex⟩ | ⟨_, hs, he⟩
    · right
      exact ⟨hs, Or.inr ⟨rfl, hex⟩⟩
    · left; exact ⟨hs, he⟩
  · obtain ⟨_, hst⟩ := updateEquipmentStatus_spec e1 _ _ _ e o1 hup
    rcases hst with h | ⟨hs, hacc⟩
    · left; exact h
    · right
      exact ⟨hs, Or.inl ⟨call, hlast, hacc⟩⟩

theorem rejected_candidate_keeps_eta_witness :
    (afterFirstRepairETAAttempt (sampleEquipment 1) ⟨3, 11, 2026⟩ (some (2, 11, 2026))).1.repairETA
      = (sampleEquipment 1).repairETA ∧
    (afterFirstRepairETAAttempt (sampleEquipment 1) ⟨3, 11, 2026⟩ (some (2, 11, 2026))).1
      = { sampleEquipment 1 with status := "Under Maintenance" } :=
  have h := rejected_candidate_keeps_eta (sampleEquipment 1) ⟨3, 11, 2026⟩ [none] []
    2 11 2026 [] (by decide) (Or.inr (by decide))
  ⟨h.2.2.1, h.2.1⟩

/-- C22: for a record the creation built and any number of returned calls of
`updateEquipmentStatus` changed, the status is "Operational" or "Under
Maintenance"; it is "Operational" exactly when the repair ETA is (0,0,0), and
"Under Maintenance" exactly when the repair ETA is a date `isValidDate` accepts
that was not before the date the clock gave when it was set.  That date is
pinned down: when there was a call it is the date the clock gave in the last
call; when there was none it is the date the clock gave in the pass of the
creation loop that took the ETA, which is the first pass that did not reject
(every pass before it failed to read a date, or read one `isValidDate` rejects,
or one before the date the clock gave in that pass).  (0,0,0) is not a valid
date. -/
theorem status_eta_coupling (nextEquipmentID : Int) (names : List String)
    (quantities choices brokens : List (Option Int))
    (dates : List (Option (Int × Int × Int) × Date)) (calls : List StatusCall)
    (e0 e : Equipment) (out : List String)
    (hcreate : createEquipment nextEquipmentID names quantities choices brokens dates
      = some (e0, out))
    (hrun : runStatusCalls e0 calls = some e) :
    (e.status = "Operational" ∨ e.status = "Under Maintenance") ∧
    (e.status = "Operational" ↔ e.repairETA = ⟨0, 0, 0⟩) ∧
    (∀ call, calls.getLast? = some call →
      (e.status = "Under Maintenance" ↔ EtaAccepted e.repairETA call.currentDate)) ∧
    (calls = [] →
      (e.status = "Under Maintenance" ↔
        ∃ rejected today rest,
          dates = rejected ++
            (some (e.repairETA.day, e.repairETA.month, e.repairETA.year), today) :: rest ∧
          (∀ p ∈ rejected, PassRejects p) ∧ EtaAccepted e.repairETA today)) ∧
    isValidDate 0 0 0 = 0 := by
  have hne : ¬ ("Under Maintenance" = "Operational") := by decide
  have hcases := status_cases_after_run nextEquipmentID names quantities choices brokens
    dates calls e0 e out hcreate hrun
  rcases hcases with ⟨hs, he⟩ | ⟨hs, hset⟩
  · refine ⟨Or.inl hs, ⟨fun _ => he, fun _ => hs⟩, ?_, ?_, by decide⟩
    · intro call _
      constructor
      · intro h2
        rw [hs] at h2
        exact absurd h2.symm hne
      · intro hacc
        rw [he] at hacc
        exact absurd hacc (sentinel_not_accepted _)
    · intro _
      constructor
      · intro h2
        rw [hs] at h2
        exact absurd h2.symm hne
      · rintro ⟨_, today, _, _, _, hacc⟩
        rw [he] at hacc
        exact absurd hacc (sentinel_not_accepted today)
  · have hnot : ¬ e.repairETA = ⟨0, 0, 0⟩ := by
      intro he
      rcases hset with ⟨call, _, hacc⟩ | ⟨_, _, today, _, _, _, hacc⟩
      · rw [he] at hacc
        exact absurd hacc (sentinel_not_accepted _)
      · rw [he] at hacc
        exact absurd hacc (sentinel_not_accepted today)
    refine ⟨Or.inr hs, ⟨?_, fun he => absurd he hnot⟩, ?_, ?_, by decide⟩
    · intro h2
      rw [hs] at h2
      exact absurd h2 hne
    · intro call hlast
      refine ⟨fun _ => ?_, fun _ => hs⟩
      rcases hset with ⟨call2, hlast2, hacc⟩ | ⟨hnil, _⟩
      · rw [hlast] at hlast2
        cases hlast2
        exact hacc
      · rw [hnil] at hlast
        cases hlast
    · intro hnil
      refine ⟨fun _ => ?_, fun _ => hs⟩
      rcases hset with ⟨call2, hlast2, _⟩ | ⟨_, hex⟩
      · rw [hnil] at hlast2
        cases hlast2
      · exact hex

theorem status_eta_coupling_witness :
    (∃ rejected today rest,
      [((none : Option (Int × Int × Int)), (⟨31, 12, 2025⟩ : Date)),
        (some (31, 2, 2027), ⟨31, 12, 2025⟩), (some (31, 12, 2025), ⟨1, 1, 2026⟩),
        (some (2, 1, 2026), ⟨1, 1, 2026⟩), (some (5, 5, 2020), ⟨1, 1, 2020⟩)]
        = rejected ++ (some (2, 1, 2026), today) :: rest ∧
      (∀ p ∈ rejected, PassRejects p) ∧ EtaAccepted ⟨2, 1, 2026⟩ today) ∧
    ((⟨"Bench", 4, 3, 1, "Under Maintenance", ⟨7, 11, 2026⟩, 3⟩ : Equipment).status
        = "Under Maintenance" ↔
      EtaAccepted ⟨7, 11, 2026⟩ ⟨6, 11, 2026⟩) :=
  ⟨((status_eta_coupling 3 ["Bench"] [some 4] [some 2] [some 1]
      [(none, ⟨31, 12, 2025⟩), (some (31, 2, 2027), ⟨31, 12, 2025⟩),
        (some (31, 12, 2025), ⟨1, 1, 2026⟩), (some (2, 1, 2026), ⟨1, 1, 2026⟩),
        (some (5, 5, 2020), ⟨1, 1, 2020⟩)]
      []
      ⟨"Bench", 4, 3, 1, "Under Maintenance", ⟨2, 1, 2026⟩, 3⟩
      ⟨"Bench", 4, 3, 1, "Under Maintenance", ⟨2, 1, 2026⟩, 3⟩
      ((createEquipment 3 ["Bench"] [some 4] [some 2] [some 1]
        [(none, ⟨31, 12, 2025⟩), (some (31, 2, 2027), ⟨31, 12, 2025⟩),
          (some (31, 12, 2025), ⟨1, 1, 2026⟩), (some (2, 1, 2026), ⟨1, 1, 2026⟩),
          (some (5, 5, 2020), ⟨1, 1, 2020⟩)]).get (by decide)).2
      (by decide) (by decide)).2.2.2.1 rfl).mp (by decide),
    (status_eta_coupling 3 ["Bench"] [some 4] [some 2] [some 1]
      [(some (3, 11, 2026), ⟨3, 11, 2026⟩)]
      [⟨⟨5, 11, 2026⟩, [some 1], []⟩, ⟨⟨6, 11, 2026⟩, [some 2], [some (7, 11, 2026)]⟩]
      ⟨"Bench", 4, 3, 1, "Under Maintenance", ⟨3, 11, 2026⟩, 3⟩
      ⟨"Bench", 4, 3, 1, "Under Maintenance", ⟨7, 11, 2026⟩, 3⟩
      ["Enter equipment name: ", "Enter total quantity: ", "Are all equipments functional?\n",
        "1. Yes\n", "2. No\n", "Choose an option (1-2): ",
        "Enter the number of broken equipments: ", "Enter repair ETA (dd mm yyyy): "]
      (by decide) (by decide)).2.2.1
      ⟨⟨6, 11, 2026⟩, [some 2], [some (7, 11, 2026)]⟩ rfl⟩

/-- C23, the claim fails: a record created with one functional unit (broken 0,
"Operational") is "Under Maintenance" with broken 0 after a call with the choice
2, and a record created with a broken unit (broken 1, "Under Maintenance") is
"Operational" with broken 1 after a call with the choice 1. -/
theorem status_drifts_from_broken :
    ((createEquipment 1 ["Bench"] [some 1] [some 1] [] []).map Prod.fst
        = some ⟨"Bench", 1, 1, 0, "Operational", ⟨0, 0, 0⟩, 1⟩ ∧
      (updateEquipmentStatus ⟨"Bench", 1, 1, 0, "Operational", ⟨0, 0, 0⟩, 1⟩ ⟨3, 11, 2026⟩
        [some 2] [some (3, 11, 2026)]).map Prod.fst
        = some ⟨"Bench", 1, 1, 0, "Under Maintenance", ⟨3, 11, 2026⟩, 1⟩) ∧
    ((createEquipment 2 ["Bike"] [some 1] [some 2] [] [(some (3, 11, 2026), ⟨3, 11, 2026⟩)]).map
        Prod.fst
        = some ⟨"Bike", 1, 0, 1, "Under Maintenance", ⟨3, 11, 2026⟩, 2⟩ ∧
      (updateEquipmentStatus ⟨"Bike", 1, 0, 1, "Under Maintenance", ⟨3, 11, 2026⟩, 2⟩
        ⟨3, 11, 2026⟩ [some 1] []).map Prod.fst
        = some ⟨"Bike", 1, 0, 1, "Operational", ⟨0, 0, 0⟩, 2⟩) := by
  decide

/-- C23 as amended: for every record as the creation builds it the status is
"Under Maintenance" exactly when broken > 0 (and "Operational" exactly when
broken = 0); the calls of `updateEquipmentStatus` leave broken as it is and
set the status to "Operational" or "Under Maintenance" whatever broken is. -/
theorem creation_status_follows_broken (nextEquipmentID : Int) (names : List String)
    (quantities choices brokens : List (Option Int))
    (dates : List (Option (Int × Int × Int) × Date)) (calls : List StatusCall)
    (e0 e : Equipment) (out : List String)
    (hcreate : createEquipment nextEquipmentID names quantities choices brokens dates
      = some (e0, out))
    (hrun : runStatusCalls e0 calls = some e) :
    (e0.status = "Under Maintenance" ↔ e0.broken > 0) ∧
    (e0.status = "Operational" ↔ e0.broken = 0) ∧
    e.broken = e0.broken ∧
    (e.status = "Operational" ∨ e.status = "Under Maintenance") := by
  have hne : ¬ ("Under Maintenance" = "Operational") := by decide
  obtain ⟨_, _, _, hb, _, hst⟩ := createEquipment_spec _ _ _ _ _ _ e0 out hcreate
  obtain ⟨_, _, _, _, hbr⟩ := runStatusCalls_fields calls e0 e hrun
  have hstat : e.status = "Operational" ∨ e.status = "Under Maintenance" := by
    rcases status_cases_after_run nextEquipmentID names quantities choices brokens
      dates calls e0 e out hcreate hrun with ⟨hs, _⟩ | ⟨hs, _⟩
    · exact Or.inl hs
    · exact Or.inr hs
  refine ⟨?_, ?_, hbr, hstat⟩
  · rcases hst with ⟨hpos, hs, _⟩ | ⟨hzero, hs, _⟩
    · exact ⟨fun _ => hpos, fun _ => hs⟩
    · constructor
      · intro h; rw [hs] at h; exact absurd h.symm hne
      · intro h; omega
  · rcases hst with ⟨hpos, hs, _⟩ | ⟨hzero, hs, _⟩
    · constructor
      · intro h; rw [hs] at h; exact absurd h hne
      · intro h; omega
    · exact ⟨fun _ => hzero, fun _ => hs⟩

theorem creation_status_follows_broken_witness :
    ((⟨"Bike", 1, 0, 1, "Under Maintenance", ⟨3, 11, 2026⟩, 2⟩ : Equipment).status
        = "Under Maintenance" ↔
      (⟨"Bike", 1, 0, 1, "Under Maintenance", ⟨3, 11, 2026⟩, 2⟩ : Equipment).broken > 0) :=
  (creation_status_follows_broken 2 ["Bike"] [some 1] [some 2] []
    [(some (3, 11, 2026), ⟨3, 11, 2026⟩)] [⟨⟨3, 11, 2026⟩, [some 1], []⟩]
    ⟨"Bike", 1, 0, 1, "Under Maintenance", ⟨3, 11, 2026⟩, 2⟩
    ⟨"Bike", 1, 0, 1, "Operational", ⟨0, 0, 0⟩, 2⟩
    ["Enter equipment name: ", "Enter total quantity: ", "Is the equipment functional?\n",
      "1. Yes\n", "2. No\n", "Choose an option (1-2): ", "Enter repair ETA (dd mm yyyy): "]
    (by decide) (by decide)).1

/-- C24: every record the creation builds has a total above 0 split into
functional and broken parts that are not negative and add up to the total; the
returned calls of `updateEquipmentStatus` leave id, name, totalQuantity,
functional and broken as they are, so the split holds after them as well. -/
theorem quantity_split_invariant (nextEquipmentID : Int) (names : List String)
    (quantities choices brokens : List (Option Int))
    (dates : List (Option (Int × Int × Int) × Date)) (calls : List StatusCall)
    (e0 e : Equipment) (out : List String)
    (hcreate : createEquipment nextEquipmentID names quantities choices brokens dates
      = some (e0, out))
    (hrun : runStatusCalls e0 calls = some e) :
    (e0.totalQuantity > 0 ∧ e0.functional + e0.broken = e0.totalQuantity ∧
      e0.functional ≥ 0 ∧ e0.broken ≥ 0) ∧
    (e.id = e0.id ∧ e.name = e0.name ∧ e.totalQuantity = e0.totalQuantity ∧
      e.functional = e0.functional ∧ e.broken = e0.broken) ∧
    (e.functional + e.broken = e.totalQuantity ∧ e.functional ≥ 0 ∧ e.broken ≥ 0) := by
  obtain ⟨h1, h2, h3, h4, _, _⟩ := createEquipment_spec _ _ _ _ _ _ e0 out hcreate
  obtain ⟨f1, f2, f3, f4, f5⟩ := runStatusCalls_fields calls e0 e hrun
  refine ⟨⟨h1, h2, h3, h4⟩, ⟨f1, f2, f3, f4, f5⟩, ?_, ?_, ?_⟩
  · rw [f3, f4, f5]; exact h2
  · rw [f4]; exact h3
  · rw [f5]; exact h4

theorem quantity_split_invariant_witness :
    ((⟨"Bench", 4, 3, 1, "Under Maintenance", ⟨3, 11, 2026⟩, 3⟩ : Equipment).functional
        + (⟨"Bench", 4, 3, 1, "Under Maintenance", ⟨3, 11, 2026⟩, 3⟩ : Equipment).broken
      = (⟨"Bench", 4, 3, 1, "Under Maintenance", ⟨3, 11, 2026⟩, 3⟩ : Equipment).totalQuantity) ∧
    ((⟨"Bench", 4, 3, 1, "Operational", ⟨0, 0, 0⟩, 3⟩ : Equipment).functional
        + (⟨"Bench", 4, 3, 1, "Operational", ⟨0, 0, 0⟩, 3⟩ : Equipment).broken
      = (⟨"Bench", 4, 3, 1, "Operational", ⟨0, 0, 0⟩, 3⟩ : Equipment).totalQuantity) :=
  have h := quantity_split_invariant 3 ["", "Bench"] [none, some 0, some 4] [some 3, some 2]
    [some 9, some 1] [(some (31, 2, 2027), ⟨3, 11, 2026⟩), (some (3, 11, 2026), ⟨3, 11, 2026⟩)]
    [⟨⟨5, 11, 2026⟩, [some 1], []⟩]
    ⟨"Bench", 4, 3, 1, "Under Maintenance", ⟨3, 11, 2026⟩, 3⟩
    ⟨"Bench", 4, 3, 1, "Operational", ⟨0, 0, 0⟩, 3⟩
    ((createEquipment 3 ["", "Bench"] [none, some 0, some 4] [some 3, some 2]
      [some 9, some 1]
      [(some (31, 2, 2027), ⟨3, 11, 2026⟩), (some (3, 11, 2026), ⟨3, 11, 2026⟩)]).elim [] Prod.snd)
    (by decide) (by decide)
  ⟨h.1.2.1, h.2.2.1⟩

/-! ## Aggregate consistency of the report -/

theorem sum_functional_broken :
    ∀ l : List Equipment, (∀ r ∈ l, r.functional + r.broken = r.totalQuantity) →
      (l.map Equipment.functional).sum + (l.map Equipment.broken).sum
        = (l.map Equipment.totalQuantity).sum := by
  intro l
  induction l with
  | nil => intro _; rfl
  | cons x l ih =>
    intro h
    have hx := h x (List.mem_cons_self _ _)
    have hl := ih (fun r hr => h r (List.mem_cons_of_mem _ hr))
    simp only [List.map_cons, List.sum_cons]
    omega

/-- C25: when every record among the first count satisfies functional + broken
= totalQuantity, the report `generateReport` writes satisfies
total_functional_equipment + total_broken_equipment = total_equipment_count. -/
theorem report_aggregate_consistency (list : EquipmentList) (report : Report)
    (currentDate : Date) (hA : list.Allocated) (hc : list.count ≤ list.capacity)
    (hall : ∀ r ∈ list.records, r.functional + r.broken = r.totalQuantity) :
    ∃ (report1 : Report) (out : List String),
      generateReport list report currentDate = some (report1, out) ∧
      report1.total_functional_equipment + report1.total_broken_equipment
        = report1.total_equipment_count := by
  obtain ⟨r1, o1, h1, h2, h3, h4, _, _⟩ := generateReport_ok list report currentDate hA hc
  refine ⟨r1, o1, h1, ?_⟩
  rw [h2, h3, h4]
  exact sum_functional_broken list.records hall

theorem report_aggregate_consistency_witness :
    ∃ (report1 : Report) (out : List String),
      generateReport reportExampleStore default ⟨3, 11, 2026⟩ = some (report1, out) ∧
      report1.total_functional_equipment + report1.total_broken_equipment
        = report1.total_equipment_count :=
  report_aggregate_consistency reportExampleStore default ⟨3, 11, 2026⟩
    (by decide) (by decide) (by decide)

/-! ## Reachable stores -/

/-- A run of inserts and deletes from a well-formed store returns a
well-formed store, whatever the operations are. -/
theorem runOps_wellFormed {S α : Type} (key : α → Int) (add : S → α → Option S)
    (del : S → Int → Option (S × List String)) (recs : S → List α) (WF : S → Prop)
    (hadd : ∀ s r, WF s → ∃ s1, add s r = some s1 ∧ WF s1)
    (hdel : ∀ s id, WF s → ∃ s1 out, del s id = some (s1, out) ∧ WF s1) :
    ∀ (ops : List (StoreOp α)) (s : S), WF s →
      ∃ s1 k, runOps key add del recs s ops = some (s1, k) ∧ WF s1 := by
  intro ops
  induction ops with
  | nil => intro s hs; exact ⟨s, 0, rfl, hs⟩
  | cons op ops ih =>
    intro s hs
    cases op with
    | insert r =>
      obtain ⟨s1, h1, hwf1⟩ := hadd s r hs
      obtain ⟨s2, k, h2, hwf2⟩ := ih s1 hwf1
      exact ⟨s2, k, by simp only [runOps, h1, h2], hwf2⟩
    | delete id =>
      obtain ⟨s1, out, h1, hwf1⟩ := hdel s id hs
      obtain ⟨s2, k, h2, hwf2⟩ := ih s1 hwf1
      refine ⟨s2, if ∃ r ∈ recs s, key r = id then k + 1 else k, ?_, hwf2⟩
      simp only [runOps, h1, h2]

/-- Every run of `addMember` and `deleteMember` from a well-formed store
returns a well-formed store. -/
theorem runMemberOps_wellFormed (ops : List (StoreOp Member)) (list : MemberList)
    (h : list.WellFormed) :
    ∃ list1 k, runMemberOps list ops = some (list1, k) ∧ list1.WellFormed :=
  runOps_wellFormed Member.memberID addMember deleteMember MemberList.records
    MemberList.WellFormed
    (fun s r hs =>
      match addMember_wellFormed s r hs with
      | ⟨s1, h1, h2, _⟩ => ⟨s1, h1, h2⟩)
    (fun s id hs =>
      match deleteMember_inv s id hs.1 hs.2.1 with
      | ⟨s1, out, h1, h2, h3, h4⟩ => ⟨s1, out, h1, h3, h2, h4 hs.2.2⟩)
    ops list h

/-- Every run of `addEquipment` and `deleteEquipment` from a well-formed store
returns a well-formed store. -/
theorem runEquipmentOps_wellFormed (ops : List (StoreOp Equipment)) (list : EquipmentList)
    (h : list.WellFormed) :
    ∃ list1 k, runEquipmentOps list ops = some (list1, k) ∧ list1.WellFormed :=
  runOps_wellFormed Equipment.id addEquipment deleteEquipment EquipmentList.records
    EquipmentList.WellFormed
    (fun s r hs =>
      match addEquipment_wellFormed s r hs with
      | ⟨s1, h1, h2, _⟩ => ⟨s1, h1, h2⟩)
    (fun s id hs =>
      match deleteEquipment_inv s id hs.1 hs.2.1 with
      | ⟨s1, out, h1, h2, h3, h4⟩ => ⟨s1, out, h1, h3, h2, h4 hs.2.2⟩)
    ops list h

/-- In a well-formed member store the index an insert writes is inside the
block in force after the optional doubling, and the insert returns. -/
theorem addMember_in_bounds (list : MemberList) (member : Member) (h : list.WellFormed) :
    1 ≤ list.capacity ∧ 0 ≤ list.count ∧
    list.count < (if list.count = list.capacity then list.capacity * 2 else list.capacity) ∧
    ∃ list1, addMember list member = some list1 := by
  obtain ⟨list1, h1, _, _⟩ := addMember_wellFormed list member h
  obtain ⟨_, hInv, hcap⟩ := h
  refine ⟨hcap, hInv.1, ?_, list1, h1⟩
  have := hInv.2
  split_ifs <;> omega

/-- In a well-formed equipment store the index an insert writes is inside the
block in force after the optional doubling, and the insert returns. -/
theorem addEquipment_in_bounds (list : EquipmentList) (equipment : Equipment) (h : list.WellFormed) :
    1 ≤ list.capacity ∧ 0 ≤ list.count ∧
    list.count < (if list.count = list.capacity then list.capacity * 2 else list.capacity) ∧
    ∃ list1, addEquipment list equipment = some list1 := by
  obtain ⟨list1, h1, _, _⟩ := addEquipment_wellFormed list equipment h
  obtain ⟨_, hInv, hcap⟩ := h
  refine ⟨hcap, hInv.1, ?_, list1, h1⟩
  have := hInv.2
  split_ifs <;> omega

/-- C27: every store reached from the new store, or from a load of a file
with a non-negative count, by any sequence of inserts and deletes has capacity
>= 1 (every call of the sequence returns, so no access left its block); in a
further insert the index written, the old count, is below the capacity in
force after the optional doubling, and the insert returns. -/
theorem capacity_at_least_one (ml0 : MemberList) (mfile : Option (DataFile Member))
    (mops : List (StoreOp Member)) (m : Member)
    (el0 : EquipmentList) (efile : Option (DataFile Equipment))
    (eops : List (StoreOp Equipment)) (e : Equipment)
    (hmf : ∀ f, mfile = some f → 0 ≤ f.count) (hef : ∀ f, efile = some f → 0 ≤ f.count) :
    ((∃ final k, runMemberOps newMemberList mops = some (final, k) ∧
        1 ≤ final.capacity ∧ 0 ≤ final.count ∧
        final.count < (if final.count = final.capacity then final.capacity * 2
          else final.capacity) ∧
        ∃ final1, addMember final m = some final1) ∧
      (∃ start next, loadMembersFromFile ml0 mfile = some (start, next) ∧
        ∃ final k, runMemberOps start mops = some (final, k) ∧
          1 ≤ final.capacity ∧ 0 ≤ final.count ∧
          final.count < (if final.count = final.capacity then final.capacity * 2
            else final.capacity) ∧
          ∃ final1, addMember final m = some final1)) ∧
    ((∃ final k, runEquipmentOps newEquipmentList eops = some (final, k) ∧
        1 ≤ final.capacity ∧ 0 ≤ final.count ∧
        final.count < (if final.count = final.capacity then final.capacity * 2
          else final.capacity) ∧
        ∃ final1, addEquipment final e = some final1) ∧
      (∃ start next, loadEquipmentFromFile el0 efile = some (start, next) ∧
        ∃ final k, runEquipmentOps start eops = some (final, k) ∧
          1 ≤ final.capacity ∧ 0 ≤ final.count ∧
          final.count < (if final.count = final.capacity then final.capacity * 2
            else final.capacity) ∧
          ∃ final1, addEquipment final e = some final1)) := by
  refine ⟨⟨?_, ?_⟩, ⟨?_, ?_⟩⟩
  · obtain ⟨final, k, h1, h2⟩ := runMemberOps_wellFormed mops newMemberList (by decide)
    obtain ⟨a1, a2, a3, a4⟩ := addMember_in_bounds final m h2
    exact ⟨final, k, h1, a1, a2, a3, a4⟩
  · obtain ⟨start, next, g1, g2, _, _⟩ := loadMembersFromFile_wellFormed ml0 mfile hmf
    obtain ⟨final, k, h1, h2⟩ := runMemberOps_wellFormed mops start g2
    obtain ⟨a1, a2, a3, a4⟩ := addMember_in_bounds final m h2
    exact ⟨start, next, g1, final, k, h1, a1, a2, a3, a4⟩
  · obtain ⟨final, k, h1, h2⟩ := runEquipmentOps_wellFormed eops newEquipmentList (by decide)
    obtain ⟨a1, a2, a3, a4⟩ := addEquipment_in_bounds final e h2
    exact ⟨final, k, h1, a1, a2, a3, a4⟩
  · obtain ⟨start, next, g1, g2, _, _⟩ := loadEquipmentFromFile_wellFormed el0 efile hef
    obtain ⟨final, k, h1, h2⟩ := runEquipmentOps_wellFormed eops start g2
    obtain ⟨a1, a2, a3, a4⟩ := addEquipment_in_bounds final e h2
    exact ⟨start, next, g1, final, k, h1, a1, a2, a3, a4⟩

theorem capacity_at_least_one_witness :
    (∃ final k,
      runMemberOps newMemberList
          [StoreOp.insert (sampleMember 1), StoreOp.insert (sampleMember 2), StoreOp.delete 1,
            StoreOp.delete 2, StoreOp.delete 2] = some (final, k) ∧
        1 ≤ final.capacity) ∧
    (∃ start next,
      loadEquipmentFromFile newEquipmentList (some ⟨1, [sampleEquipment 4]⟩)
          = some (start, next) ∧
        ∃ final k, runEquipmentOps start [StoreOp.delete 4] = some (final, k) ∧
          1 ≤ final.capacity) :=
  have h := capacity_at_least_one newMemberList none
    [StoreOp.insert (sampleMember 1), StoreOp.insert (sampleMember 2), StoreOp.delete 1,
      StoreOp.delete 2, StoreOp.delete 2] (sampleMember 3)
    newEquipmentList (some ⟨1, [sampleEquipment 4]⟩) [StoreOp.delete 4] (sampleEquipment 5)
    (by intro f hf; cases hf) (by intro f hf; cases hf; decide)
  ⟨h.1.1.imp fun _ h1 => h1.imp fun _ h2 => ⟨h2.1, h2.2.1⟩,
    h.2.2.imp fun _ h1 => h1.imp fun _ h2 =>
      ⟨h2.1, h2.2.imp fun _ h3 => h3.imp fun _ h4 => ⟨h4.1, h4.2.1⟩⟩⟩

/-! ## Lookup after insert and delete -/

theorem find?_first_match {α : Type} (key : α → Int) (id : Int) (x : α) (mid : List α)
    (hx : key x = id) :
    ∀ pre : List α, (∀ r ∈ pre, key r ≠ id) →
      (pre ++ x :: mid).find? (fun r => decide (key r = id)) = some x := by
  intro pre
  induction pre with
  | nil => intro _; simp [List.find?_cons, hx]
  | cons a pre ih =>
    intro h
    have ha : key a ≠ id := h a (List.mem_cons_self _ _)
    have := ih (fun r hr => h r (List.mem_cons_of_mem _ hr))
    simp [List.find?_cons, ha, this]

theorem find?_none_of_absent {α : Type} (key : α → Int) (id : Int) :
    ∀ l : List α, (∀ r ∈ l, key r ≠ id) → l.find? (fun r => decide (key r = id)) = none := by
  intro l
  induction l with
  | nil => intro _; rfl
  | cons a l ih =>
    intro h
    have ha : key a ≠ id := h a (List.mem_cons_self _ _)
    have := ih (fun r hr => h r (List.mem_cons_of_mem _ hr))
    simp [List.find?_cons, ha, this]

/-- The record `findMemberByID` points to is the first of the first `count`
records with the id. -/
theorem findMemberRecord_eq (list : MemberList) (memberID : Int)
    (hA : list.Allocated) (hc : list.count ≤ list.capacity) :
    findMemberRecord list memberID
      = some (list.records.find? (fun r => decide (r.memberID = memberID))) := by
  unfold findMemberRecord
  rw [findMemberByID_eq list memberID hA hc]
  by_cases h : ∃ r ∈ list.records, r.memberID = memberID
  · obtain ⟨pre, x, mid, hs, hx, hpre⟩ := exists_first_match Member.memberID memberID _ h
    obtain ⟨_, hblock, _, _⟩ := delete_loops Member.memberID memberID list.members list.count
      pre x mid (by rw [hA]; exact hc) hs hx hpre
    have hidx := findIdx_first_match Member.memberID memberID x mid hx pre hpre
    have hfind := find?_first_match Member.memberID memberID x mid hx pre hpre
    have hread : readAt list.members (pre.length : Int) = some x := by
      rw [hblock]; exact readAt_mid pre x _
    rw [hs, hidx, hfind, if_pos (by simp)]
    simp only [hread]
  · have hno : ∀ r ∈ list.records, r.memberID ≠ memberID := fun r hr hk => h ⟨r, hr, hk⟩
    have hidx : list.records.findIdx (fun r => decide (r.memberID = memberID))
        = list.records.length :=
      List.findIdx_eq_length_of_false (by simpa using hno)
    rw [hidx, if_neg (by omega), find?_none_of_absent Member.memberID memberID _ hno]

/-- C28: on a member store with pairwise distinct ids, after `deleteMember` of
an id the lookup of that id gives `NULL` and the lookup of every other id gives
the record it gave before; after `addMember` of a record whose id is not in
the store the lookup of its id gives that record and the lookup of every other
id gives what it gave before. -/
theorem find_after_delete_and_add (list : MemberList) (memberID : Int) (member : Member)
    (hWF : list.WellFormed) (hnd : (list.records.map Member.memberID).Nodup)
    (hnew : ∀ r ∈ list.records, r.memberID ≠ member.memberID) :
    (∃ list1 out, deleteMember list memberID = some (list1, out) ∧
      findMemberRecord list1 memberID = some none ∧
      ∀ j : Int, j ≠ memberID → findMemberRecord list1 j = findMemberRecord list j) ∧
    (∃ list1, addMember list member = some list1 ∧
      findMemberRecord list1 member.memberID = some (some member) ∧
      ∀ j : Int, j ≠ member.memberID → findMemberRecord list1 j = findMemberRecord list j) := by
  have hfind := fun j => findMemberRecord_eq list j hWF.1 hWF.2.1.2
  constructor
  · by_cases h : ∃ r ∈ list.records, r.memberID = memberID
    · obtain ⟨pre, x, mid, hs, hx, hpre⟩ := exists_first_match Member.memberID memberID _ h
      obtain ⟨list1, out, h1, h2, h3⟩ :=
        deleteMember_wellFormed list memberID pre x mid hWF hs hx hpre
      have hfind1 := fun j => findMemberRecord_eq list1 j h2.1 h2.2.1.2
      have hmid : ∀ r ∈ mid, r.memberID ≠ memberID := by
        intro r hr hk
        rw [hs, List.map_append, List.map_cons] at hnd
        have hnd2 := (List.nodup_append.mp hnd).2.1
        have hnotin := (List.nodup_cons.mp hnd2).1
        apply hnotin
        rw [hx, ← hk]
        exact List.mem_map_of_mem _ hr
      refine ⟨list1, out, h1, ?_, ?_⟩
      · rw [hfind1, h3]
        congr 1
        apply find?_none_of_absent Member.memberID memberID
        intro r hr
        rcases List.mem_append.mp hr with hp | hm
        · exact hpre r hp
        · exact hmid r hm
      · intro j hj
        rw [hfind1, hfind, h3, hs]
        have hxj : ¬ (x.memberID = j) := by rw [hx]; exact fun hh => hj hh.symm
        simp [List.find?_append, List.find?_cons, hxj]
    · have hno : ∀ r ∈ list.records, r.memberID ≠ memberID := fun r hr hk => h ⟨r, hr, hk⟩
      refine ⟨list, _, deleteMember_not_found list memberID hWF.1 hWF.2.1.2 hno, ?_, ?_⟩
      · rw [hfind, find?_none_of_absent Member.memberID memberID _ hno]
      · intro j _; rfl
  · obtain ⟨list1, h1, h2, h3⟩ := addMember_wellFormed list member hWF
    have hfind1 := fun j => findMemberRecord_eq list1 j h2.1 h2.2.1.2
    refine ⟨list1, h1, ?_, ?_⟩
    · rw [hfind1, h3]
      congr 1
      exact find?_first_match Member.memberID member.memberID member [] rfl list.records hnew
    · intro j hj
      rw [hfind1, hfind, h3]
      have hmj : ¬ (member.memberID = j) := fun hh => hj hh.symm
      simp [List.find?_append, List.find?_cons, hmj]

theorem find_after_delete_and_add_witness :
    (∃ list1 out, deleteMember (memberListOf [4, 7, 9]) 7 = some (list1, out) ∧
      findMemberRecord list1 7 = some none ∧
      ∀ j : Int, j ≠ 7 →
        findMemberRecord list1 j = findMemberRecord (memberListOf [4, 7, 9]) j) ∧
    (∃ list1, addMember (memberListOf [4, 7, 9]) (sampleMember 12) = some list1 ∧
      findMemberRecord list1 (sampleMember 12).memberID = some (some (sampleMember 12)) ∧
      ∀ j : Int, j ≠ (sampleMember 12).memberID →
        findMemberRecord list1 j = findMemberRecord (memberListOf [4, 7, 9]) j) :=
  find_after_delete_and_add (memberListOf [4, 7, 9]) 7 (sampleMember 12)
    (by decide) (by decide) (by decide)

/-! ## The two stores and the generic record store -/

theorem nextId_fold_eq_max {α : Type} (key : α → Int) :
    ∀ (l : List α) (next : Int),
      l.foldl (fun nx r => if key r ≥ nx then key r + 1 else nx) next
        = (l.map key).foldl (fun next id => max next (id + 1)) next := by
  intro l
  induction l with
  | nil => intro next; rfl
  | cons x l ih =>
    intro next
    simp only [List.foldl_cons, List.map_cons]
    rw [ih]
    congr 1
    split_ifs <;> omega

/-- The insert of the specification on stores abstracted to ids. -/
theorem RecordStore.ids_insert {α : Type} (key : α → Int) (s : RecordStore α) (r : α) :
    (s.insert r).ids key = (s.ids key).insert (key r) := by
  simp [RecordStore.ids, RecordStore.insert]

theorem map_eraseIdx_first {α : Type} (key : α → Int) (pre : List α) (x : α) (mid : List α) :
    ((pre ++ x :: mid).map key).eraseIdx (pre.map key).length = (pre ++ mid).map key := by
  rw [List.map_append, List.map_cons, eraseIdx_first_match, List.map_append]

/-- The delete of the specification on stores abstracted to ids. -/
theorem RecordStore.ids_deleteById {α : Type} (key : α → Int) (s : RecordStore α) (id : Int) :
    ((RecordStore.deleteById key s id).1.ids key, (RecordStore.deleteById key s id).2)
      = RecordStore.deleteById (fun i : Int => i) (s.ids key) id := by
  by_cases h : ∃ r ∈ s.records, key r = id
  · obtain ⟨pre, x, mid, hs, hx, hpre⟩ := exists_first_match key id _ h
    have h1 := findIdx_first_match key id x mid hx pre hpre
    have hpre2 : ∀ i ∈ pre.map key, (fun i : Int => i) i ≠ id := by
      intro i hi
      obtain ⟨r, hr, hk⟩ := List.mem_map.mp hi
      rw [← hk]
      exact hpre r hr
    have h2 := findIdx_first_match (fun i : Int => i) id (key x) (mid.map key) hx
      (pre.map key) hpre2
    have hlt : pre.length < (pre ++ x :: mid).length := by simp
    have hlt2 : (pre.map key).length < (pre.map key ++ key x :: mid.map key).length := by simp
    simp only [RecordStore.deleteById, RecordStore.ids, hs, h1, if_pos hlt,
      List.map_append, List.map_cons, h2, if_pos hlt2, eraseIdx_first_match]
  · have hno : ∀ r ∈ s.records, key r ≠ id := fun r hr hk => h ⟨r, hr, hk⟩
    have h1 : s.records.findIdx (fun r => decide (key r = id)) = s.records.length :=
      List.findIdx_eq_length_of_false (by simpa using hno)
    have h2 : (s.records.map key).findIdx (fun i => decide (i = id))
        = (s.records.map key).length :=
      List.findIdx_eq_length_of_false (by
        intro i hi
        obtain ⟨r, hr, hk⟩ := List.mem_map.mp hi
        have := hno r hr
        simp [← hk, this])
    simp only [RecordStore.deleteById, RecordStore.ids, h1, h2, lt_self_iff_false, if_false]

/-- The load of the specification depends on the count and the ids only. -/
theorem RecordStore.ids_load {α : Type} (key : α → Int) (f : DataFile α) :
    ((RecordStore.load key f).1.ids key, (RecordStore.load key f).2)
      = RecordStore.load (fun i : Int => i) (f.ids key) := by
  have hmap : List.map ((fun i : Int => i) ∘ key) f.records = List.map key f.records := rfl
  simp [RecordStore.load, RecordStore.ids, DataFile.ids, hmap]

/-- `addMember` is the insert of the specification. -/
theorem addMember_refines (list : MemberList) (member : Member) (h : list.WellFormed) :
    (addMember list member).map MemberList.toRecordStore
      = some (list.toRecordStore.insert member) := by
  obtain ⟨hA, hInv, hcap⟩ := h
  obtain ⟨list1, h1, h2, h3, _, _, h6, _⟩ := addMember_ok list member hA hInv.1 hInv.2 hcap
  rw [h1]
  simp only [Option.map_some', MemberList.toRecordStore, RecordStore.insert, h2, h3, h6,
    Option.some.injEq, RecordStore.mk.injEq, true_and]
  split_ifs <;> omega

/-- `deleteMember` is the delete of the specification; it prints nothing
exactly when the id was found. -/
theorem deleteMember_refines (list : MemberList) (memberID : Int) (h : list.WellFormed) :
    (deleteMember list memberID).map (fun p => (p.1.toRecordStore, p.2.isEmpty))
      = some (RecordStore.deleteById Member.memberID list.toRecordStore memberID) := by
  obtain ⟨hA, hInv, hcap⟩ := h
  have ht := tdiv_two list.capacity (by omega)
  by_cases hp : ∃ r ∈ list.records, r.memberID = memberID
  · obtain ⟨pre, x, mid, hs, hx, hpre⟩ := exists_first_match Member.memberID memberID _ hp
    obtain ⟨list1, a1, a2, a3, a4, _⟩ :=
      deleteMember_found list memberID pre x mid hA hInv.2 hs hx hpre
    have hidx := findIdx_first_match Member.memberID memberID x mid hx pre hpre
    have hlt : pre.length < (pre ++ x :: mid).length := by simp
    rw [a1]
    simp only [Option.map_some', MemberList.toRecordStore, RecordStore.deleteById, hs, hidx,
      if_pos hlt, eraseIdx_first_match, a2, a3, a4, ht, List.isEmpty_nil]
  · have hno : ∀ r ∈ list.records, r.memberID ≠ memberID := fun r hr hk => hp ⟨r, hr, hk⟩
    have hidx : list.records.findIdx (fun r => decide (r.memberID = memberID))
        = list.records.length :=
      List.findIdx_eq_length_of_false (by simpa using hno)
    rw [deleteMember_not_found list memberID hA hInv.2 hno]
    simp only [Option.map_some', MemberList.toRecordStore, RecordStore.deleteById, hidx,
      lt_self_iff_false, if_false, List.isEmpty_cons]

/-- `loadMembersFromFile` on a whole file is the load of the specification. -/
theorem loadMembersFromFile_refines (list : MemberList) (f : DataFile Member)
    (hf : f.count = (f.records.length : Int)) :
    (loadMembersFromFile list (some f)).map (fun p => (p.1.toRecordStore, p.2))
      = some (RecordStore.load Member.memberID f) := by
  obtain ⟨list1, h1, h2, h3, _, h5⟩ := loadMembersFromFile_whole list f hf
  rw [h1]
  simp only [Option.map_some', MemberList.toRecordStore, RecordStore.load, h2, h3, h5,
    nextId_fold_eq_max Member.memberID f.records 1, Option.some.injEq, Prod.mk.injEq,
    RecordStore.mk.injEq, true_and, and_true]
  split_ifs <;> omega

/-- `addEquipment` is the insert of the specification. -/
theorem addEquipment_refines (list : EquipmentList) (equipment : Equipment) (h : list.WellFormed) :
    (addEquipment list equipment).map EquipmentList.toRecordStore
      = some (list.toRecordStore.insert equipment) := by
  obtain ⟨hA, hInv, hcap⟩ := h
  obtain ⟨list1, h1, h2, h3, _, _, h6, _⟩ := addEquipment_ok list equipment hA hInv.1 hInv.2 hcap
  rw [h1]
  simp only [Option.map_some', EquipmentList.toRecordStore, RecordStore.insert, h2, h3, h6,
    Option.some.injEq, RecordStore.mk.injEq, true_and]
  split_ifs <;> omega

/-- `deleteEquipment` is the delete of the specification; it prints nothing
exactly when the id was found. -/
theorem deleteEquipment_refines (list : EquipmentList) (equipmentID : Int) (h : list.WellFormed) :
    (deleteEquipment list equipmentID).map (fun p => (p.1.toRecordStore, p.2.isEmpty))
      = some (RecordStore.deleteById Equipment.id list.toRecordStore equipmentID) := by
  obtain ⟨hA, hInv, hcap⟩ := h
  have ht := tdiv_two list.capacity (by omega)
  by_cases hp : ∃ r ∈ list.records, r.id = equipmentID
  · obtain ⟨pre, x, mid, hs, hx, hpre⟩ := exists_first_match Equipment.id equipmentID _ hp
    obtain ⟨list1, a1, a2, a3, a4, _⟩ :=
      deleteEquipment_found list equipmentID pre x mid hA hInv.2 hs hx hpre
    have hidx := findIdx_first_match Equipment.id equipmentID x mid hx pre hpre
    have hlt : pre.length < (pre ++ x :: mid).length := by simp
    rw [a1]
    simp only [Option.map_some', EquipmentList.toRecordStore, RecordStore.deleteById, hs, hidx,
      if_pos hlt, eraseIdx_first_match, a2, a3, a4, ht, List.isEmpty_nil]
  · have hno : ∀ r ∈ list.records, r.id ≠ equipmentID := fun r hr hk => hp ⟨r, hr, hk⟩
    have hidx : list.records.findIdx (fun r => decide (r.id = equipmentID))
        = list.records.length :=
      List.findIdx_eq_length_of_false (by simpa using hno)
    rw [deleteEquipment_not_found list equipmentID hA hInv.2 hno]
    simp only [Option.map_some', EquipmentList.toRecordStore, RecordStore.deleteById, hidx,
      lt_self_iff_false, if_false, List.isEmpty_cons]

/-- `loadEquipmentFromFile` on a whole file is the load of the specification. -/
theorem loadEquipmentFromFile_refines (list : EquipmentList) (f : DataFile Equipment)
    (hf : f.count = (f.records.length : Int)) :
    (loadEquipmentFromFile list (some f)).map (fun p => (p.1.toRecordStore, p.2))
      = some (RecordStore.load Equipment.id f) := by
  obtain ⟨list1, h1, h2, h3, _, h5⟩ := loadEquipmentFromFile_whole list f hf
  rw [h1]
  simp only [Option.map_some', EquipmentList.toRecordStore, RecordStore.load, h2, h3, h5,
    nextId_fold_eq_max Equipment.id f.records 1, Option.some.injEq, Prod.mk.injEq,
    RecordStore.mk.injEq, true_and, and_true]
  split_ifs <;> omega

/-- `addMember`, `deleteMember` and `loadMembersFromFile` on ids, count and
capacity are the operations of the specification on ids. -/
theorem memberStore_on_ids (list list0 : MemberList) (member : Member) (memberID : Int)
    (f : DataFile Member) (h : list.WellFormed) (hf : f.count = (f.records.length : Int)) :
    (addMember list member).map (fun l => l.toRecordStore.ids Member.memberID)
      = some ((list.toRecordStore.ids Member.memberID).insert member.memberID) ∧
    (deleteMember list memberID).map
        (fun p => (p.1.toRecordStore.ids Member.memberID, p.2.isEmpty))
      = some (RecordStore.deleteById (fun i : Int => i)
          (list.toRecordStore.ids Member.memberID) memberID) ∧
    (loadMembersFromFile list0 (some f)).map
        (fun p => (p.1.toRecordStore.ids Member.memberID, p.2))
      = some (RecordStore.load (fun i : Int => i) (f.ids Member.memberID)) := by
  refine ⟨?_, ?_, ?_⟩
  · have h1 := addMember_refines list member h
    cases hr : addMember list member with
    | none => rw [hr] at h1; cases h1
    | some l1 =>
      rw [hr] at h1
      simp only [Option.map_some', Option.some.injEq] at h1 ⊢
      rw [h1, RecordStore.ids_insert]
  · have h1 := deleteMember_refines list memberID h
    cases hr : deleteMember list memberID with
    | none => rw [hr] at h1; cases h1
    | some p =>
      rw [hr] at h1
      simp only [Option.map_some', Option.some.injEq] at h1 ⊢
      rw [← RecordStore.ids_deleteById, ← h1]
  · have h1 := loadMembersFromFile_refines list0 f hf
    cases hr : loadMembersFromFile list0 (some f) with
    | none => rw [hr] at h1; cases h1
    | some p =>
      rw [hr] at h1
      simp only [Option.map_some', Option.some.injEq] at h1 ⊢
      rw [← RecordStore.ids_load, ← h1]

/-- `addEquipment`, `deleteEquipment` and `loadEquipmentFromFile` on ids, count and
capacity are the operations of the specification on ids. -/
theorem equipmentStore_on_ids (list list0 : EquipmentList) (equipment : Equipment) (equipmentID : Int)
    (f : DataFile Equipment) (h : list.WellFormed) (hf : f.count = (f.records.length : Int)) :
    (addEquipment list equipment).map (fun l => l.toRecordStore.ids Equipment.id)
      = some ((list.toRecordStore.ids Equipment.id).insert equipment.id) ∧
    (deleteEquipment list equipmentID).map
        (fun p => (p.1.toRecordStore.ids Equipment.id, p.2.isEmpty))
      = some (RecordStore.deleteById (fun i : Int => i)
          (list.toRecordStore.ids Equipment.id) equipmentID) ∧
    (loadEquipmentFromFile list0 (some f)).map
        (fun p => (p.1.toRecordStore.ids Equipment.id, p.2))
      = some (RecordStore.load (fun i : Int => i) (f.ids Equipment.id)) := by
  refine ⟨?_, ?_, ?_⟩
  · have h1 := addEquipment_refines list equipment h
    cases hr : addEquipment list equipment with
    | none => rw [hr] at h1; cases h1
    | some l1 =>
      rw [hr] at h1
      simp only [Option.map_some', Option.some.injEq] at h1 ⊢
      rw [h1, RecordStore.ids_insert]
  · have h1 := deleteEquipment_refines list equipmentID h
    cases hr : deleteEquipment list equipmentID with
    | none => rw [hr] at h1; cases h1
    | some p =>
      rw [hr] at h1
      simp only [Option.map_some', Option.some.injEq] at h1 ⊢
      rw [← RecordStore.ids_deleteById, ← h1]
  · have h1 := loadEquipmentFromFile_refines list0 f hf
    cases hr : loadEquipmentFromFile list0 (some f) with
    | none => rw [hr] at h1; cases h1
    | some p =>
      rw [hr] at h1
      simp only [Option.map_some', Option.some.injEq] at h1 ⊢
      rw [← RecordStore.ids_load, ← h1]

/-- C26: `addMember` and `addEquipment` are the insert of the one generic
record store of the specification, `deleteMember` and `deleteEquipment` its
delete, the two load functions its load; with every record abstracted to its
id, two stores with the same ids, count and capacity get the same ids, count
and capacity from an insert of the same id and from a delete of the same id,
and two files with the same count and ids load to the same ids, count,
capacity and next id. -/
theorem stores_are_one_record_store (ml ml0 : MemberList) (m : Member)
    (mf : DataFile Member) (el el0 : EquipmentList) (e : Equipment)
    (ef : DataFile Equipment) (id : Int)
    (hmWF : ml.WellFormed) (heWF : el.WellFormed)
    (hmf : mf.count = (mf.records.length : Int)) (hef : ef.count = (ef.records.length : Int)) :
    ((addMember ml m).map MemberList.toRecordStore = some (ml.toRecordStore.insert m) ∧
      (deleteMember ml id).map (fun p => (p.1.toRecordStore, p.2.isEmpty))
        = some (RecordStore.deleteById Member.memberID ml.toRecordStore id) ∧
      (loadMembersFromFile ml0 (some mf)).map (fun p => (p.1.toRecordStore, p.2))
        = some (RecordStore.load Member.memberID mf)) ∧
    ((addEquipment el e).map EquipmentList.toRecordStore = some (el.toRecordStore.insert e) ∧
      (deleteEquipment el id).map (fun p => (p.1.toRecordStore, p.2.isEmpty))
        = some (RecordStore.deleteById Equipment.id el.toRecordStore id) ∧
      (loadEquipmentFromFile el0 (some ef)).map (fun p => (p.1.toRecordStore, p.2))
        = some (RecordStore.load Equipment.id ef)) ∧
    (ml.toRecordStore.ids Member.memberID = el.toRecordStore.ids Equipment.id →
      (m.memberID = e.id →
        (addMember ml m).map (fun l => l.toRecordStore.ids Member.memberID)
          = (addEquipment el e).map (fun l => l.toRecordStore.ids Equipment.id)) ∧
      (deleteMember ml id).map (fun p => (p.1.toRecordStore.ids Member.memberID, p.2.isEmpty))
        = (deleteEquipment el id).map
            (fun p => (p.1.toRecordStore.ids Equipment.id, p.2.isEmpty))) ∧
    (mf.ids Member.memberID = ef.ids Equipment.id →
      (loadMembersFromFile ml0 (some mf)).map
          (fun p => (p.1.toRecordStore.ids Member.memberID, p.2))
        = (loadEquipmentFromFile el0 (some ef)).map
            (fun p => (p.1.toRecordStore.ids Equipment.id, p.2))) := by
  obtain ⟨a1, a2, a3⟩ := memberStore_on_ids ml ml0 m id mf hmWF hmf
  obtain ⟨b1, b2, b3⟩ := equipmentStore_on_ids el el0 e id ef heWF hef
  refine ⟨⟨addMember_refines ml m hmWF, deleteMember_refines ml id hmWF,
      loadMembersFromFile_refines ml0 mf hmf⟩,
    ⟨addEquipment_refines el e heWF, deleteEquipment_refines el id heWF,
      loadEquipmentFromFile_refines el0 ef hef⟩, ?_, ?_⟩
  · intro hids
    refine ⟨?_, ?_⟩
    · intro hkey
      rw [a1, b1, hids, hkey]
    · rw [a2, b2, hids]
  · intro hfile
    rw [a3, b3, hfile]

theorem stores_are_one_record_store_witness :
    (addMember (memberListOf [4, 7]) (sampleMember 9)).map
        (fun l => l.toRecordStore.ids Member.memberID)
      = (addEquipment (equipmentListOf [4, 7]) (sampleEquipment 9)).map
          (fun l => l.toRecordStore.ids Equipment.id) ∧
    (deleteMember (memberListOf [4, 7]) 4).map
        (fun p => (p.1.toRecordStore.ids Member.memberID, p.2.isEmpty))
      = (deleteEquipment (equipmentListOf [4, 7]) 4).map
          (fun p => (p.1.toRecordStore.ids Equipment.id, p.2.isEmpty)) ∧
    (loadMembersFromFile newMemberList (some ⟨2, [sampleMember 4, sampleMember 7]⟩)).map
        (fun p => (p.1.toRecordStore.ids Member.memberID, p.2))
      = (loadEquipmentFromFile newEquipmentList
          (some ⟨2, [sampleEquipment 4, sampleEquipment 7]⟩)).map
          (fun p => (p.1.toRecordStore.ids Equipment.id, p.2)) :=
  have h := stores_are_one_record_store (memberListOf [4, 7]) newMemberList (sampleMember 9)
    ⟨2, [sampleMember 4, sampleMember 7]⟩ (equipmentListOf [4, 7]) newEquipmentList
    (sampleEquipment 9) ⟨2, [sampleEquipment 4, sampleEquipment 7]⟩ 4
    (by decide) (by decide) (by decide) (by decide)
  ⟨(h.2.2.1 (by decide)).1 (by decide), (h.2.2.1 (by decide)).2, h.2.2.2 (by decide)⟩

end GymMS
